import Mathlib

/-!
The state-server repository: geospatial engine and in-memory store.

A shallow embedding of `pkg/geospatial` (coordinates, polygon rings, ray casting,
states), `pkg/api/backend` (the in-memory store), and of the parts of `pkg/api`
that decide what the handlers answer, followed by theorems about the embedded
functions.

Go's `float64` is embedded as IEEE-754 binary64, field by field; the comparison
operators, `math.Nextafter`, subtraction and division follow the Go language
specification and the Go standard library.

Two libraries outside the repository are parameters of the definitions that call
them: the turning angle of the s2 geometry library (`turningAngle`) and the title
caser of golang.org/x/text (`title`). The definitions with the parameter
`turningAngle` describe the runs in which the s2 call returns an angle; the section
on run-time checks repeats them with the parameter `s2Angle`, a call that returns
an angle or panics.

The latitude loop of `rayIntersectsEdge` has no bound in the source. It is embedded
with a fuel, the number of times its condition may be tested, and answers `none`
when the fuel is spent with the loop still running; `Contains` passes the fuel on.

The store operations are embedded as functions from store to store. Callers of
`Create` that run at the same time are embedded as interleaved step sequences
under the write lock of the store.
-/

namespace StateServer

/-! ## IEEE-754 binary64 -/

/-- A Go `float64`: sign bit, 11-bit biased exponent, 52-bit fraction. -/
structure Float64 where
  sign : Bool
  exp : Fin 2048
  frac : Fin 4503599627370496
  deriving DecidableEq, Repr

namespace Float64

/-- The value of 2^52, the weight of the exponent field inside the bit pattern. -/
def twoP52 : Nat := 4503599627370496

/-- The magnitude bits (exponent and fraction, the low 63 bits of the pattern). -/
def mag (x : Float64) : Nat := x.exp.val * twoP52 + x.frac.val

/-- Builds a float from a sign and 63 magnitude bits. -/
def ofMag (s : Bool) (m : Nat) : Float64 :=
  ⟨s, Fin.ofNat (m / twoP52), Fin.ofNat m⟩

/-- Go's `math.IsNaN`. -/
def isNaN (x : Float64) : Bool := x.exp.val == 2047 && x.frac.val != 0

/-- Infinite of either sign. -/
def isInf (x : Float64) : Bool := x.exp.val == 2047 && x.frac.val == 0

/-- Zero of either sign. -/
def isZero (x : Float64) : Bool := x.mag == 0

/-- Position of a non-NaN float on the extended number line; both zeros map to 0.
Bit patterns of one sign are ordered like the numbers they denote. -/
def key (x : Float64) : Int := if x.sign then -(x.mag : Int) else (x.mag : Int)

/-- Go's `==` on float64. -/
def eq (x y : Float64) : Bool := !x.isNaN && !y.isNaN && decide (x.key = y.key)

/-- Go's `<` on float64. -/
def lt (x y : Float64) : Bool := !x.isNaN && !y.isNaN && decide (x.key < y.key)

/-- Go's `>` on float64. -/
def gt (x y : Float64) : Bool := lt y x

/-- Go's `>=` on float64. -/
def ge (x y : Float64) : Bool := !x.isNaN && !y.isNaN && decide (y.key ≤ x.key)

/-- Go's `math.NaN()`. -/
def nan : Float64 := ⟨false, 2047, 2251799813685249⟩

/-- Go's `math.Inf(1)` and `math.Inf(-1)`. -/
def inf (neg : Bool) : Float64 := ⟨neg, 2047, 0⟩

/-- Signed zero. -/
def zero (neg : Bool) : Float64 := ⟨neg, 0, 0⟩

/-- Go's `math.Nextafter(x, math.Inf(1))`: NaN for NaN, `x` itself when `x` is
already `+Inf`, the smallest positive subnormal for either zero, otherwise the
bit pattern one step up (positive) or one step down (negative). -/
def nextafterInf (x : Float64) : Float64 :=
  if x.isNaN then nan
  else if eq x (inf false) then x
  else if eq x (zero false) then ofMag false 1
  else if gt x (zero false) then ofMag false (x.mag + 1)
  else ofMag true (x.mag - 1)

/-- Signed integer significand `m` and exponent `e` of a finite float: the value is
`m * 2^e`. -/
def decode (x : Float64) : Int × Int :=
  let m : Nat := if x.exp.val = 0 then x.frac.val else twoP52 + x.frac.val
  let e : Int := if x.exp.val = 0 then -1074 else (x.exp.val : Int) - 1075
  (if x.sign then -(m : Int) else (m : Int), e)

/-- Index of the highest set bit of `n` (0 for 0), by halving; `fuel` bounds the
number of halvings and `n` itself always suffices. -/
def log2Fuel : Nat → Nat → Nat
  | 0, _ => 0
  | fuel + 1, n => if n < 2 then 0 else log2Fuel fuel (n / 2) + 1

/-- Floor of the binary logarithm. -/
def log2 (n : Nat) : Nat := log2Fuel n n

/-- Rounds the positive rational `n / d` to the nearest float, ties to even, and
attaches the sign; overflows to infinity. -/
def roundRat (neg : Bool) (n d : Nat) : Float64 :=
  let e0 : Int := (log2 n : Int) - (log2 d : Int)
  -- floor (log2 (n / d)) is e0 or e0 - 1
  let big : Bool := if 0 ≤ e0 then decide (d * 2 ^ e0.toNat ≤ n) else decide (d ≤ n * 2 ^ (-e0).toNat)
  let e : Int := if big then e0 else e0 - 1
  let q : Int := max (e - 52) (-1074)
  let num : Nat := if 0 ≤ q then n else n * 2 ^ (-q).toNat
  let den : Nat := if 0 ≤ q then d * 2 ^ q.toNat else d
  let m : Nat := num / den
  let r : Nat := num % den
  let up : Bool := decide (den < 2 * r) || (decide (2 * r = den) && decide (m % 2 = 1))
  let m1 : Nat := if up then m + 1 else m
  let bits : Nat := (q + 1074).toNat * twoP52 + m1
  if 2047 * twoP52 ≤ bits then inf neg else ofMag neg bits

/-- Go's `x - y` on float64 (IEEE-754 subtraction, round to nearest even). A zero
operand is handled first (`x - 0` is `x` and `0 - y` is `-y`, both exact); an exact
zero difference is `+0` unless it is `(-0) - (+0)`. Every NaN result is the one
value `nan`: which NaN the hardware returns is not represented. -/
def sub (x y : Float64) : Float64 :=
  if x.isNaN || y.isNaN then nan
  else if x.isInf then (if y.isInf && x.sign == y.sign then nan else x)
  else if y.isInf then inf (!y.sign)
  else if y.isZero && !x.isZero then x
  else if x.isZero && !y.isZero then ⟨!y.sign, y.exp, y.frac⟩
  else
    let (mx, ex) := decode x
    let (my, ey) := decode y
    let e := min ex ey
    let v : Int := mx * 2 ^ (ex - e).toNat - my * 2 ^ (ey - e).toNat
    if v = 0 then zero (x.sign && !y.sign)
    else if 0 ≤ e then roundRat (decide (v < 0)) (v.natAbs * 2 ^ e.toNat) 1
    else roundRat (decide (v < 0)) v.natAbs (2 ^ (-e).toNat)

/-- Go's `x / y` on float64 (IEEE-754 division, round to nearest even): a nonzero
number divided by a zero is an infinity, `0 / 0` and `Inf / Inf` are NaN. -/
def div (x y : Float64) : Float64 :=
  let s : Bool := x.sign != y.sign
  if x.isNaN || y.isNaN then nan
  else if x.isInf then (if y.isInf then nan else inf s)
  else if y.isInf then zero s
  else if y.isZero then (if x.isZero then nan else inf s)
  else if x.isZero then zero s
  else
    let (mx, ex) := decode x
    let (my, ey) := decode y
    let e := ex - ey
    if 0 ≤ e then roundRat s (mx.natAbs * 2 ^ e.toNat) my.natAbs
    else roundRat s mx.natAbs (my.natAbs * 2 ^ (-e).toNat)

/-- The float nearest to a natural number. -/
def ofNat (n : Nat) : Float64 := if n = 0 then zero false else roundRat false n 1

/-- The float nearest to the decimal `n / d`, negated when `neg`. -/
def ofRat (neg : Bool) (n d : Nat) : Float64 := if n = 0 then zero neg else roundRat neg n d

end Float64

/-! ## pkg/geospatial -/

/-- A point as longitude and latitude (`coordinate.go`). -/
structure Coordinate where
  Lng : Float64
  Lat : Float64
  deriving DecidableEq, Repr

/-- Constructor with arguments ordered latitude, longitude (`LatLng`). -/
def LatLng (lat lng : Float64) : Coordinate := ⟨lng, lat⟩

/-- Go's `==` on the `Coordinate` struct: field-wise float comparison. -/
def Coordinate.goEq (c d : Coordinate) : Bool := c.Lng.eq d.Lng && c.Lat.eq d.Lat

/-- Go's `!=` on the `Coordinate` struct. -/
def Coordinate.goNe (c d : Coordinate) : Bool := !c.goEq d

/-- The ring too short message (`errors.go`). -/
def RingTooShort : String := "polygon ring too short, must contain at least 4 positions"

/-- The ring unclosed message (`errors.go`). -/
def RingUnclosed : String := "polygon ring must be closed, first and last positions must be equal"

/-- The counter-clockwise message (`errors.go`). -/
def RingCounterClockwise : String := "polygon exterior ring must be clockwise"

/-- Values of Go's `error` interface that the two packages produce: the result of
`fmt.Errorf`, the two geometry errors and the two backend errors. -/
inductive GoError where
  | errorString (msg : String)
  | InvalidGeometryError (msg : String)
  | RighthandRuleError (Angle : Float64)
  | StateNotFoundError (Name : String)
  | InvalidStateError (Err : GoError)
  deriving DecidableEq, Repr

/-- The `Error()` method of each error type; `fmtF` renders a float with the verb
`%f` of package `fmt`. -/
def GoError.Error (fmtF : Float64 → String) : GoError → String
  | .errorString msg => msg
  | .InvalidGeometryError msg => msg
  | .RighthandRuleError angle => RingCounterClockwise ++ ("(angle is " ++ fmtF angle ++ ")")
  | .StateNotFoundError name => "no state found with name: " ++ name
  | .InvalidStateError err => err.Error fmtF

/-- The target test of `errors.As(err, &invalidGeometryError)`. -/
def GoError.isInvalidGeometryError : GoError → Bool
  | .InvalidGeometryError _ => true
  | _ => false

deriving instance DecidableEq for Except

/-- An ordered ring of coordinates (`type Polygon []Coordinate`). -/
abbrev Polygon := List Coordinate

/-- A pair of consecutive ring positions (`type edge`). -/
structure edge where
  p1 : Coordinate
  p2 : Coordinate
  deriving DecidableEq, Repr

/-! The function `turningAngle` of `polygon.go` hands the ring to the s2 geometry
library (`s2.LoopFromPoints(points).TurningAngle()`); the library is outside the
repository, so the value it returns for a coordinate sequence is the parameter
`turningAngle` of every definition that reaches it. -/

/-- The method `Polygon.Validate`: `none` is Go's `nil` error. -/
def Validate (turningAngle : List Coordinate → Float64) (p : Polygon) : Option GoError :=
  if h : p.length < 4 then
    some (.InvalidGeometryError RingTooShort)
  else if (p.get ⟨p.length - 1, by omega⟩).goNe (p.get ⟨0, by omega⟩) then
    some (.InvalidGeometryError RingUnclosed)
  else
    let angle := turningAngle p
    if angle.gt (Float64.zero false) then some (.RighthandRuleError angle) else none

/-- The constructor `NewPolygon`: `(nil, err)` is `.error err`, `(&p, nil)` is `.ok p`.
`turningAngle` is the angle the s2 call returns; the runs in which that call panics
are those of `NewPolygonChecked`. -/
def NewPolygon (turningAngle : List Coordinate → Float64) (coords : List Coordinate) :
    Except GoError Polygon :=
  let vertices := coords
  let built : Except GoError Polygon :=
    if (turningAngle vertices).gt (Float64.zero false) then .ok vertices.reverse else .ok vertices
  match Validate turningAngle coords with
  | some err => if err.isInvalidGeometryError then .error err else built
  | none => built

/-- The latitude loop of `rayIntersectsEdge`,
`for p.Lat == a.Lat || p.Lat == b.Lat { p.Lat = math.Nextafter(p.Lat, math.Inf(1)) }`,
run for at most `fuel` tests of its condition; `none` when the loop is still
running after that. -/
def nudge : Nat → Float64 → Float64 → Float64 → Option Float64
  | 0, _, _, _ => none
  | fuel + 1, lat, a, b =>
    if lat.eq a || lat.eq b then nudge fuel lat.nextafterInf a b else some lat

/-- The function `rayIntersectsEdge`, with the fuel of its loop. -/
def rayIntersectsEdge (fuel : Nat) (p : Coordinate) (e : edge) : Option Bool :=
  let ab : Coordinate × Coordinate := if e.p1.Lat.lt e.p2.Lat then (e.p1, e.p2) else (e.p2, e.p1)
  let a := ab.1
  let b := ab.2
  match nudge fuel p.Lat a.Lat b.Lat with
  | none => none
  | some lat =>
    if lat.lt a.Lat || lat.gt b.Lat then some false
    else if a.Lng.gt b.Lng then
      if p.Lng.gt a.Lng then some false
      else if p.Lng.lt b.Lng then some true
      else some (((lat.sub a.Lat).div (p.Lng.sub a.Lng)).ge ((b.Lat.sub a.Lat).div (b.Lng.sub a.Lng)))
    else
      if p.Lng.gt b.Lng then some false
      else if p.Lng.lt a.Lng then some true
      else some (((lat.sub a.Lat).div (p.Lng.sub a.Lng)).ge ((b.Lat.sub a.Lat).div (b.Lng.sub a.Lng)))

/-- The loop of `Polygon.Contains` from index `i` on: `rest` is `p[i-1:]` and
`contains` the flag accumulated so far. -/
def containsLoop (fuel : Nat) (coord : Coordinate) : List Coordinate → Bool → Option Bool
  | prev :: cur :: rest, contains =>
    match rayIntersectsEdge fuel coord ⟨prev, cur⟩ with
    | none => none
    | some hit => containsLoop fuel coord (cur :: rest) (if hit then !contains else contains)
  | _, contains => some contains

/-- The method `Polygon.Contains`. -/
def Contains (fuel : Nat) (p : Polygon) (coord : Coordinate) : Option Bool :=
  containsLoop fuel coord p false

/-- A name and a border (`state.go`). -/
structure State where
  Name : String
  Border : Polygon
  deriving DecidableEq, Repr

/-- Go's zero value `State{}`. -/
def State.empty : State := ⟨"", []⟩

/-- The constructor `NewState`, returning the pair `(state, err)`; `len(name)` is
the length in bytes. -/
def NewState (turningAngle : List Coordinate → Float64) (name : String)
    (coords : List Coordinate) : State × Option GoError :=
  if name.utf8ByteSize < 2 then
    (State.empty, some (.errorString ("invalid name for state, minimum length is 2: " ++ name)))
  else
    match NewPolygon turningAngle coords with
    | .error err => (State.empty, some err)
    | .ok border => (⟨name, border⟩, none)

/-- The method `State.Contains`. -/
def State.Contains (fuel : Nat) (s : State) (coordinate : Coordinate) : Option Bool :=
  StateServer.Contains fuel s.Border coordinate

/-! ## JSON forms

The methods `MarshalJSON` and `UnmarshalJSON` hand the bytes to `encoding/json`, a
library outside the repository. JSON bytes are represented by what the decoder of
that library makes of them for the Go value it is asked to fill: an error, or the
decoded numbers. A number literal is the `float64` it reads as; the library writes
a finite `float64` so that it reads back as the same `float64`, and, as its
documentation says, returns an `UnsupportedValueError` for NaN and for the
infinities. -/

/-- Neither NaN nor an infinity. -/
def Float64.isFinite (x : Float64) : Bool := x.exp.val != 2047

/-- JSON bytes as `json.Unmarshal(data, &coord)` reads them into `coord []float64`:
the error it returns, or the sequence it leaves in `coord`. -/
inductive FloatsJSON where
  | undecodable (err : GoError)
  | floats (coord : List Float64)
  deriving DecidableEq, Repr

/-- The message of the `UnsupportedValueError` of `encoding/json` for the first
element that is not finite, if there is one. -/
def jsonUnsupported : List Float64 → Option String
  | [] => none
  | x :: rest =>
    if x.isNaN then some "json: unsupported value: NaN"
    else if x.isInf then some (if x.sign then "json: unsupported value: -Inf"
      else "json: unsupported value: +Inf")
    else jsonUnsupported rest

/-- The call `json.Marshal(xs)` on a `[]float64`. -/
def jsonMarshalFloats (xs : List Float64) : Except GoError FloatsJSON :=
  match jsonUnsupported xs with
  | some msg => .error (.errorString msg)
  | none => .ok (.floats xs)

/-- The method `Coordinate.MarshalJSON`. -/
def Coordinate.MarshalJSON (c : Coordinate) : Except GoError FloatsJSON :=
  jsonMarshalFloats [c.Lng, c.Lat]

/-- The method `Coordinate.UnmarshalJSON` on the target `c`: the target after the
call and the returned error. -/
def Coordinate.UnmarshalJSON (c : Coordinate) (data : FloatsJSON) : Coordinate × Option GoError :=
  match data with
  | .undecodable err => (c, some err)
  | .floats coord =>
    if h : coord.length ≠ 2 then
      (c, some (.errorString "invalid coordinate: expecting latitude and longitude"))
    else
      (LatLng (coord.get ⟨1, by omega⟩) (coord.get ⟨0, by omega⟩), none)

/-- JSON bytes as `json.Unmarshal(data, &coordinates)` reads them into
`coordinates []Coordinate`: the error it returns before it reaches an element, or
the bytes of the elements of the array, each of which it hands to
`Coordinate.UnmarshalJSON`. -/
inductive CoordinatesJSON where
  | undecodable (err : GoError)
  | elements (items : List FloatsJSON)
  deriving DecidableEq, Repr

/-- The elements of an array decoded in order, each into a fresh `Coordinate`; the
first error ends the decoding. -/
def decodeElements : List FloatsJSON → Except GoError (List Coordinate)
  | [] => .ok []
  | item :: rest =>
    match Coordinate.UnmarshalJSON ⟨Float64.zero false, Float64.zero false⟩ item with
    | (_, some err) => .error err
    | (c, none) =>
      match decodeElements rest with
      | .error err => .error err
      | .ok cs => .ok (c :: cs)

/-- The call `json.Unmarshal(data, &coordinates)` on a `[]Coordinate`. -/
def jsonUnmarshalCoordinates (data : CoordinatesJSON) : Except GoError (List Coordinate) :=
  match data with
  | .undecodable err => .error err
  | .elements items => decodeElements items

/-- The elements of a `[]Coordinate` encoded in order through
`Coordinate.MarshalJSON`; the library wraps the error of an element in a
`MarshalerError`. -/
def encodeElements : List Coordinate → Except GoError (List FloatsJSON)
  | [] => .ok []
  | c :: rest =>
    match c.MarshalJSON with
    | .error (.errorString msg) =>
      .error (.errorString
        ("json: error calling MarshalJSON for type geospatial.Coordinate: " ++ msg))
    | .error err => .error err
    | .ok item =>
      match encodeElements rest with
      | .error err => .error err
      | .ok items => .ok (item :: items)

/-- The method `Polygon.MarshalJSON`. -/
def Polygon.MarshalJSON (p : Polygon) : Except GoError CoordinatesJSON :=
  match encodeElements p with
  | .error err => .error err
  | .ok items => .ok (.elements items)

/-- The method `Polygon.UnmarshalJSON` on the target `p`: the target after the call
and the returned error. -/
def Polygon.UnmarshalJSON (turningAngle : List Coordinate → Float64) (p : Polygon)
    (data : CoordinatesJSON) : Polygon × Option GoError :=
  match jsonUnmarshalCoordinates data with
  | .error err => (p, some err)
  | .ok coordinates =>
    match NewPolygon turningAngle coordinates with
    | .error err => (p, some err)
    | .ok polygon => (polygon, none)

/-! ## pkg/api/backend -/

/-- Go's `map[string]geospatial.State`, as the list of its entries. -/
abbrev StateMap := List (String × State)

/-- The map read `m[k]` with its `ok` flag. -/
def StateMap.get : StateMap → String → Option State
  | [], _ => none
  | (k', v) :: rest, k => if k' = k then some v else StateMap.get rest k

/-- The map write `m[k] = v`: replaces the entry of `k` or adds one. -/
def StateMap.set : StateMap → String → State → StateMap
  | [], k, v => [(k, v)]
  | (k', v') :: rest, k, v =>
    if k' = k then (k, v) :: rest else (k', v') :: StateMap.set rest k v

/-- The builtin `delete(m, k)`. -/
def StateMap.delete (m : StateMap) (k : String) : StateMap :=
  m.filter (fun e => decide (e.1 ≠ k))

/-- The store `StateLocationMemoryStore`: the `states` map. The `formatter` field is
the title caser `cases.Title(language.AmericanEnglish)` of golang.org/x/text, a
library outside the repository: its `String` method is the parameter `title` of
every store operation. The mutex serialises the operations, which are embedded
as run one at a time. -/
structure StateLocationMemoryStore where
  states : StateMap
  deriving DecidableEq, Repr

/-- The constructor `NewMemoryStore`. -/
def NewMemoryStore : StateLocationMemoryStore := ⟨[]⟩

/-- The method `GetAll`. -/
def GetAll (s : StateLocationMemoryStore) : List State × Option GoError :=
  (s.states.map (fun e => e.2), none)

/-- The method `GetByName`. -/
def GetByName (title : String → String) (s : StateLocationMemoryStore) (name : String) :
    State × Option GoError :=
  match s.states.get (title name) with
  | some state => (state, none)
  | none => (State.empty, some (.StateNotFoundError name))

/-- The method `Create`: the store after the call, the returned state and the
returned error. -/
def Create (title : String → String) (turningAngle : List Coordinate → Float64)
    (s : StateLocationMemoryStore) (state : State) :
    StateLocationMemoryStore × State × Option GoError :=
  let state : State := ⟨title state.Name, state.Border⟩
  match NewState turningAngle state.Name state.Border with
  | (_, some err) => (s, State.empty, some (.InvalidStateError err))
  | (created, none) =>
    match s.states.get created.Name with
    | some _ =>
      (s, State.empty, some (.InvalidStateError (.errorString ("duplicate state: " ++ state.Name))))
    | none => (⟨s.states.set created.Name created⟩, created, none)

/-- The method `Delete`: the store after the call and the returned error. -/
def Delete (title : String → String) (s : StateLocationMemoryStore) (name : String) :
    StateLocationMemoryStore × Option GoError :=
  (⟨s.states.delete (title name)⟩, none)

/-- The stores a program can hold: the new store and whatever `Create` and `Delete`
leave behind (the `states` field is unexported). -/
inductive Reachable (title : String → String) (turningAngle : List Coordinate → Float64) :
    StateLocationMemoryStore → Prop where
  | new : Reachable title turningAngle NewMemoryStore
  | create (s : StateLocationMemoryStore) (state : State) :
      Reachable title turningAngle s → Reachable title turningAngle (Create title turningAngle s state).1
  | delete (s : StateLocationMemoryStore) (name : String) :
      Reachable title turningAngle s → Reachable title turningAngle (Delete title s name).1

/-! ## Sequences of store calls -/

/-- A call that changes the store. -/
inductive StoreOp where
  | create (state : State)
  | delete (name : String)
  deriving DecidableEq, Repr

/-- One call on the store, together with the bookkeeping of the names that are
live: the title-cased name of a region is added when its `Create` returns no error
and the title-cased form of a name is removed when `Delete` is called with it. -/
def stepOp (title : String → String) (turningAngle : List Coordinate → Float64)
    (sl : StateLocationMemoryStore × List String) (op : StoreOp) :
    StateLocationMemoryStore × List String :=
  match op with
  | .create state =>
    ((Create title turningAngle sl.1 state).1,
      if (Create title turningAngle sl.1 state).2.2 = none then title state.Name :: sl.2
      else sl.2)
  | .delete name => ((Delete title sl.1 name).1, sl.2.filter (fun k => decide (k ≠ title name)))

/-- The store after a sequence of calls on the new store, first call first, and the
names that are live then. -/
def runOps (title : String → String) (turningAngle : List Coordinate → Float64)
    (ops : List StoreOp) : StateLocationMemoryStore × List String :=
  ops.foldl (stepOp title turningAngle) (NewMemoryStore, [])

/-! ## Callers of `Create` running at the same time

`Create` takes the write lock of the `sync.RWMutex` of the store first
(`s.mu.Lock()`) and releases it on return (`defer s.mu.Unlock()`). `sync` is a
library outside the repository; of its lock this much is used, from its
documentation: `Lock` blocks while the lock is held and takes it otherwise, and
`Unlock` releases it. The callers run interleaved: a scheduler picks, again and
again, the caller that takes its next step. The steps of a caller are taking the
lock, the computation of `NewState` on the title-cased name, the lookup in the map,
the write to the map, and the release of the lock with the return. -/

/-- Where a caller of `Create` stands: before `s.mu.Lock()`; holding the lock; after
`NewState` returned `created` without error; after the lookup found no entry; with
its results set and the deferred `Unlock` still to run; returned. -/
inductive Caller where
  | waiting (state : State)
  | locked (state : State)
  | validated (state created : State)
  | checked (state created : State)
  | leaving (result : State × Option GoError)
  | returned (result : State × Option GoError)
  deriving DecidableEq, Repr

/-- The store, whether its write lock is held, and the callers. -/
structure Shared where
  store : StateLocationMemoryStore
  held : Bool
  callers : List Caller

/-- The next step of caller `i`; nothing happens when the caller is blocked at
`Lock`, has returned, or does not exist. -/
def stepCaller (title : String → String) (turningAngle : List Coordinate → Float64)
    (c : Shared) (i : Nat) : Shared :=
  match c.callers[i]? with
  | some (.waiting r) =>
    if c.held then c else ⟨c.store, true, c.callers.set i (.locked r)⟩
  | some (.locked r) =>
    let state : State := ⟨title r.Name, r.Border⟩
    match NewState turningAngle state.Name state.Border with
    | (_, some err) =>
      ⟨c.store, c.held, c.callers.set i (.leaving (State.empty, some (.InvalidStateError err)))⟩
    | (created, none) => ⟨c.store, c.held, c.callers.set i (.validated state created)⟩
  | some (.validated state created) =>
    match c.store.states.get created.Name with
    | some _ =>
      ⟨c.store, c.held, c.callers.set i (.leaving (State.empty,
        some (.InvalidStateError (.errorString ("duplicate state: " ++ state.Name)))))⟩
    | none => ⟨c.store, c.held, c.callers.set i (.checked state created)⟩
  | some (.checked _ created) =>
    ⟨⟨c.store.states.set created.Name created⟩, c.held,
      c.callers.set i (.leaving (created, none))⟩
  | some (.leaving result) => ⟨c.store, false, c.callers.set i (.returned result)⟩
  | _ => c

/-- The callers run as the schedule says: its entries name the caller that takes
the next step, first entry first. -/
def runSchedule (title : String → String) (turningAngle : List Coordinate → Float64)
    (c : Shared) (schedule : List Nat) : Shared :=
  schedule.foldl (stepCaller title turningAngle) c

/-- One caller for each of the states given, none of which has taken the lock. -/
def startAll (s : StateLocationMemoryStore) (requests : List State) : Shared :=
  ⟨s, false, requests.map Caller.waiting⟩

/-- The caller has returned. -/
def Caller.isReturned : Caller → Bool
  | .returned _ => true
  | _ => false

/-- Every caller has returned. -/
def allReturned (c : Shared) : Bool := c.callers.all Caller.isReturned

/-- The error `Create` returns for a key the store holds. -/
def duplicateError (key : String) : GoError :=
  .InvalidStateError (.errorString ("duplicate state: " ++ key))

/-! ## pkg/api/location -/

/-- The schema `ErrorResponse` (`errors.go`). -/
structure ErrorResponse where
  Err : GoError
  StatusText : String
  ErrorText : String
  HTTPStatusCode : Nat
  deriving DecidableEq, Repr

/-- The constructor `NotFoundError`. -/
def NotFoundError (fmtF : Float64 → String) (err : GoError) : ErrorResponse :=
  ⟨err, "Not Found", err.Error fmtF, 404⟩

/-- The constructor `InternalServerError`. -/
def InternalServerError (fmtF : Float64 → String) (err : GoError) : ErrorResponse :=
  ⟨err, "Internal Server Error", err.Error fmtF, 500⟩

/-- The constructor `BadRequestError`. -/
def BadRequestError (fmtF : Float64 → String) (err : GoError) : ErrorResponse :=
  ⟨err, "Bad Request", err.Error fmtF, 400⟩

/-- The GeoJSON feature of `geojson.go`, its nested objects flattened. -/
structure Feature where
  FeatureType : String
  PropertiesState : String
  GeometryType : String
  GeometryCoordinates : List (List Coordinate)
  deriving DecidableEq, Repr

/-- The function `NewStateResponse` (`schema.go`). -/
def NewStateResponse (state : State) : Feature :=
  ⟨"Feature", state.Name, "Polygon", [state.Border]⟩

/-- What a handler answers: the status code and the value it rendered. -/
structure Response where
  status : Nat
  rendered : Except ErrorResponse Feature

/-- The answer of `render.Render(w, r, e)` for an `ErrorResponse`. -/
def renderError (e : ErrorResponse) : Response := ⟨e.HTTPStatusCode, .error e⟩

/-- The test `errors.As(err, &notFoundErr)` with target `*backend.StateNotFoundError`;
none of the error types has an `Unwrap` method, so only the error itself is tried. -/
def GoError.isStateNotFoundError : GoError → Bool
  | .StateNotFoundError _ => true
  | _ => false

/-- The test `errors.As(err, &invalidStateErr)` with target `*backend.InvalidStateError`. -/
def GoError.isInvalidStateError : GoError → Bool
  | .InvalidStateError _ => true
  | _ => false

/-- The handler `RouteHandler.GetState`; `getByName` is the method `GetByName` of the
store behind the `DataProvider` interface and `name` the URL parameter. -/
def GetState (fmtF : Float64 → String) (getByName : String → State × Option GoError)
    (name : String) : Response :=
  match getByName name with
  | (_, some err) =>
    if err.isStateNotFoundError then renderError (NotFoundError fmtF err)
    else renderError (InternalServerError fmtF err)
  | (state, none) => ⟨200, .ok (NewStateResponse state)⟩

/-- The handler `RouteHandler.CreateState`; `bound` is what `render.Bind` made of the
request body and `create` the method `Create` of the store. -/
def CreateState (fmtF : Float64 → String) (create : State → State × Option GoError)
    (bound : Except GoError State) : Response :=
  match bound with
  | .error err => renderError (BadRequestError fmtF err)
  | .ok state =>
    match create state with
    | (_, some err) =>
      if err.isInvalidStateError then renderError (BadRequestError fmtF err)
      else renderError (InternalServerError fmtF err)
    | (created, none) => ⟨201, .ok (NewStateResponse created)⟩

/-! ## Run-time checks

Go checks every index expression and every allocation at run time and panics when
the check fails, and a call into a library may panic as well. The definitions of
this section repeat `turningAngle`, `Validate`, `NewPolygon`, `NewState` and
`Create` with the panics spelled out. The call
`s2.LoopFromPoints(points).TurningAngle()` of the s2 library is the parameter
`s2Angle`: on the vertices handed to `turningAngle` it returns an angle or panics
(s2 falls back to exact arithmetic with `math/big`, whose `SetFloat64` panics on
NaN). -/

/-- A call returns a value or panics. -/
inductive Outcome (α : Type) where
  | returns (value : α)
  | panics (msg : String)
  deriving DecidableEq, Repr

/-- The index expression `p[i]`. -/
def indexChecked (p : List Coordinate) (i : Int) : Outcome Coordinate :=
  if 0 ≤ i ∧ i < p.length then
    match p[i.toNat]? with
    | some c => .returns c
    | none => .panics "index out of range"
  else .panics "index out of range"

/-- The function `turningAngle` with its checks: the allocation
`make([]s2.Point, len(vertices)-1)`, for each `i` below `len(vertices)-1` the
index expressions `points[i]` and `vertices[i]`, and the call into s2. -/
def turningAngleChecked (s2Angle : List Coordinate → Outcome Float64)
    (vertices : List Coordinate) : Outcome Float64 :=
  if (vertices.length : Int) - 1 < 0 then .panics "makeslice: len out of range"
  else if (List.range (vertices.length - 1)).all
      (fun i => decide (i < vertices.length - 1) && decide (i < vertices.length)) then
    s2Angle vertices
  else .panics "index out of range"

/-- The method `Polygon.Validate` with its checks. -/
def ValidateChecked (s2Angle : List Coordinate → Outcome Float64) (p : Polygon) :
    Outcome (Option GoError) :=
  if p.length < 4 then .returns (some (.InvalidGeometryError RingTooShort))
  else
    match indexChecked p ((p.length : Int) - 1), indexChecked p 0 with
    | .panics msg, _ => .panics msg
    | _, .panics msg => .panics msg
    | .returns last, .returns first =>
      if last.goNe first then .returns (some (.InvalidGeometryError RingUnclosed))
      else
        match turningAngleChecked s2Angle p with
        | .panics msg => .panics msg
        | .returns angle =>
          if angle.gt (Float64.zero false) then .returns (some (.RighthandRuleError angle))
          else .returns none

/-- The constructor `NewPolygon` with its checks. -/
def NewPolygonChecked (s2Angle : List Coordinate → Outcome Float64)
    (coords : List Coordinate) : Outcome (Except GoError Polygon) :=
  let vertices := coords
  let built : Outcome (Except GoError Polygon) :=
    match turningAngleChecked s2Angle vertices with
    | .panics msg => .panics msg
    | .returns angle =>
      if angle.gt (Float64.zero false) then .returns (.ok vertices.reverse)
      else .returns (.ok vertices)
  match ValidateChecked s2Angle coords with
  | .panics msg => .panics msg
  | .returns (some err) => if err.isInvalidGeometryError then .returns (.error err) else built
  | .returns none => built

/-- The constructor `NewState` with the panics of `NewPolygon`. -/
def NewStateChecked (s2Angle : List Coordinate → Outcome Float64) (name : String)
    (coords : List Coordinate) : Outcome (State × Option GoError) :=
  if name.utf8ByteSize < 2 then
    .returns (State.empty,
      some (.errorString ("invalid name for state, minimum length is 2: " ++ name)))
  else
    match NewPolygonChecked s2Angle coords with
    | .panics msg => .panics msg
    | .returns (.error err) => .returns (State.empty, some err)
    | .returns (.ok border) => .returns (⟨name, border⟩, none)

/-- The method `Create` with the panics of `NewState`. A panic leaves the method
before the write to the map, through the deferred `Unlock`. -/
def CreateChecked (title : String → String) (s2Angle : List Coordinate → Outcome Float64)
    (s : StateLocationMemoryStore) (state : State) :
    Outcome (StateLocationMemoryStore × State × Option GoError) :=
  let state : State := ⟨title state.Name, state.Border⟩
  match NewStateChecked s2Angle state.Name state.Border with
  | .panics msg => .panics msg
  | .returns (_, some err) => .returns (s, State.empty, some (.InvalidStateError err))
  | .returns (created, none) =>
    match s.states.get created.Name with
    | some _ =>
      .returns (s, State.empty,
        some (.InvalidStateError (.errorString ("duplicate state: " ++ state.Name))))
    | none => .returns (⟨s.states.set created.Name created⟩, created, none)

/-! ## Concrete data -/

/-- Title casing of ASCII text, character by character: a letter that starts the
text or follows a character that is neither letter nor digit is upper-cased, every
other letter is lower-cased. -/
def asciiTitleAux : Bool → List Char → List Char
  | _, [] => []
  | start, c :: cs =>
    (if start then c.toUpper else c.toLower) :: asciiTitleAux (!c.isAlphanum) cs

/-- An ASCII instance of the title caser, for concrete runs of the store. -/
def asciiTitle (s : String) : String := ⟨asciiTitleAux true s.data⟩

/-- A coordinate from the decimal literals `ln / ld` (longitude) and `la / ld2`
(latitude), each negated when its flag is set. -/
def coordQ (nlng : Bool) (ln ld : Nat) (nlat : Bool) (la ld2 : Nat) : Coordinate :=
  ⟨Float64.ofRat nlng ln ld, Float64.ofRat nlat la ld2⟩

/-- A coordinate with integer longitude and latitude. -/
def coordZ (lng lat : Int) : Coordinate :=
  ⟨Float64.ofRat (decide (lng < 0)) lng.natAbs 1, Float64.ofRat (decide (lat < 0)) lat.natAbs 1⟩

/-- The square ring of `TestContains`, as written there. -/
def square : Polygon := [coordZ 0 0, coordZ 10 0, coordZ 10 10, coordZ 0 10, coordZ 0 0]

/-- The ring `validRing` of `TestPolygonValidate`. -/
def validRing : Polygon := [coordZ 0 0, coordZ 2 2, coordZ 1 1, coordZ 0 0]

/-- The ring `counterClockwise` of `TestPolygonValidate`. -/
def counterClockwise : Polygon := [coordZ 0 0, coordZ 1 1, coordZ 2 2, coordZ 0 0]

/-- The sequence `line` of `TestPolygonValidate`. -/
def line : Polygon :=
  [coordQ false 12345 10000 true 12345 10000, coordQ false 25 10 false 900001 100000]

/-- The ring `unclosedRing` of `TestPolygonValidate`. -/
def unclosedRing : Polygon := [coordZ 0 0, coordZ 2 2, coordZ 1 1, coordQ false 5 10 false 0 1]

/-- A turning-angle function for concrete runs that calls every ring clockwise
(angle 0). -/
def clockwiseAngle : List Coordinate → Float64 := fun _ => Float64.zero false

/-- A turning-angle function for concrete runs that calls every ring
counter-clockwise (angle 1). -/
def counterClockwiseAngle : List Coordinate → Float64 := fun _ => Float64.ofNat 1

/-- The region of `TestStatesMemoryStore`, named in lower case, on `validRing`. -/
def validState : State := ⟨"valid", validRing⟩

/-- The outcome of creating `validState` on the new store, with the ASCII title
caser: the store, the returned state and the returned error. -/
def createdValid : StateLocationMemoryStore × State × Option GoError :=
  Create asciiTitle clockwiseAngle NewMemoryStore validState

/-- The calls of the witness of C21: create "valid", create it again under the name
"VALID", delete "nunavut", create a region with a border of two coordinates. -/
def sampleCalls : List StoreOp :=
  [.create validState, .create ⟨"VALID", validRing⟩, .delete "nunavut", .create ⟨"short", line⟩]

/-- Three requests whose names normalize to the key "Valid". -/
def sameKeyRequests : List State :=
  [validState, ⟨"VALID", validRing⟩, ⟨"vaLid", validRing⟩]

/-- A schedule for three callers on which the third caller takes the lock first and
the others try in between. -/
def thirdFirst : List Nat := [2, 0, 2, 1, 2, 2, 0, 2, 1, 0, 0, 1, 0, 1, 1, 0, 0, 0, 0]

/-- Two requests whose names normalize to the key "A" of one byte. -/
def shortKeyRequests : List State := [⟨"a", validRing⟩, ⟨"A", validRing⟩]

/-- The claim "the first coordinate differs from the last" in Go's sense (`!=` on
the coordinate struct); false for the empty sequence, which has neither. -/
def firstNeLast (p : Polygon) : Bool :=
  match p.head?, p.getLast? with
  | some first, some last => last.goNe first
  | _, _ => false

/-- The number a finite float denotes, times 2^1074: an integer. -/
def Float64.scaled (x : Float64) : Int :=
  let n : Nat :=
    if x.exp.val = 0 then x.frac.val
    else (Float64.twoP52 + x.frac.val) * 2 ^ (x.exp.val - 1)
  if x.sign then -(n : Int) else (n : Int)

/-- The rational number a finite float denotes. -/
def Float64.toRat (x : Float64) : ℚ := (x.scaled : ℚ) / 2 ^ 1074

/-- The longitude at which the line through the endpoints `a` and `b` of an edge
meets the latitude of the point `p`, in exact arithmetic. -/
def crossingLng (p a b : Coordinate) : ℚ :=
  a.Lng.toRat +
    (p.Lat.toRat - a.Lat.toRat) * (b.Lng.toRat - a.Lng.toRat) / (b.Lat.toRat - a.Lat.toRat)

/-- The geometric definition of a ray crossing: the eastward horizontal ray from
`p` meets the line segment of the edge at the latitude of `p`, that is the
longitude of `p` is at most the longitude at which the segment is at that
latitude. -/
def rayMeetsEdge (p : Coordinate) (e : edge) : Prop :=
  p.Lng.toRat ≤ crossingLng p e.p1 e.p2

/-- The float just above 1, that is 1 + 2^-52. -/
def onePlusUlp : Float64 := ⟨false, 1023, 1⟩

/-- A closed ring with two neighbouring vertices one step of latitude apart:
(0, 1), (5, 1 + 2^-52), (2, 11), (0, 1) in (lng, lat). -/
def thinStepRing : Polygon :=
  [⟨Float64.ofNat 0, Float64.ofNat 1⟩, ⟨Float64.ofNat 5, onePlusUlp⟩,
    ⟨Float64.ofNat 2, Float64.ofNat 11⟩, ⟨Float64.ofNat 0, Float64.ofNat 1⟩]

/-- The closed ring (15, 2), (10, 10), (0, 2), (15, 2) in (lng, lat), whose first
edge is the edge of `TestContains`. -/
def leaningTriangle : Polygon := [coordZ 15 2, coordZ 10 10, coordZ 0 2, coordZ 15 2]

/-- The point (-100, 1) in (lng, lat), west of `thinStepRing` and level with its
first vertex. -/
def westPoint : Coordinate := ⟨Float64.ofRat true 100 1, Float64.ofNat 1⟩

/-- A closed ring with a vertex at latitude `+Inf`: (0, 0), (1, +Inf), (2, 0), (0, 0)
in (lng, lat). -/
def skyRing : Polygon :=
  [coordZ 0 0, ⟨Float64.ofNat 1, Float64.inf false⟩, coordZ 2 0, coordZ 0 0]

/-- The point (5, +Inf) in (lng, lat). -/
def skyPoint : Coordinate := ⟨Float64.ofNat 5, Float64.inf false⟩

/-- The entry list stands for a Go map: no key occurs twice. -/
def StateMap.WF (m : StateMap) : Prop := (m.map Prod.fst).Nodup

/-- Both components finite. -/
def Coordinate.isFinite (c : Coordinate) : Bool := c.Lng.isFinite && c.Lat.isFinite

/-- A stand-in for the s2 call in concrete runs: it panics, with the message of
`big.ErrNaN`, when one of the vertices handed to s2 (all but the last) has a NaN or
infinite coordinate, and answers the angle 0 otherwise. -/
def panicOnNonFinite (vertices : List Coordinate) : Outcome Float64 :=
  if vertices.dropLast.all Coordinate.isFinite then .returns (Float64.zero false)
  else .panics "Float.SetFloat64(NaN)"

/-- The ring `validRing` of the tests with its second vertex replaced by (NaN, NaN):
closed, of 4 coordinates. -/
def nanRing : Polygon := [coordZ 0 0, ⟨Float64.nan, Float64.nan⟩, coordZ 1 1, coordZ 0 0]

/-- A closed ring of no area that reads the same in both directions:
(0,0), (1,1), (2,0), (1,1), (0,0) in (lng, lat). -/
def foldedRing : Polygon := [coordZ 0 0, coordZ 1 1, coordZ 2 0, coordZ 1 1, coordZ 0 0]

/-- The loop of `foldedRing` started at its second vertex:
(1,1), (2,0), (1,1), (0,0), (1,1) in (lng, lat). -/
def flippingRing : Polygon := [coordZ 1 1, coordZ 2 0, coordZ 1 1, coordZ 0 0, coordZ 1 1]

/-- The bytes `json.Marshal` writes for a ring of finite coordinates, as the decoder
reads them: one array of two numbers, longitude first, for each coordinate. -/
def ringJSON (ring : List Coordinate) : CoordinatesJSON :=
  .elements (ring.map (fun c => .floats [c.Lng, c.Lat]))

/-- The coordinate `LatLng(40.2, -75.1)` of `TestCoordinateJSON`. -/
def testCoordinate : Coordinate := LatLng (Float64.ofRat false 402 10) (Float64.ofRat true 751 10)

/-! ## Facts about float comparison and `math.Nextafter` -/

namespace Float64

theorem mag_lt (x : Float64) : x.mag < 9223372036854775808 := by
  have h1 := x.exp.isLt
  have h2 := x.frac.isLt
  unfold mag twoP52
  omega

theorem mag_le_of_not_nan (x : Float64) (h : x.isNaN = false) :
    x.mag ≤ 9218868437227405312 := by
  have h1 := x.exp.isLt
  have h2 := x.frac.isLt
  unfold isNaN at h
  unfold mag twoP52
  by_cases he : x.exp.val = 2047
  · simp [he] at h
    omega
  · omega

theorem ofMag_sign (s : Bool) (m : Nat) : (ofMag s m).sign = s := rfl

theorem ofMag_exp (s : Bool) (m : Nat) :
    (ofMag s m).exp.val = m / 4503599627370496 % 2048 := rfl

theorem ofMag_frac (s : Bool) (m : Nat) :
    (ofMag s m).frac.val = m % 4503599627370496 := rfl

theorem mag_ofMag (s : Bool) (m : Nat) (h : m < 9223372036854775808) :
    (ofMag s m).mag = m := by
  unfold mag twoP52
  rw [ofMag_exp, ofMag_frac]
  omega

theorem isNaN_ofMag (s : Bool) (m : Nat) (h : m ≤ 9218868437227405312) :
    (ofMag s m).isNaN = false := by
  unfold isNaN
  rw [ofMag_exp, ofMag_frac]
  by_cases he : m / 4503599627370496 % 2048 = 2047
  · have : m % 4503599627370496 = 0 := by omega
    simp [he, this]
  · simp [he]

theorem key_ofMag_false (m : Nat) (h : m < 9223372036854775808) :
    (ofMag false m).key = (m : Int) := by
  unfold key
  rw [ofMag_sign, mag_ofMag false m h]
  simp

theorem key_ofMag_true (m : Nat) (h : m < 9223372036854775808) :
    (ofMag true m).key = -(m : Int) := by
  unfold key
  rw [ofMag_sign, mag_ofMag true m h]
  simp

theorem key_inf_false : (inf false).key = 9218868437227405312 := by decide

theorem key_zero (s : Bool) : (zero s).key = 0 := by cases s <;> decide

theorem isNaN_inf (s : Bool) : (inf s).isNaN = false := by cases s <;> decide

theorem isNaN_zero (s : Bool) : (zero s).isNaN = false := by cases s <;> decide

theorem key_le_inf (x : Float64) (h : x.isNaN = false) : x.key ≤ 9218868437227405312 := by
  have := mag_le_of_not_nan x h
  unfold key
  split <;> omega

/-- One step of `math.Nextafter` towards `+Inf` moves a number other than `+Inf` to
the next position of the number line. -/
theorem key_nextafterInf (x : Float64) (hx : x.isNaN = false) (hinf : x.eq (inf false) = false) :
    x.nextafterInf.key = x.key + 1 ∧ x.nextafterInf.isNaN = false := by
  have hm := mag_le_of_not_nan x hx
  have hk : x.key ≠ 9218868437227405312 := by
    intro hk
    simp [eq, hx, isNaN_inf, key_inf_false, hk] at hinf
  unfold nextafterInf
  simp only [hx, hinf, Bool.false_eq_true, if_false]
  by_cases hz : x.eq (zero false) = true
  · simp only [hz, if_true]
    have : x.key = 0 := by simpa [eq, hx, isNaN_zero, key_zero] using hz
    rw [this]
    exact ⟨by decide, by decide⟩
  · have hz0 : x.key ≠ 0 := by
      intro h0
      apply hz
      simp [eq, hx, isNaN_zero, key_zero, h0]
    simp only [hz, Bool.false_eq_true, if_false]
    by_cases hg : x.gt (zero false) = true
    · simp only [hg, if_true]
      have hpos : 0 < x.key := by simpa [gt, lt, hx, isNaN_zero, key_zero] using hg
      have hkey : x.key = (x.mag : Int) := by
        unfold key at hpos ⊢
        split at hpos
        · omega
        · simp_all
      have hlt : x.mag + 1 ≤ 9218868437227405312 := by omega
      exact ⟨by rw [key_ofMag_false _ (by omega), hkey]; simp, isNaN_ofMag _ _ hlt⟩
    · simp only [hg, Bool.false_eq_true, if_false]
      have hneg : x.key < 0 := by
        have : ¬ (0 < x.key) := by
          intro hp
          apply hg
          simp [gt, lt, hx, isNaN_zero, key_zero, hp]
        omega
      have hkey : x.key = -(x.mag : Int) := by
        unfold key at hneg ⊢
        split at hneg
        · simp_all
        · omega
      have h1 : 1 ≤ x.mag := by omega
      refine ⟨?_, isNaN_ofMag _ _ (by omega)⟩
      rw [key_ofMag_true _ (by omega), hkey]
      omega

theorem nextafterInf_of_inf (x : Float64) (hx : x.isNaN = false) (hinf : x.eq (inf false) = true) :
    x.nextafterInf = x := by
  unfold nextafterInf
  simp [hx, hinf]

theorem nextafterInf_not_nan (x : Float64) (hx : x.isNaN = false) :
    x.nextafterInf.isNaN = false := by
  by_cases hinf : x.eq (inf false) = true
  · rw [nextafterInf_of_inf x hx hinf]; exact hx
  · exact (key_nextafterInf x hx (by simpa using hinf)).2

theorem eq_comm (x y : Float64) : x.eq y = y.eq x := by
  unfold eq
  by_cases h : x.key = y.key
  · simp [h, Bool.and_comm]
  · have h2 : ¬ y.key = x.key := fun h3 => h h3.symm
    simp [h, h2]

theorem not_nan_of_eq (x y : Float64) (h : x.eq y = true) :
    x.isNaN = false ∧ y.isNaN = false ∧ x.key = y.key := by
  simpa [eq, and_assoc] using h

theorem not_nan_of_lt (x y : Float64) (h : x.lt y = true) :
    x.isNaN = false ∧ y.isNaN = false ∧ x.key < y.key := by
  simpa [lt, and_assoc] using h

theorem eq_of_key (x y : Float64) (hx : x.isNaN = false) (hy : y.isNaN = false)
    (h : x.key = y.key) : x.eq y = true := by
  simp [eq, hx, hy, h]

theorem lt_of_key (x y : Float64) (hx : x.isNaN = false) (hy : y.isNaN = false)
    (h : x.key < y.key) : x.lt y = true := by
  simp [lt, hx, hy, h]

theorem eq_false_of_key (x y : Float64) (h : x.key ≠ y.key) : x.eq y = false := by
  simp [eq, h]

theorem lt_false_of_key (x y : Float64) (h : ¬ x.key < y.key) : x.lt y = false := by
  simp [lt, h]

theorem eq_false_of_nan_left (x y : Float64) (h : x.isNaN = true) : x.eq y = false := by
  simp [eq, h]

theorem lt_false_of_nan_left (x y : Float64) (h : x.isNaN = true) : x.lt y = false := by
  simp [lt, h]

theorem lt_false_of_nan_right (x y : Float64) (h : y.isNaN = true) : x.lt y = false := by
  simp [lt, h]

end Float64

/-! ## The latitude loop -/

theorem nudge_comm (fuel : Nat) (lat a b : Float64) :
    nudge fuel lat a b = nudge fuel lat b a := by
  induction fuel generalizing lat with
  | zero => rfl
  | succ k ih => simp only [nudge, Bool.or_comm (lat.eq a) (lat.eq b), ih]

theorem nudge_of_ne (k : Nat) (lat a b : Float64) (ha : lat.eq a = false)
    (hb : lat.eq b = false) : nudge (k + 1) lat a b = some lat := by
  simp [nudge, ha, hb]

theorem nudge_step (k : Nat) (lat a b : Float64) (h : (lat.eq a || lat.eq b) = true) :
    nudge (k + 1) lat a b = nudge k lat.nextafterInf a b := by
  simp only [nudge, h, if_true]

/-- The latitude the loop ends with equals neither endpoint latitude, and is a
number when the latitude it started from is. -/
theorem nudge_spec (fuel : Nat) (lat a b l : Float64) (h : nudge fuel lat a b = some l) :
    l.eq a = false ∧ l.eq b = false ∧ (lat.isNaN = false → l.isNaN = false) := by
  induction fuel generalizing lat with
  | zero => simp [nudge] at h
  | succ k ih =>
    by_cases hc : (lat.eq a || lat.eq b) = true
    · rw [nudge_step k lat a b hc] at h
      obtain ⟨h1, h2, h3⟩ := ih _ h
      exact ⟨h1, h2, fun hn => h3 (Float64.nextafterInf_not_nan lat hn)⟩
    · simp only [Bool.not_eq_true, Bool.or_eq_false_iff] at hc
      rw [nudge_of_ne k lat a b hc.1 hc.2] at h
      cases h
      exact ⟨hc.1, hc.2, id⟩

/-- More fuel does not change a result the loop has reached. -/
theorem nudge_mono (k j : Nat) (lat a b l : Float64) (h : nudge k lat a b = some l) :
    nudge (k + j) lat a b = some l := by
  induction k generalizing lat with
  | zero => simp [nudge] at h
  | succ k ih =>
    rw [Nat.add_right_comm]
    by_cases hc : (lat.eq a || lat.eq b) = true
    · rw [nudge_step k lat a b hc] at h
      rw [nudge_step (k + j) lat a b hc]
      exact ih _ h
    · simp only [Bool.not_eq_true, Bool.or_eq_false_iff] at hc
      rw [nudge_of_ne k lat a b hc.1 hc.2] at h
      rw [nudge_of_ne (k + j) lat a b hc.1 hc.2]
      exact h

/-- A latitude that has left one endpoint is past `+Inf` of neither: matching an
endpoint other than `+Inf` makes the latitude a number other than `+Inf`. -/
theorem not_inf_of_match (lat a b : Float64) (ha : a.eq (Float64.inf false) = false)
    (hb : b.eq (Float64.inf false) = false) (hc : (lat.eq a || lat.eq b) = true) :
    lat.isNaN = false ∧ lat.eq (Float64.inf false) = false := by
  rcases Bool.or_eq_true _ _ ▸ hc with h | h
  · obtain ⟨h1, h2, h3⟩ := Float64.not_nan_of_eq _ _ h
    refine ⟨h1, ?_⟩
    simp only [Float64.eq, h2, Float64.isNaN_inf, Bool.not_false, Bool.true_and,
      decide_eq_false_iff_not] at ha
    simp [Float64.eq, h1, Float64.isNaN_inf, h3, ha]
  · obtain ⟨h1, h2, h3⟩ := Float64.not_nan_of_eq _ _ h
    refine ⟨h1, ?_⟩
    simp only [Float64.eq, h2, Float64.isNaN_inf, Bool.not_false, Bool.true_and,
      decide_eq_false_iff_not] at hb
    simp [Float64.eq, h1, Float64.isNaN_inf, h3, hb]

theorem key_of_match (lat a b : Float64) (hc : (lat.eq a || lat.eq b) = true) :
    (a.isNaN = false ∧ lat.key = a.key) ∨ (b.isNaN = false ∧ lat.key = b.key) := by
  rcases Bool.or_eq_true _ _ ▸ hc with h | h
  · exact Or.inl ⟨(Float64.not_nan_of_eq _ _ h).2.1, (Float64.not_nan_of_eq _ _ h).2.2⟩
  · exact Or.inr ⟨(Float64.not_nan_of_eq _ _ h).2.1, (Float64.not_nan_of_eq _ _ h).2.2⟩

/-- When neither endpoint latitude is `+Inf`, the loop ends within two nudges. -/
theorem nudge_terminates (k : Nat) (lat a b : Float64)
    (ha : a.eq (Float64.inf false) = false) (hb : b.eq (Float64.inf false) = false) :
    ∃ l, nudge (k + 3) lat a b = some l := by
  by_cases c0 : (lat.eq a || lat.eq b) = true
  · obtain ⟨n0, i0⟩ := not_inf_of_match lat a b ha hb c0
    obtain ⟨k1, n1⟩ := Float64.key_nextafterInf lat n0 i0
    rw [nudge_step (k + 2) lat a b c0]
    by_cases c1 : (lat.nextafterInf.eq a || lat.nextafterInf.eq b) = true
    · obtain ⟨_, i1⟩ := not_inf_of_match lat.nextafterInf a b ha hb c1
      obtain ⟨k2, n2⟩ := Float64.key_nextafterInf lat.nextafterInf n1 i1
      rw [nudge_step (k + 1) _ a b c1]
      refine ⟨_, nudge_of_ne k _ a b ?_ ?_⟩
      · by_cases hna : a.isNaN = true
        · rw [Float64.eq_comm]; exact Float64.eq_false_of_nan_left _ _ hna
        · apply Float64.eq_false_of_key
          rcases key_of_match _ _ _ c0 with h | h <;>
            rcases key_of_match _ _ _ c1 with h' | h' <;> (simp_all; try omega)
      · by_cases hnb : b.isNaN = true
        · rw [Float64.eq_comm]; exact Float64.eq_false_of_nan_left _ _ hnb
        · apply Float64.eq_false_of_key
          rcases key_of_match _ _ _ c0 with h | h <;>
            rcases key_of_match _ _ _ c1 with h' | h' <;> (simp_all; try omega)
    · simp only [Bool.not_eq_true, Bool.or_eq_false_iff] at c1
      exact ⟨_, nudge_of_ne (k + 1) _ a b c1.1 c1.2⟩
  · simp only [Bool.not_eq_true, Bool.or_eq_false_iff] at c0
    exact ⟨_, nudge_of_ne (k + 2) _ a b c0.1 c0.2⟩

/-! ## Ring validation and construction -/

theorem get_last_eq (p : Polygon) (h : p.length - 1 < p.length) :
    p.getLast? = some (p.get ⟨p.length - 1, h⟩) := by
  rw [List.getLast?_eq_getElem?]
  simp [List.getElem?_eq_getElem h]

theorem get_zero_eq (p : Polygon) (h : 0 < p.length) :
    p.head? = some (p.get ⟨0, h⟩) := by
  cases p with
  | nil => simp at h
  | cons a t => simp

theorem firstNeLast_eq (p : Polygon) (h0 : 0 < p.length) (h1 : p.length - 1 < p.length) :
    firstNeLast p = (p.get ⟨p.length - 1, h1⟩).goNe (p.get ⟨0, h0⟩) := by
  unfold firstNeLast
  rw [get_last_eq p h1, get_zero_eq p h0]

/-- What `Validate` returns, by cases on the ring. -/
theorem Validate_eq (ta : List Coordinate → Float64) (p : Polygon) :
    Validate ta p =
      if p.length < 4 then some (.InvalidGeometryError RingTooShort)
      else if firstNeLast p then some (.InvalidGeometryError RingUnclosed)
      else if (ta p).gt (Float64.zero false) then some (.RighthandRuleError (ta p))
      else none := by
  unfold Validate
  by_cases h : p.length < 4
  · simp [h]
  · simp only [h, dite_false, if_false]
    rw [firstNeLast_eq p (by omega) (by omega)]

/-- What `NewPolygon` returns, by cases on the ring. -/
theorem NewPolygon_eq (ta : List Coordinate → Float64) (p : Polygon) :
    NewPolygon ta p =
      if p.length < 4 then .error (.InvalidGeometryError RingTooShort)
      else if firstNeLast p then .error (.InvalidGeometryError RingUnclosed)
      else if (ta p).gt (Float64.zero false) then .ok p.reverse
      else .ok p := by
  unfold NewPolygon
  rw [Validate_eq]
  by_cases h : p.length < 4
  · simp [h, GoError.isInvalidGeometryError]
  · by_cases h2 : firstNeLast p = true
    · simp [h, h2, GoError.isInvalidGeometryError]
    · by_cases h3 : (ta p).gt (Float64.zero false) = true
      · simp [h, h2, h3, GoError.isInvalidGeometryError]
      · simp [h, h2, h3]

/-! ## Ray casting -/

/-- NaN in either component of a coordinate. -/
def Coordinate.hasNaN (c : Coordinate) : Bool := c.Lng.isNaN || c.Lat.isNaN

/-- Exclusive or of two loop results, undefined when either is. -/
def optXor : Option Bool → Option Bool → Option Bool
  | some x, some y => some (xor x y)
  | _, _ => none

theorem optXor_comm (x y : Option Bool) : optXor x y = optXor y x := by
  cases x <;> cases y <;> simp [optXor, Bool.xor_comm]

/-- A latitude that equals neither of two equal endpoint latitudes lies outside
their span. -/
theorem outside_of_flat (l a b : Float64) (hl : l.isNaN = false) (ha : a.isNaN = false)
    (hb : b.isNaN = false) (hab : a.key = b.key) (hne : l.eq a = false) :
    (l.lt a || l.gt b) = true := by
  have hk : l.key ≠ a.key := by
    intro hk
    rw [Float64.eq_of_key l a hl ha hk] at hne
    cases hne
  by_cases h : l.key < a.key
  · simp [Float64.lt, hl, ha, h]
  · have h2 : b.key < l.key := by omega
    simp [Float64.gt, Float64.lt, hl, hb, h2]

/-- The edge test does not depend on the direction of the edge, NaN latitudes apart. -/
theorem rayIntersectsEdge_swap (fuel : Nat) (p p1 p2 : Coordinate)
    (hp : p.Lat.isNaN = false) (h1 : p1.Lat.isNaN = false) (h2 : p2.Lat.isNaN = false) :
    rayIntersectsEdge fuel p ⟨p2, p1⟩ = rayIntersectsEdge fuel p ⟨p1, p2⟩ := by
  by_cases h12 : p1.Lat.lt p2.Lat = true
  · have h21 : p2.Lat.lt p1.Lat = false := by
      have := (Float64.not_nan_of_lt _ _ h12).2.2
      exact Float64.lt_false_of_key _ _ (by omega)
    simp [rayIntersectsEdge, h12, h21]
  · by_cases h21 : p2.Lat.lt p1.Lat = true
    · simp [rayIntersectsEdge, h12, h21]
    · have hk : p1.Lat.key = p2.Lat.key := by
        have a1 : ¬ p1.Lat.key < p2.Lat.key := fun h => h12 (Float64.lt_of_key _ _ h1 h2 h)
        have a2 : ¬ p2.Lat.key < p1.Lat.key := fun h => h21 (Float64.lt_of_key _ _ h2 h1 h)
        omega
      simp only [rayIntersectsEdge, h12, h21, Bool.false_eq_true, if_false]
      rw [nudge_comm fuel p.Lat p2.Lat p1.Lat]
      cases hn : nudge fuel p.Lat p1.Lat p2.Lat with
      | none => rfl
      | some l =>
        obtain ⟨e1, e2, e3⟩ := nudge_spec fuel _ _ _ _ hn
        have o1 := outside_of_flat l p1.Lat p2.Lat (e3 hp) h1 h2 hk e1
        have o2 := outside_of_flat l p2.Lat p1.Lat (e3 hp) h2 h1 hk.symm e2
        simp [o1, o2]

theorem containsLoop_acc (fuel : Nat) (coord : Coordinate) (l : List Coordinate) (acc : Bool) :
    containsLoop fuel coord l acc = optXor (some acc) (containsLoop fuel coord l false) := by
  induction l generalizing acc with
  | nil => simp [containsLoop, optXor]
  | cons a t ih =>
    cases t with
    | nil => simp [containsLoop, optXor]
    | cons b r =>
      simp only [containsLoop]
      cases hr : rayIntersectsEdge fuel coord ⟨a, b⟩ with
      | none => simp [optXor]
      | some hit =>
        simp only
        rw [ih (if hit = true then !acc else acc), ih (if hit = true then !false else false)]
        cases containsLoop fuel coord (b :: r) false <;> cases hit <;> cases acc <;>
          simp [optXor]

theorem containsLoop_snoc (fuel : Nat) (coord : Coordinate) (l : List Coordinate)
    (hl : l ≠ []) (x : Coordinate) (acc : Bool) :
    containsLoop fuel coord (l ++ [x]) acc =
      optXor (containsLoop fuel coord l acc)
        (rayIntersectsEdge fuel coord ⟨l.getLast hl, x⟩) := by
  induction l generalizing acc with
  | nil => exact absurd rfl hl
  | cons a t ih =>
    cases t with
    | nil =>
      simp only [List.singleton_append, containsLoop, List.getLast_singleton]
      cases rayIntersectsEdge fuel coord ⟨a, x⟩ with
      | none => simp [optXor]
      | some hit => cases hit <;> cases acc <;> simp [optXor]
    | cons b r =>
      simp only [List.cons_append, containsLoop]
      cases rayIntersectsEdge fuel coord ⟨a, b⟩ with
      | none => simp [optXor]
      | some hit =>
        simp only
        have hlast : (a :: b :: r).getLast hl = (b :: r).getLast (by simp) :=
          List.getLast_cons (by simp)
        rw [hlast]
        exact ih (by simp) (if hit = true then !acc else acc)

/-- Reversing a sequence whose latitudes are numbers does not change `Contains` at
a point whose latitude is a number. -/
theorem Contains_reverse (fuel : Nat) (coords : List Coordinate) (p : Coordinate)
    (hp : p.Lat.isNaN = false) (hc : ∀ c ∈ coords, c.Lat.isNaN = false) :
    Contains fuel coords.reverse p = Contains fuel coords p := by
  unfold Contains
  induction coords with
  | nil => rfl
  | cons a t ih =>
    cases t with
    | nil => rfl
    | cons b r =>
      have ih' := ih (fun c hc' => hc c (List.mem_cons_of_mem _ hc'))
      have ha := hc a (by simp)
      have hb := hc b (by simp)
      rw [List.reverse_cons, containsLoop_snoc fuel p _ (by simp) a false, ih']
      have hlast : (b :: r).reverse.getLast (by simp) = b := by
        simp [List.getLast_reverse]
      rw [hlast, rayIntersectsEdge_swap fuel p a b hp ha hb]
      simp only [containsLoop]
      cases hr : rayIntersectsEdge fuel p ⟨a, b⟩ with
      | none => simp [optXor_comm, optXor]
      | some hit =>
        simp only
        rw [containsLoop_acc fuel p (b :: r) (if hit = true then !false else false)]
        rw [optXor_comm]
        cases hit <;> simp

/-- C6: for a coordinate sequence and a point without NaN components, `Contains` of
the reversed sequence equals `Contains` of the sequence, and so `Contains` on the
polygon `NewPolygon` returns equals `Contains` on the raw input ring (at every
fuel of the latitude loop, so both return the same answer or both are still in
the loop). -/
theorem C6_contains_invariant_under_reversal (fuel : Nat) (ta : List Coordinate → Float64)
    (coords : List Coordinate) (p : Coordinate)
    (hcoords : ∀ c ∈ coords, c.hasNaN = false) (hp : p.hasNaN = false) :
    Contains fuel coords.reverse p = Contains fuel coords p ∧
      ∀ polygon, NewPolygon ta coords = .ok polygon →
        Contains fuel polygon p = Contains fuel coords p := by
  have hp' : p.Lat.isNaN = false := by
    simp only [Coordinate.hasNaN, Bool.or_eq_false_iff] at hp
    exact hp.2
  have hc' : ∀ c ∈ coords, c.Lat.isNaN = false := by
    intro c hc
    have := hcoords c hc
    simp only [Coordinate.hasNaN, Bool.or_eq_false_iff] at this
    exact this.2
  have hrev := Contains_reverse fuel coords p hp' hc'
  refine ⟨hrev, ?_⟩
  intro polygon hpoly
  rw [NewPolygon_eq] at hpoly
  split at hpoly
  · cases hpoly
  · split at hpoly
    · cases hpoly
    · split at hpoly
      · cases hpoly
        exact hrev
      · cases hpoly
        rfl

/-- Witness of C6 on the square of the tests, which `NewPolygon` reverses when its
turning angle is positive, at the boundary point (10, 5). -/
theorem C6_contains_invariant_under_reversal_witness :
    Contains 3 square.reverse (coordZ 10 5) = Contains 3 square (coordZ 10 5) ∧
      ∀ polygon, NewPolygon counterClockwiseAngle square = .ok polygon →
        Contains 3 polygon (coordZ 10 5) = Contains 3 square (coordZ 10 5) :=
  C6_contains_invariant_under_reversal 3 counterClockwiseAngle square (coordZ 10 5)
    (by decide) (by decide)

/-- The edge test once the endpoints are ordered by latitude (`a` the lower one):
the part of `rayIntersectsEdge` after the swap. -/
def rayOrdered (fuel : Nat) (p a b : Coordinate) : Option Bool :=
  match nudge fuel p.Lat a.Lat b.Lat with
  | none => none
  | some lat =>
    if lat.lt a.Lat || lat.gt b.Lat then some false
    else if a.Lng.gt b.Lng then
      if p.Lng.gt a.Lng then some false
      else if p.Lng.lt b.Lng then some true
      else some (((lat.sub a.Lat).div (p.Lng.sub a.Lng)).ge ((b.Lat.sub a.Lat).div (b.Lng.sub a.Lng)))
    else
      if p.Lng.gt b.Lng then some false
      else if p.Lng.lt a.Lng then some true
      else some (((lat.sub a.Lat).div (p.Lng.sub a.Lng)).ge ((b.Lat.sub a.Lat).div (b.Lng.sub a.Lng)))

theorem rayIntersectsEdge_eq (fuel : Nat) (p : Coordinate) (e : edge) :
    rayIntersectsEdge fuel p e =
      if e.p1.Lat.lt e.p2.Lat then rayOrdered fuel p e.p1 e.p2
      else rayOrdered fuel p e.p2 e.p1 := by
  unfold rayIntersectsEdge rayOrdered
  by_cases h : e.p1.Lat.lt e.p2.Lat = true <;> simp [h]

/-- Below the lower endpoint the ray misses the edge. -/
theorem rayOrdered_below (k : Nat) (p a b : Coordinate) (h : p.Lat.lt a.Lat = true)
    (hb : p.Lat.eq b.Lat = false) : rayOrdered (k + 1) p a b = some false := by
  have ha : p.Lat.eq a.Lat = false :=
    Float64.eq_false_of_key _ _ (by have := (Float64.not_nan_of_lt _ _ h).2.2; omega)
  simp [rayOrdered, nudge_of_ne k _ _ _ ha hb, h]

/-- Above the upper endpoint the ray misses the edge. -/
theorem rayOrdered_above (k : Nat) (p a b : Coordinate) (h : p.Lat.gt b.Lat = true)
    (ha : p.Lat.eq a.Lat = false) : rayOrdered (k + 1) p a b = some false := by
  have hb : p.Lat.eq b.Lat = false :=
    Float64.eq_false_of_key _ _ (by have := (Float64.not_nan_of_lt _ _ h).2.2; omega)
  simp [rayOrdered, nudge_of_ne k _ _ _ ha hb, h]

/-- West of both endpoints the ray hits the edge exactly when the nudged latitude
is within the span of the edge. -/
theorem rayOrdered_left (fuel : Nat) (p a b : Coordinate) (h1 : p.Lng.lt a.Lng = true)
    (h2 : p.Lng.lt b.Lng = true) :
    rayOrdered fuel p a b =
      (nudge fuel p.Lat a.Lat b.Lat).map (fun lat => !(lat.lt a.Lat || lat.gt b.Lat)) := by
  have g1 : p.Lng.gt a.Lng = false :=
    Float64.lt_false_of_key _ _ (by have := (Float64.not_nan_of_lt _ _ h1).2.2; omega)
  have g2 : p.Lng.gt b.Lng = false :=
    Float64.lt_false_of_key _ _ (by have := (Float64.not_nan_of_lt _ _ h2).2.2; omega)
  unfold rayOrdered
  cases nudge fuel p.Lat a.Lat b.Lat with
  | none => rfl
  | some lat =>
    simp only [Option.map]
    cases hr : (lat.lt a.Lat || lat.gt b.Lat)
    · by_cases hg : a.Lng.gt b.Lng = true <;> simp [hg, g1, g2, h1, h2]
    · simp

/-- East of both endpoints the ray misses the edge. -/
theorem rayOrdered_right (fuel : Nat) (p a b : Coordinate) (h1 : p.Lng.gt a.Lng = true)
    (h2 : p.Lng.gt b.Lng = true) :
    rayOrdered fuel p a b = (nudge fuel p.Lat a.Lat b.Lat).map (fun _ => false) := by
  unfold rayOrdered
  cases nudge fuel p.Lat a.Lat b.Lat with
  | none => rfl
  | some lat =>
    simp only [Option.map]
    cases hr : (lat.lt a.Lat || lat.gt b.Lat)
    · by_cases hg : a.Lng.gt b.Lng = true <;> simp [hg, h1, h2]
    · simp

/-- The ray from a point whose latitude is a number misses an edge whose endpoint
latitudes are equal. -/
theorem rayOrdered_flat (fuel : Nat) (p a b : Coordinate) (hp : p.Lat.isNaN = false)
    (hab : a.Lat.eq b.Lat = true) :
    rayOrdered fuel p a b = (nudge fuel p.Lat a.Lat b.Lat).map (fun _ => false) := by
  obtain ⟨ha, hb, hk⟩ := Float64.not_nan_of_eq _ _ hab
  unfold rayOrdered
  cases hn : nudge fuel p.Lat a.Lat b.Lat with
  | none => rfl
  | some lat =>
    obtain ⟨e1, _, e3⟩ := nudge_spec fuel _ _ _ _ hn
    simp [outside_of_flat lat a.Lat b.Lat (e3 hp) ha hb hk e1]

theorem rayIntersectsEdge_mono (k j : Nat) (p : Coordinate) (e : edge) (r : Bool)
    (h : rayIntersectsEdge k p e = some r) : rayIntersectsEdge (k + j) p e = some r := by
  unfold rayIntersectsEdge at h ⊢
  simp only at h ⊢
  split at h
  · cases h
  · rename_i lat hn
    rw [nudge_mono k j _ _ _ lat hn]
    exact h

theorem containsLoop_mono (k j : Nat) (p : Coordinate) (l : List Coordinate) (acc r : Bool)
    (h : containsLoop k p l acc = some r) : containsLoop (k + j) p l acc = some r := by
  induction l generalizing acc with
  | nil => simpa [containsLoop] using h
  | cons a t ih =>
    cases t with
    | nil => simpa [containsLoop] using h
    | cons b rest =>
      simp only [containsLoop] at h ⊢
      cases hr : rayIntersectsEdge k p ⟨a, b⟩ with
      | none => simp [hr] at h
      | some hit =>
        rw [rayIntersectsEdge_mono k j p _ hit hr]
        simp only [hr] at h
        exact ih _ h

/-- More fuel does not change an answer `Contains` has reached. -/
theorem Contains_mono (k j : Nat) (ring : Polygon) (p : Coordinate) (r : Bool)
    (h : Contains k ring p = some r) : Contains (k + j) ring p = some r :=
  containsLoop_mono k j p ring false r h

/-- The answer of `Contains` on a ring of five positions from its four edge tests. -/
theorem Contains_five (fuel : Nat) (p v0 v1 v2 v3 v4 : Coordinate) (r1 r2 r3 r4 : Bool)
    (h1 : rayIntersectsEdge fuel p ⟨v0, v1⟩ = some r1)
    (h2 : rayIntersectsEdge fuel p ⟨v1, v2⟩ = some r2)
    (h3 : rayIntersectsEdge fuel p ⟨v2, v3⟩ = some r3)
    (h4 : rayIntersectsEdge fuel p ⟨v3, v4⟩ = some r4) :
    Contains fuel [v0, v1, v2, v3, v4] p = some (xor (xor (xor r1 r2) r3) r4) := by
  simp only [Contains, containsLoop, h1, h2, h3, h4]
  cases r1 <;> cases r2 <;> cases r3 <;> cases r4 <;> rfl

/-! ## The square of `TestContains` -/

/-- The float 0. -/
def zeroF : Float64 := Float64.ofNat 0

/-- The float 10. -/
def tenF : Float64 := Float64.ofNat 10

theorem square_eq :
    square = [⟨zeroF, zeroF⟩, ⟨tenF, zeroF⟩, ⟨tenF, tenF⟩, ⟨zeroF, tenF⟩, ⟨zeroF, zeroF⟩] := by
  decide

theorem square_reverse_eq :
    square.reverse =
      [⟨zeroF, zeroF⟩, ⟨zeroF, tenF⟩, ⟨tenF, tenF⟩, ⟨tenF, zeroF⟩, ⟨zeroF, zeroF⟩] := by
  decide

theorem key_zeroF : zeroF.key = 0 := by decide

theorem key_tenF : tenF.key = 4621819117588971520 := by decide

theorem isNaN_zeroF : zeroF.isNaN = false := by decide

theorem isNaN_tenF : tenF.isNaN = false := by decide

theorem zeroF_not_inf : zeroF.eq (Float64.inf false) = false := by decide

theorem tenF_not_inf : tenF.eq (Float64.inf false) = false := by decide

/-- Either 0 or 10: the longitudes and the latitudes of the corners of the square. -/
def isCornerValue (x : Float64) : Prop := x = zeroF ∨ x = tenF

theorem isCornerValue.key_bounds {x : Float64} (h : isCornerValue x) :
    x.isNaN = false ∧ 0 ≤ x.key ∧ x.key ≤ 4621819117588971520 ∧
      x.eq (Float64.inf false) = false := by
  rcases h with h | h <;> subst h
  · exact ⟨isNaN_zeroF, by rw [key_zeroF], by rw [key_zeroF]; omega, zeroF_not_inf⟩
  · exact ⟨isNaN_tenF, by rw [key_tenF]; omega, by rw [key_tenF], tenF_not_inf⟩

/-- South of the square the ray misses every edge between corners. -/
theorem square_edge_south (k : Nat) (p a b : Coordinate) (ha : isCornerValue a.Lat)
    (hb : isCornerValue b.Lat) (h : p.Lat.lt zeroF = true) :
    rayOrdered (k + 1) p a b = some false := by
  obtain ⟨hn, _, hk⟩ := Float64.not_nan_of_lt _ _ h
  rw [key_zeroF] at hk
  obtain ⟨a1, a2, _, _⟩ := ha.key_bounds
  obtain ⟨_, b2, _, _⟩ := hb.key_bounds
  exact rayOrdered_below k p a b (Float64.lt_of_key _ _ hn a1 (by omega))
    (Float64.eq_false_of_key _ _ (by omega))

/-- North of the square the ray misses every edge between corners. -/
theorem square_edge_north (k : Nat) (p a b : Coordinate) (ha : isCornerValue a.Lat)
    (hb : isCornerValue b.Lat) (h : p.Lat.gt tenF = true) :
    rayOrdered (k + 1) p a b = some false := by
  obtain ⟨_, hn, hk⟩ := Float64.not_nan_of_lt _ _ h
  rw [key_tenF] at hk
  obtain ⟨_, _, a3, _⟩ := ha.key_bounds
  obtain ⟨b1, _, b3, _⟩ := hb.key_bounds
  exact rayOrdered_above k p a b (Float64.lt_of_key _ _ b1 hn (by omega))
    (Float64.eq_false_of_key _ _ (by omega))

/-- East of the square the ray misses every edge between corners. -/
theorem square_edge_east (k : Nat) (p a b : Coordinate) (ha : isCornerValue a.Lat)
    (hb : isCornerValue b.Lat) (ha' : isCornerValue a.Lng) (hb' : isCornerValue b.Lng)
    (h : p.Lng.gt tenF = true) : rayOrdered (k + 3) p a b = some false := by
  obtain ⟨_, hn, hk⟩ := Float64.not_nan_of_lt _ _ h
  rw [key_tenF] at hk
  obtain ⟨a1, _, a3, _⟩ := ha'.key_bounds
  obtain ⟨b1, _, b3, _⟩ := hb'.key_bounds
  rw [rayOrdered_right (k + 3) p a b (Float64.lt_of_key _ _ a1 hn (by omega))
    (Float64.lt_of_key _ _ b1 hn (by omega))]
  obtain ⟨l, hl⟩ := nudge_terminates k p.Lat a.Lat b.Lat ha.key_bounds.2.2.2 hb.key_bounds.2.2.2
  simp [hl]

/-- West of the square the ray hits an edge between corners exactly when the
latitude the loop ends with is within the span of the edge. -/
theorem square_edge_west (k : Nat) (p a b : Coordinate) (ha : isCornerValue a.Lat)
    (hb : isCornerValue b.Lat) (ha' : isCornerValue a.Lng) (hb' : isCornerValue b.Lng)
    (h : p.Lng.lt zeroF = true) :
    ∃ l, nudge (k + 3) p.Lat a.Lat b.Lat = some l ∧
      rayOrdered (k + 3) p a b = some (!(l.lt a.Lat || l.gt b.Lat)) := by
  obtain ⟨hn, _, hk⟩ := Float64.not_nan_of_lt _ _ h
  rw [key_zeroF] at hk
  obtain ⟨a1, a2, _, _⟩ := ha'.key_bounds
  obtain ⟨b1, b2, _, _⟩ := hb'.key_bounds
  rw [rayOrdered_left (k + 3) p a b (Float64.lt_of_key _ _ hn a1 (by omega))
    (Float64.lt_of_key _ _ hn b1 (by omega))]
  obtain ⟨l, hl⟩ := nudge_terminates k p.Lat a.Lat b.Lat ha.key_bounds.2.2.2 hb.key_bounds.2.2.2
  exact ⟨l, hl, by simp [hl]⟩

/-- West of the square the ray hits a flat edge exactly when the latitude of the
point is NaN. -/
theorem square_flat_west (k : Nat) (p a b : Coordinate) (c : Float64) (hc : isCornerValue c)
    (ha : a.Lat = c) (hb : b.Lat = c) (ha' : isCornerValue a.Lng)
    (hb' : isCornerValue b.Lng) (h : p.Lng.lt zeroF = true) :
    rayOrdered (k + 3) p a b = some p.Lat.isNaN := by
  obtain ⟨l, hl, hr⟩ := square_edge_west k p a b (ha ▸ hc) (hb ▸ hc) ha' hb' h
  rw [hr]
  obtain ⟨c1, _, _, _⟩ := hc.key_bounds
  by_cases hn : p.Lat.isNaN = true
  · have e1 : p.Lat.eq a.Lat = false := Float64.eq_false_of_nan_left _ _ hn
    have e2 : p.Lat.eq b.Lat = false := Float64.eq_false_of_nan_left _ _ hn
    rw [nudge_of_ne (k + 2) _ _ _ e1 e2] at hl
    cases hl
    simp [Float64.lt_false_of_nan_left _ _ hn, Float64.gt, Float64.lt_false_of_nan_right _ _ hn,
      hn]
  · simp only [Bool.not_eq_true] at hn
    obtain ⟨e1, _, e3⟩ := nudge_spec _ _ _ _ _ hl
    have := outside_of_flat l a.Lat b.Lat (e3 hn) (ha ▸ c1) (hb ▸ c1) (by rw [ha, hb]) e1
    simp [this, hn]

/-- `Contains` on the square, in either winding order, from the tests of its four
edges with endpoints ordered by latitude. -/
theorem square_contains (fuel : Nat) (p : Coordinate) (rb rr rt rl : Bool)
    (hb1 : rayOrdered fuel p ⟨tenF, zeroF⟩ ⟨zeroF, zeroF⟩ = some rb)
    (hb2 : rayOrdered fuel p ⟨zeroF, zeroF⟩ ⟨tenF, zeroF⟩ = some rb)
    (hr : rayOrdered fuel p ⟨tenF, zeroF⟩ ⟨tenF, tenF⟩ = some rr)
    (ht1 : rayOrdered fuel p ⟨zeroF, tenF⟩ ⟨tenF, tenF⟩ = some rt)
    (ht2 : rayOrdered fuel p ⟨tenF, tenF⟩ ⟨zeroF, tenF⟩ = some rt)
    (hl : rayOrdered fuel p ⟨zeroF, zeroF⟩ ⟨zeroF, tenF⟩ = some rl)
    (ring : Polygon) (hring : ring = square ∨ ring = square.reverse) :
    Contains fuel ring p = some (xor (xor rb rr) (xor rt rl)) := by
  have l00 : zeroF.lt zeroF = false := by decide
  have l01 : zeroF.lt tenF = true := by decide
  have l10 : tenF.lt zeroF = false := by decide
  have l11 : tenF.lt tenF = false := by decide
  rcases hring with h | h <;> subst h
  · rw [square_eq, Contains_five fuel p _ _ _ _ _ rb rr rt rl]
    · cases rb <;> cases rr <;> cases rt <;> cases rl <;> rfl
    · rw [rayIntersectsEdge_eq]; simpa [l00] using hb1
    · rw [rayIntersectsEdge_eq]; simpa [l01] using hr
    · rw [rayIntersectsEdge_eq]; simpa [l11] using ht1
    · rw [rayIntersectsEdge_eq]; simpa [l10] using hl
  · rw [square_reverse_eq, Contains_five fuel p _ _ _ _ _ rl rt rr rb]
    · cases rb <;> cases rr <;> cases rt <;> cases rl <;> rfl
    · rw [rayIntersectsEdge_eq]; simpa [l01] using hl
    · rw [rayIntersectsEdge_eq]; simpa [l11] using ht2
    · rw [rayIntersectsEdge_eq]; simpa [l10] using hr
    · rw [rayIntersectsEdge_eq]; simpa [l00] using hb2

theorem square_interior (k : Nat) (p : Coordinate) (h1 : zeroF.lt p.Lng = true)
    (h2 : p.Lng.lt tenF = true) (h3 : zeroF.lt p.Lat = true) (h4 : p.Lat.lt tenF = true)
    (ring : Polygon) (hring : ring = square ∨ ring = square.reverse) :
    Contains (k + 3) ring p = some true := by
  obtain ⟨_, _, k3⟩ := Float64.not_nan_of_lt _ _ h3
  obtain ⟨_, _, k4⟩ := Float64.not_nan_of_lt _ _ h4
  rw [key_zeroF] at k3
  rw [key_tenF] at k4
  have e0 : p.Lat.eq zeroF = false := Float64.eq_false_of_key _ _ (by rw [key_zeroF]; omega)
  have e10 : p.Lat.eq tenF = false := Float64.eq_false_of_key _ _ (by rw [key_tenF]; omega)
  have n0 : p.Lat.lt zeroF = false := Float64.lt_false_of_key _ _ (by rw [key_zeroF]; omega)
  have n10 : p.Lat.gt tenF = false := Float64.lt_false_of_key _ _ (by rw [key_tenF]; omega)
  refine square_contains (k + 3) p false true false false ?_ ?_ ?_ ?_ ?_ ?_ ring hring
  · exact rayOrdered_above (k + 2) p _ _ h3 e0
  · exact rayOrdered_above (k + 2) p _ _ h3 e0
  · rw [rayOrdered_left (k + 3) p ⟨tenF, zeroF⟩ ⟨tenF, tenF⟩ h2 h2,
      nudge_of_ne (k + 2) _ _ _ e0 e10]
    simp [n0, n10]
  · exact rayOrdered_below (k + 2) p _ _ h4 e10
  · exact rayOrdered_below (k + 2) p _ _ h4 e10
  · rw [rayOrdered_right (k + 3) p ⟨zeroF, zeroF⟩ ⟨zeroF, tenF⟩ h1 h1,
      nudge_of_ne (k + 2) _ _ _ e0 e10]
    rfl

theorem square_exterior (k : Nat) (p : Coordinate)
    (h : p.Lng.lt zeroF = true ∨ p.Lng.gt tenF = true ∨ p.Lat.lt zeroF = true ∨
      p.Lat.gt tenF = true)
    (ring : Polygon) (hring : ring = square ∨ ring = square.reverse) :
    Contains (k + 3) ring p = some false := by
  have c0 : isCornerValue zeroF := Or.inl rfl
  have c10 : isCornerValue tenF := Or.inr rfl
  rcases h with h | h | h | h
  · obtain ⟨l1, n1, r1⟩ := square_edge_west k p ⟨tenF, zeroF⟩ ⟨tenF, tenF⟩ c0 c10 c10 c10 h
    obtain ⟨l2, n2, r2⟩ := square_edge_west k p ⟨zeroF, zeroF⟩ ⟨zeroF, tenF⟩ c0 c10 c0 c0 h
    simp only at n1 n2 r1 r2
    rw [n1] at n2
    cases n2
    have := square_contains (k + 3) p p.Lat.isNaN _ p.Lat.isNaN _
      (square_flat_west k p _ _ zeroF c0 rfl rfl c10 c0 h)
      (square_flat_west k p _ _ zeroF c0 rfl rfl c0 c10 h) r1
      (square_flat_west k p _ _ tenF c10 rfl rfl c0 c10 h)
      (square_flat_west k p _ _ tenF c10 rfl rfl c10 c0 h) r2 ring hring
    rw [this]
    cases p.Lat.isNaN <;> cases (!(l1.lt zeroF || l1.gt tenF)) <;> rfl
  · exact square_contains (k + 3) p false false false false
      (square_edge_east k p _ _ c0 c0 c10 c0 h) (square_edge_east k p _ _ c0 c0 c0 c10 h)
      (square_edge_east k p _ _ c0 c10 c10 c10 h) (square_edge_east k p _ _ c10 c10 c0 c10 h)
      (square_edge_east k p _ _ c10 c10 c10 c0 h) (square_edge_east k p _ _ c0 c10 c0 c0 h)
      ring hring
  · exact square_contains (k + 3) p false false false false
      (square_edge_south (k + 2) p _ _ c0 c0 h) (square_edge_south (k + 2) p _ _ c0 c0 h)
      (square_edge_south (k + 2) p _ _ c0 c10 h) (square_edge_south (k + 2) p _ _ c10 c10 h)
      (square_edge_south (k + 2) p _ _ c10 c10 h) (square_edge_south (k + 2) p _ _ c0 c10 h)
      ring hring
  · exact square_contains (k + 3) p false false false false
      (square_edge_north (k + 2) p _ _ c0 c0 h) (square_edge_north (k + 2) p _ _ c0 c0 h)
      (square_edge_north (k + 2) p _ _ c0 c10 h) (square_edge_north (k + 2) p _ _ c10 c10 h)
      (square_edge_north (k + 2) p _ _ c10 c10 h) (square_edge_north (k + 2) p _ _ c0 c10 h)
      ring hring

/-- The answers of `Contains` at the boundary points of the square, in either
winding order, with three tests of the loop condition. -/
theorem square_boundary (ring : Polygon) (hring : ring = square ∨ ring = square.reverse) :
    Contains 3 ring (coordZ 10 5) = some true ∧ Contains 3 ring (coordZ 0 5) = some false ∧
      Contains 3 ring (coordZ 10 10) = some false := by
  rcases hring with h | h <;> subst h <;> decide

/-- C7: on the square ring (0,0),(10,0),(10,10),(0,10),(0,0) in (lng,lat), in either
winding order, `Contains` answers true at every point with 0 < lng < 10 and
0 < lat < 10 and false at every point with lng < 0, lng > 10, lat < 0 or lat > 10;
on the boundary it contains (10,5) and excludes (0,5) and (10,10); in particular it
contains (5,5), (10,5), (8,5) and excludes (-10,5), (0,5), (10,10), (100,100). The
latitude loop has ended after three tests of its condition, so the answers hold at
every fuel from 3 on. -/
theorem C7_square_containment (k : Nat) (ring : Polygon)
    (hring : ring = square ∨ ring = square.reverse) :
    (∀ p : Coordinate, zeroF.lt p.Lng = true → p.Lng.lt tenF = true →
        zeroF.lt p.Lat = true → p.Lat.lt tenF = true → Contains (k + 3) ring p = some true) ∧
      (∀ p : Coordinate,
        (p.Lng.lt zeroF = true ∨ p.Lng.gt tenF = true ∨ p.Lat.lt zeroF = true ∨
          p.Lat.gt tenF = true) → Contains (k + 3) ring p = some false) ∧
      Contains (k + 3) ring (coordZ 10 5) = some true ∧
      Contains (k + 3) ring (coordZ 0 5) = some false ∧
      Contains (k + 3) ring (coordZ 10 10) = some false ∧
      Contains (k + 3) ring (coordZ 5 5) = some true ∧
      Contains (k + 3) ring (coordZ 8 5) = some true ∧
      Contains (k + 3) ring (coordZ (-10) 5) = some false ∧
      Contains (k + 3) ring (coordZ 100 100) = some false := by
  obtain ⟨b1, b2, b3⟩ := square_boundary ring hring
  rw [Nat.add_comm k 3]
  refine ⟨?_, ?_, Contains_mono 3 k ring _ _ b1, Contains_mono 3 k ring _ _ b2,
    Contains_mono 3 k ring _ _ b3, ?_, ?_, ?_, ?_⟩
  · intro p h1 h2 h3 h4
    rw [Nat.add_comm 3 k]
    exact square_interior k p h1 h2 h3 h4 ring hring
  · intro p h
    rw [Nat.add_comm 3 k]
    exact square_exterior k p h ring hring
  · rw [Nat.add_comm 3 k]
    exact square_interior k _ (by decide) (by decide) (by decide) (by decide) ring hring
  · rw [Nat.add_comm 3 k]
    exact square_interior k _ (by decide) (by decide) (by decide) (by decide) ring hring
  · rw [Nat.add_comm 3 k]
    exact square_exterior k _ (by decide) ring hring
  · rw [Nat.add_comm 3 k]
    exact square_exterior k _ (by decide) ring hring

/-- Witness of C7: the square as written contains (5,8), and the reversed square
excludes (5,11). -/
theorem C7_square_containment_witness :
    Contains 3 square (coordZ 5 8) = some true ∧
      Contains 3 square.reverse (coordZ 5 11) = some false :=
  ⟨(C7_square_containment 0 square (Or.inl rfl)).1 (coordZ 5 8) (by decide) (by decide)
      (by decide) (by decide),
    (C7_square_containment 0 square.reverse (Or.inr rfl)).2.1 (coordZ 5 11) (by decide)⟩

/-- C1: `NewPolygon` returns an error exactly when the sequence has fewer than 4
coordinates or its first coordinate differs (Go `!=`) from its last, and the error
is never a `RighthandRuleError`, whatever the turning angle. -/
theorem C1_NewPolygon_fails_only_on_shape (ta : List Coordinate → Float64)
    (coords : List Coordinate) :
    ((∃ err, NewPolygon ta coords = .error err) ↔
        (coords.length < 4 ∨ firstNeLast coords = true)) ∧
      ∀ angle, NewPolygon ta coords ≠ .error (.RighthandRuleError angle) := by
  rw [NewPolygon_eq]
  by_cases h : coords.length < 4
  · simp [h]
  · by_cases h2 : firstNeLast coords = true
    · simp [h, h2]
    · by_cases h3 : (ta coords).gt (Float64.zero false) = true
      · simp [h, h2, h3]
      · simp [h, h2, h3]

/-- C2: a ring of at least 4 coordinates whose first equals its last and whose
turning angle is not positive is returned unchanged by `NewPolygon`, and `Validate`
returns no error on it. -/
theorem C2_clockwise_ring_unchanged (ta : List Coordinate → Float64) (ring : List Coordinate)
    (hlen : 4 ≤ ring.length) (hclosed : firstNeLast ring = false)
    (hangle : (ta ring).gt (Float64.zero false) = false) :
    NewPolygon ta ring = .ok ring ∧ Validate ta ring = none := by
  rw [NewPolygon_eq, Validate_eq]
  have h : ¬ ring.length < 4 := by omega
  simp [h, hclosed, hangle]

/-- Witness of C2 on the ring `validRing` of the tests. -/
theorem C2_clockwise_ring_unchanged_witness :
    NewPolygon (fun _ => Float64.zero true) validRing = .ok validRing ∧
      Validate (fun _ => Float64.zero true) validRing = none :=
  C2_clockwise_ring_unchanged (fun _ => Float64.zero true) validRing (by decide) (by decide)
    (by decide)

/-- C3: a ring of at least 4 coordinates whose first equals its last and whose
turning angle is positive is returned reversed by `NewPolygon` (element `i` of the
result is element `len-1-i` of the input), and `Validate` on the original ring
returns the `RighthandRuleError` that carries the computed turning angle. -/
theorem C3_counter_clockwise_ring_reversed (ta : List Coordinate → Float64)
    (ring : List Coordinate) (hlen : 4 ≤ ring.length) (hclosed : firstNeLast ring = false)
    (hangle : (ta ring).gt (Float64.zero false) = true) :
    NewPolygon ta ring = .ok ring.reverse ∧
      ring.reverse.length = ring.length ∧
      (∀ i, i < ring.length → ring.reverse[i]? = ring[ring.length - 1 - i]?) ∧
      Validate ta ring = some (.RighthandRuleError (ta ring)) := by
  rw [NewPolygon_eq, Validate_eq]
  have h : ¬ ring.length < 4 := by omega
  refine ⟨by simp [h, hclosed, hangle], by simp, ?_, by simp [h, hclosed, hangle]⟩
  intro i hi
  rw [List.getElem?_reverse hi]

/-- Witness of C3 on the ring `counterClockwise` of the tests. -/
theorem C3_counter_clockwise_ring_reversed_witness :
    NewPolygon (fun _ => Float64.ofNat 1) counterClockwise = .ok counterClockwise.reverse ∧
      counterClockwise.reverse.length = counterClockwise.length ∧
      (∀ i, i < counterClockwise.length →
        counterClockwise.reverse[i]? = counterClockwise[counterClockwise.length - 1 - i]?) ∧
      Validate (fun _ => Float64.ofNat 1) counterClockwise =
        some (.RighthandRuleError (Float64.ofNat 1)) :=
  C3_counter_clockwise_ring_reversed (fun _ => Float64.ofNat 1) counterClockwise (by decide)
    (by decide) (by decide)

/-- C4: on a sequence of fewer than 4 coordinates, the empty one included, both
`NewPolygon` and `Validate` fail with the `InvalidGeometryError` whose message is
`RingTooShort`. -/
theorem C4_short_ring_rejected (ta : List Coordinate → Float64) (coords : List Coordinate)
    (hlen : coords.length < 4) :
    NewPolygon ta coords = .error (.InvalidGeometryError RingTooShort) ∧
      Validate ta coords = some (.InvalidGeometryError RingTooShort) ∧
      GoError.Error (fun _ => "") (.InvalidGeometryError RingTooShort) = RingTooShort := by
  rw [NewPolygon_eq, Validate_eq]
  simp [hlen, GoError.Error]

/-- Witness of C4 on the two-point sequence `line` of the tests. -/
theorem C4_short_ring_rejected_witness :
    NewPolygon (fun _ => Float64.zero false) line = .error (.InvalidGeometryError RingTooShort) ∧
      Validate (fun _ => Float64.zero false) line = some (.InvalidGeometryError RingTooShort) ∧
      GoError.Error (fun _ => "") (.InvalidGeometryError RingTooShort) = RingTooShort :=
  C4_short_ring_rejected (fun _ => Float64.zero false) line (by decide)

/-- C5 as stated fails: the two-point sequence `line` of the tests has first
coordinate different from its last, and both `NewPolygon` and `Validate` answer
`RingTooShort` rather than `RingUnclosed`. -/
theorem C5_unclosed_short_ring_counterexample :
    firstNeLast line = true ∧
      NewPolygon (fun _ => Float64.zero false) line ≠ .error (.InvalidGeometryError RingUnclosed) ∧
      Validate (fun _ => Float64.zero false) line ≠ some (.InvalidGeometryError RingUnclosed) ∧
      Validate (fun _ => Float64.zero false) line = some (.InvalidGeometryError RingTooShort) := by
  decide

/-- C5, amended: on a sequence of at least 4 coordinates whose first coordinate is
not equal to its last, both `NewPolygon` and `Validate` fail with the
`InvalidGeometryError` whose message is `RingUnclosed`. -/
theorem C5_unclosed_ring_rejected (ta : List Coordinate → Float64) (coords : List Coordinate)
    (hlen : 4 ≤ coords.length) (hopen : firstNeLast coords = true) :
    NewPolygon ta coords = .error (.InvalidGeometryError RingUnclosed) ∧
      Validate ta coords = some (.InvalidGeometryError RingUnclosed) := by
  rw [NewPolygon_eq, Validate_eq]
  have h : ¬ coords.length < 4 := by omega
  simp [h, hopen]

/-- Witness of the amended C5 on the ring `unclosedRing` of the tests. -/
theorem C5_unclosed_ring_rejected_witness :
    NewPolygon (fun _ => Float64.zero false) unclosedRing =
        .error (.InvalidGeometryError RingUnclosed) ∧
      Validate (fun _ => Float64.zero false) unclosedRing =
        some (.InvalidGeometryError RingUnclosed) :=
  C5_unclosed_ring_rejected (fun _ => Float64.zero false) unclosedRing (by decide) (by decide)

/-! ## The in-memory store -/

theorem StateMap.get_set_self (m : StateMap) (k : String) (v : State) :
    (m.set k v).get k = some v := by
  induction m with
  | nil => simp [StateMap.set, StateMap.get]
  | cons e rest ih =>
    obtain ⟨k', v'⟩ := e
    by_cases h : k' = k
    · simp [StateMap.set, StateMap.get, h]
    · simp [StateMap.set, StateMap.get, h, ih]

theorem StateMap.mem_of_get (m : StateMap) (k : String) (v : State)
    (h : m.get k = some v) : (k, v) ∈ m := by
  induction m with
  | nil => simp [StateMap.get] at h
  | cons e rest ih =>
    obtain ⟨k', v'⟩ := e
    by_cases hk : k' = k
    · simp [StateMap.get, hk] at h
      simp [hk, h]
    · simp [StateMap.get, hk] at h
      exact List.mem_cons_of_mem _ (ih h)

theorem StateMap.mem_set (m : StateMap) (k : String) (v : State) (e : String × State)
    (h : e ∈ m.set k v) : e = (k, v) ∨ e ∈ m := by
  induction m with
  | nil => simpa [StateMap.set] using h
  | cons e' rest ih =>
    obtain ⟨k', v'⟩ := e'
    by_cases hk : k' = k
    · simp [StateMap.set, hk] at h
      rcases h with h | h
      · exact Or.inl h
      · exact Or.inr (List.mem_cons_of_mem _ h)
    · simp [StateMap.set, hk] at h
      rcases h with h | h
      · exact Or.inr (by simp [h])
      · rcases ih h with h' | h'
        · exact Or.inl h'
        · exact Or.inr (List.mem_cons_of_mem _ h')

theorem StateMap.mem_delete (m : StateMap) (k : String) (e : String × State)
    (h : e ∈ m.delete k) : e ∈ m := by
  unfold StateMap.delete at h
  exact (List.mem_filter.mp h).1

/-- What `NewState` returns, by cases on the name and on `NewPolygon`. -/
theorem NewState_ok (ta : List Coordinate → Float64) (name : String) (coords : List Coordinate)
    (created : State) (h : NewState ta name coords = (created, none)) :
    2 ≤ name.utf8ByteSize ∧ created.Name = name ∧ NewPolygon ta coords = .ok created.Border := by
  unfold NewState at h
  by_cases hn : name.utf8ByteSize < 2
  · simp [hn] at h
  · simp only [hn, if_false] at h
    cases hp : NewPolygon ta coords with
    | error err => simp [hp] at h
    | ok border =>
      simp [hp] at h
      subst h
      exact ⟨by omega, rfl, rfl⟩

/-- What `Create` returns and leaves behind, by cases. -/
theorem Create_eq (title : String → String) (ta : List Coordinate → Float64)
    (s : StateLocationMemoryStore) (r : State) :
    Create title ta s r =
      match NewState ta (title r.Name) r.Border with
      | (_, some err) => (s, State.empty, some (.InvalidStateError err))
      | (created, none) =>
        match s.states.get created.Name with
        | some _ =>
          (s, State.empty,
            some (.InvalidStateError (.errorString ("duplicate state: " ++ title r.Name))))
        | none => (⟨s.states.set created.Name created⟩, created, none) := rfl

/-- Every key of a reachable store is at least 2 bytes long and is the name of the
state stored under it. -/
theorem Reachable.keys_valid (title : String → String) (ta : List Coordinate → Float64)
    (s : StateLocationMemoryStore) (hs : Reachable title ta s) :
    ∀ e ∈ s.states, 2 ≤ e.1.utf8ByteSize ∧ e.2.Name = e.1 := by
  induction hs with
  | new => intro e he; simp [NewMemoryStore] at he
  | create s r _ ih =>
    intro e he
    rw [Create_eq] at he
    cases hn : NewState ta (title r.Name) r.Border with
    | mk created err =>
      cases err with
      | some err => simp [hn] at he; exact ih e he
      | none =>
        simp only [hn] at he
        cases hg : s.states.get created.Name with
        | some v => simp [hg] at he; exact ih e he
        | none =>
          simp only [hg] at he
          obtain ⟨hlen, hname, _⟩ := NewState_ok ta _ _ _ hn
          rcases StateMap.mem_set _ _ _ _ he with h | h
          · subst h
            simp [hname, hlen]
          · exact ih e h
  | delete s name _ ih =>
    intro e he
    exact ih e (StateMap.mem_delete _ _ _ he)

/-- C8: when `Create(r)` succeeds, `GetByName(n)` on the resulting store succeeds for
every name `n` whose title-cased form equals that of `r.Name`, and returns the
stored region, whose `Name` is the title-cased form of `r.Name`. -/
theorem C8_created_state_found_by_name (title : String → String)
    (ta : List Coordinate → Float64) (s : StateLocationMemoryStore) (r : State)
    (hcreate : (Create title ta s r).2.2 = none) (n : String)
    (hn : title n = title r.Name) :
    GetByName title (Create title ta s r).1 n = ((Create title ta s r).2.1, none) ∧
      (Create title ta s r).1.states.get (title r.Name) = some (Create title ta s r).2.1 ∧
      (Create title ta s r).2.1.Name = title r.Name := by
  rw [Create_eq] at hcreate ⊢
  cases hs : NewState ta (title r.Name) r.Border with
  | mk created err =>
    cases err with
    | some err => simp [hs] at hcreate
    | none =>
      simp only [hs] at hcreate ⊢
      obtain ⟨_, hname, _⟩ := NewState_ok ta _ _ _ hs
      cases hg : s.states.get created.Name with
      | some v => simp [hg] at hcreate
      | none =>
        simp only [GetByName, hn]
        rw [← hname]
        simp [StateMap.get_set_self]

/-- Witness of C8: the region created as "valid" on the new store is fetched as
"VALID", "Valid" and "vALiD", and its stored name is "Valid". -/
theorem C8_created_state_found_by_name_witness :
    (GetByName asciiTitle createdValid.1 "VALID" = (createdValid.2.1, none) ∧
      GetByName asciiTitle createdValid.1 "Valid" = (createdValid.2.1, none) ∧
      GetByName asciiTitle createdValid.1 "vALiD" = (createdValid.2.1, none)) ∧
      createdValid.2.1.Name = "Valid" :=
  ⟨⟨(C8_created_state_found_by_name asciiTitle clockwiseAngle NewMemoryStore validState
        (by decide) "VALID" (by decide)).1,
      (C8_created_state_found_by_name asciiTitle clockwiseAngle NewMemoryStore validState
        (by decide) "Valid" (by decide)).1,
      (C8_created_state_found_by_name asciiTitle clockwiseAngle NewMemoryStore validState
        (by decide) "vALiD" (by decide)).1⟩,
    (C8_created_state_found_by_name asciiTitle clockwiseAngle NewMemoryStore validState
      (by decide) "VALID" (by decide)).2.2⟩

/-- The message of a duplicate error starts with "duplicate" and ends with the name. -/
theorem duplicate_message_contains (name : String) :
    "duplicate".data <:+: ("duplicate state: " ++ name).data ∧
      name.data <:+: ("duplicate state: " ++ name).data := by
  constructor
  · exact ⟨[], " state: ".data ++ name.data, by simp [String.data_append]⟩
  · exact ⟨"duplicate state: ".data, [], by simp [String.data_append]⟩

/-- C9: on a store a program can hold that has an entry under the title-cased form
of a name, `Create` of a region whose border `NewPolygon` accepts and whose name
normalizes to that key fails with the duplicate error: an `InvalidStateError` whose
message contains "duplicate" and the normalized name; the store is left as it was. -/
theorem C9_duplicate_create_rejected (title : String → String)
    (ta : List Coordinate → Float64) (fmtF : Float64 → String)
    (s : StateLocationMemoryStore) (hs : Reachable title ta s)
    (held : String) (v : State) (hheld : s.states.get (title held) = some v)
    (r : State) (border : Polygon) (hborder : NewPolygon ta r.Border = .ok border)
    (hname : title r.Name = title held) :
    Create title ta s r =
        (s, State.empty,
          some (.InvalidStateError (.errorString ("duplicate state: " ++ title r.Name)))) ∧
      "duplicate".data <:+:
        ((GoError.InvalidStateError
          (.errorString ("duplicate state: " ++ title r.Name))).Error fmtF).data ∧
      (title r.Name).data <:+:
        ((GoError.InvalidStateError
          (.errorString ("duplicate state: " ++ title r.Name))).Error fmtF).data := by
  have hkey := (Reachable.keys_valid title ta s hs _ (StateMap.mem_of_get _ _ _ hheld)).1
  simp only at hkey
  have hlen : ¬ (title held).utf8ByteSize < 2 := by omega
  refine ⟨?_, ?_⟩
  · rw [Create_eq]
    simp [NewState, hlen, hborder, hname, hheld]
  · simpa [GoError.Error] using duplicate_message_contains (title r.Name)

/-- Witness of C9: after the region "Valid" is created on the new store, creating
"vALiD" with the same border fails with the duplicate error. -/
theorem C9_duplicate_create_rejected_witness :
    Create asciiTitle clockwiseAngle createdValid.1 ⟨"vALiD", validRing⟩ =
        (createdValid.1, State.empty,
          some (.InvalidStateError (.errorString ("duplicate state: " ++ asciiTitle "vALiD")))) ∧
      "duplicate".data <:+:
        ((GoError.InvalidStateError
          (.errorString ("duplicate state: " ++ asciiTitle "vALiD"))).Error (fun _ => "")).data ∧
      (asciiTitle "vALiD").data <:+:
        ((GoError.InvalidStateError
          (.errorString ("duplicate state: " ++ asciiTitle "vALiD"))).Error (fun _ => "")).data :=
  C9_duplicate_create_rejected asciiTitle clockwiseAngle (fun _ => "") createdValid.1
    (Reachable.create _ _ Reachable.new) "valid" createdValid.2.1 (by decide)
    ⟨"vALiD", validRing⟩ validRing (by decide) (by decide)

/-- C10: `Create` is atomic on failure: whenever it returns an error (invalid name,
invalid border or duplicate), the store after the call is the store before it and
the returned region is the empty `State`. -/
theorem C10_create_failure_leaves_store (title : String → String)
    (ta : List Coordinate → Float64) (s : StateLocationMemoryStore) (r : State)
    (herr : (Create title ta s r).2.2 ≠ none) :
    (Create title ta s r).1 = s ∧ (Create title ta s r).2.1 = State.empty := by
  rw [Create_eq] at herr ⊢
  cases hn : NewState ta (title r.Name) r.Border with
  | mk created err =>
    cases err with
    | some err => simp
    | none =>
      simp only [hn] at herr ⊢
      cases hg : s.states.get created.Name with
      | some v => simp
      | none => simp [hg] at herr

/-- Witness of C10: creating the unclosed ring of the tests on the new store fails
and leaves the store empty. -/
theorem C10_create_failure_leaves_store_witness :
    (Create asciiTitle clockwiseAngle NewMemoryStore ⟨"Unclosed Ring", unclosedRing⟩).1 =
        NewMemoryStore ∧
      (Create asciiTitle clockwiseAngle NewMemoryStore ⟨"Unclosed Ring", unclosedRing⟩).2.1 =
        State.empty :=
  C10_create_failure_leaves_store asciiTitle clockwiseAngle NewMemoryStore
    ⟨"Unclosed Ring", unclosedRing⟩ (by decide)

/-! ## Frame properties of the store operations -/

theorem StateMap.get_set_other (m : StateMap) (k : String) (v : State) (k' : String)
    (h : k' ≠ k) : (m.set k v).get k' = m.get k' := by
  induction m with
  | nil => simp [StateMap.set, StateMap.get, Ne.symm h]
  | cons e rest ih =>
    obtain ⟨k0, v0⟩ := e
    by_cases h0 : k0 = k
    · subst h0
      simp [StateMap.set, StateMap.get, Ne.symm h]
    · by_cases h1 : k0 = k'
      · subst h1
        simp [StateMap.set, StateMap.get, h0]
      · simp [StateMap.set, StateMap.get, h0, h1, ih]

theorem StateMap.set_of_get_none (m : StateMap) (k : String) (v : State)
    (h : m.get k = none) : m.set k v = m ++ [(k, v)] := by
  induction m with
  | nil => rfl
  | cons e rest ih =>
    obtain ⟨k0, v0⟩ := e
    by_cases h0 : k0 = k
    · simp [StateMap.get, h0] at h
    · simp only [StateMap.get, h0, if_false] at h
      simp [StateMap.set, h0, ih h]

theorem StateMap.get_eq_none_iff (m : StateMap) (k : String) :
    m.get k = none ↔ k ∉ m.map Prod.fst := by
  induction m with
  | nil => simp [StateMap.get]
  | cons e rest ih =>
    obtain ⟨k0, v0⟩ := e
    by_cases h0 : k0 = k
    · simp [StateMap.get, h0]
    · simp only [StateMap.get, h0, if_false, ih, List.map_cons, List.mem_cons, not_or]
      exact ⟨fun h => ⟨fun h' => h0 h'.symm, h⟩, fun h => h.2⟩

theorem StateMap.get_delete_self (m : StateMap) (k : String) : (m.delete k).get k = none := by
  rw [StateMap.get_eq_none_iff]
  simp [StateMap.delete]

theorem StateMap.get_delete_other (m : StateMap) (k k' : String) (h : k' ≠ k) :
    (m.delete k).get k' = m.get k' := by
  induction m with
  | nil => rfl
  | cons e rest ih =>
    obtain ⟨k0, v0⟩ := e
    simp only [StateMap.delete, ne_eq, decide_not] at ih
    by_cases h0 : k0 = k
    · subst h0
      have h1 : ¬ k0 = k' := fun h1 => h h1.symm
      simp [StateMap.delete, StateMap.get, h1, ih]
    · by_cases h1 : k0 = k'
      · subst h1
        simp [StateMap.delete, StateMap.get, h0]
      · simp [StateMap.delete, StateMap.get, h0, h1, ih]

theorem StateMap.delete_of_get_none (m : StateMap) (k : String) (h : m.get k = none) :
    m.delete k = m := by
  rw [StateMap.get_eq_none_iff] at h
  unfold StateMap.delete
  rw [List.filter_eq_self]
  intro e he
  have : e.1 ≠ k := fun hk => h (hk ▸ List.mem_map_of_mem Prod.fst he)
  simp [this]

theorem StateMap.delete_delete (m : StateMap) (k : String) :
    (m.delete k).delete k = m.delete k :=
  StateMap.delete_of_get_none _ _ (StateMap.get_delete_self m k)

theorem StateMap.get_of_mem (m : StateMap) (hm : m.WF) (e : String × State) (he : e ∈ m) :
    m.get e.1 = some e.2 := by
  induction m with
  | nil => simp at he
  | cons e0 rest ih =>
    obtain ⟨k0, v0⟩ := e0
    unfold StateMap.WF at hm ih
    simp only [List.map_cons, List.nodup_cons] at hm
    rcases List.mem_cons.mp he with h | h
    · subst h
      simp [StateMap.get]
    · have hne : k0 ≠ e.1 := fun hk => hm.1 (hk ▸ List.mem_map_of_mem Prod.fst h)
      simp [StateMap.get, hne, ih hm.2 h]

/-- What `NewState` returns when the name is long enough and the ring is accepted. -/
theorem NewState_of_ok (ta : List Coordinate → Float64) (name : String)
    (coords : List Coordinate) (border : Polygon) (hlen : 2 ≤ name.utf8ByteSize)
    (hb : NewPolygon ta coords = .ok border) :
    NewState ta name coords = (⟨name, border⟩, none) := by
  have h : ¬ name.utf8ByteSize < 2 := by omega
  simp [NewState, h, hb]

/-- The ring `NewPolygon` makes of a closed ring of at least 4 coordinates. -/
theorem NewPolygon_of_shape (ta : List Coordinate → Float64) (coords : List Coordinate)
    (h4 : 4 ≤ coords.length) (hclosed : firstNeLast coords = false) :
    NewPolygon ta coords =
      .ok (if (ta coords).gt (Float64.zero false) then coords.reverse else coords) := by
  rw [NewPolygon_eq]
  have h : ¬ coords.length < 4 := by omega
  by_cases h3 : (ta coords).gt (Float64.zero false) = true <;> simp [h, hclosed, h3]

/-- C12: `GetByName(n)` fails exactly when the store has no entry under the
title-cased form of `n`; the error is then the `StateNotFoundError` whose `Name` is
`n` as requested, and otherwise the stored region is returned. The method makes no
write to the map, so it is a function of the store with no store among its results. -/
theorem C12_get_by_name_not_found (title : String → String) (s : StateLocationMemoryStore)
    (n : String) :
    ((GetByName title s n).2 ≠ none ↔ s.states.get (title n) = none) ∧
      (s.states.get (title n) = none →
        GetByName title s n = (State.empty, some (.StateNotFoundError n))) ∧
      ∀ v, s.states.get (title n) = some v → GetByName title s n = (v, none) := by
  unfold GetByName
  cases h : s.states.get (title n) with
  | none => simp
  | some v => simp

/-- Witness of C12: with the region "Valid" stored, the name "not here" is not
found, and the error carries the name as requested. -/
theorem C12_get_by_name_not_found_witness :
    GetByName asciiTitle createdValid.1 "not here" =
      (State.empty, some (.StateNotFoundError "not here")) :=
  (C12_get_by_name_not_found asciiTitle createdValid.1 "not here").2.1 (by decide)

/-- C13: `Delete(n)` returns no error; afterwards the store has no entry under the
title-cased form of `n` and every other entry is as it was; a store without such an
entry is left unchanged; deleting twice leaves the store that deleting once does. -/
theorem C13_delete_removes_entry (title : String → String) (s : StateLocationMemoryStore)
    (n : String) :
    (Delete title s n).2 = none ∧
      (Delete title s n).1.states.get (title n) = none ∧
      (∀ k, k ≠ title n → (Delete title s n).1.states.get k = s.states.get k) ∧
      (s.states.get (title n) = none → (Delete title s n).1 = s) ∧
      Delete title (Delete title s n).1 n = Delete title s n := by
  refine ⟨rfl, StateMap.get_delete_self _ _, ?_, ?_, ?_⟩
  · intro k hk
    exact StateMap.get_delete_other _ _ _ hk
  · intro h
    simp only [Delete]
    rw [StateMap.delete_of_get_none _ _ h]
  · simp only [Delete]
    rw [StateMap.delete_delete]

/-- Witness of C13: deleting "valid" from the store that holds "Valid" leaves the
empty store, and deleting "valid" from the new store leaves the new store. -/
theorem C13_delete_removes_entry_witness :
    (Delete asciiTitle createdValid.1 "valid").1.states.get (asciiTitle "valid") = none ∧
      (Delete asciiTitle NewMemoryStore "valid").1 = NewMemoryStore :=
  ⟨(C13_delete_removes_entry asciiTitle createdValid.1 "valid").2.1,
    (C13_delete_removes_entry asciiTitle NewMemoryStore "valid").2.2.2.1 (by decide)⟩

/-- The store a program can hold stands for a Go map: no key occurs twice. -/
theorem Reachable.wf (title : String → String) (ta : List Coordinate → Float64)
    (s : StateLocationMemoryStore) (hs : Reachable title ta s) : s.states.WF := by
  induction hs with
  | new => simp [NewMemoryStore, StateMap.WF]
  | create s r _ ih =>
    rw [Create_eq]
    cases hn : NewState ta (title r.Name) r.Border with
    | mk created err =>
      cases err with
      | some err => exact ih
      | none =>
        simp only
        cases hg : s.states.get created.Name with
        | some v => exact ih
        | none =>
          simp only
          rw [StateMap.set_of_get_none _ _ _ hg]
          unfold StateMap.WF at ih ⊢
          rw [List.map_append, List.nodup_append]
          refine ⟨ih, by simp, ?_⟩
          intro a ha hb
          simp only [List.map_cons, List.map_nil, List.mem_singleton] at hb
          subst hb
          exact (StateMap.get_eq_none_iff _ _).mp hg ha
  | delete s n _ ih =>
    unfold StateMap.WF at ih ⊢
    simp only [Delete, StateMap.delete]
    exact ih.sublist ((List.filter_sublist _).map Prod.fst)

/-- What the store holds after a region is created on the new store and a name with
the same title-cased form is deleted. -/
theorem create_then_delete (title : String → String) (ta : List Coordinate → Float64)
    (r : State) (n : String) (hn : title n = title r.Name) :
    (Delete title (Create title ta NewMemoryStore r).1 n).1 = NewMemoryStore := by
  rw [Create_eq]
  cases hs : NewState ta (title r.Name) r.Border with
  | mk created err =>
    cases err with
    | some err => rfl
    | none =>
      obtain ⟨_, hname, _⟩ := NewState_ok ta _ _ _ hs
      simp [NewMemoryStore, StateMap.get, StateMap.set, Delete, StateMap.delete, hname, hn]

/-- C14: on a store whose entries stand for a Go map, `GetAll` returns no error and
a collection that holds exactly the regions stored, one for each key and none
twice (in the order of some listing of the keys); it is empty for the new store and
for the store in which the only region created was then deleted under a name with
the same title-cased form. The method makes no write to the map, so it is a
function of the store with no store among its results. -/
theorem C14_get_all_lists_the_regions (s : StateLocationMemoryStore) (hs : s.states.WF) :
    (GetAll s).2 = none ∧
      (∀ v, v ∈ (GetAll s).1 ↔ ∃ k, s.states.get k = some v) ∧
      (∃ keys : List String, keys.Nodup ∧ (∀ k, k ∈ keys ↔ s.states.get k ≠ none) ∧
        (GetAll s).1.map some = keys.map s.states.get) ∧
      GetAll NewMemoryStore = ([], none) ∧
      ∀ (title : String → String) (ta : List Coordinate → Float64) (r : State) (n : String),
        title n = title r.Name →
          GetAll (Delete title (Create title ta NewMemoryStore r).1 n).1 = ([], none) := by
  refine ⟨rfl, ?_, ⟨s.states.map Prod.fst, hs, ?_, ?_⟩, rfl, ?_⟩
  · intro v
    simp only [GetAll, List.mem_map]
    constructor
    · rintro ⟨e, he, rfl⟩
      exact ⟨e.1, StateMap.get_of_mem _ hs e he⟩
    · rintro ⟨k, hk⟩
      exact ⟨(k, v), StateMap.mem_of_get _ _ _ hk, rfl⟩
  · intro k
    rw [Ne, StateMap.get_eq_none_iff, not_not]
  · simp only [GetAll, List.map_map]
    apply List.map_congr_left
    intro e he
    exact (StateMap.get_of_mem _ hs e he).symm
  · intro title ta r n hn
    rw [create_then_delete title ta r n hn]
    rfl

/-- Witness of C14: the store that holds "Valid" lists exactly that region. -/
theorem C14_get_all_lists_the_regions_witness :
    (∀ v, v ∈ (GetAll createdValid.1).1 ↔ ∃ k, createdValid.1.states.get k = some v) ∧
      GetAll (Delete asciiTitle (Create asciiTitle clockwiseAngle NewMemoryStore validState).1
        "VALID").1 = ([], none) :=
  ⟨(C14_get_all_lists_the_regions createdValid.1 (by unfold StateMap.WF; decide)).2.1,
    (C14_get_all_lists_the_regions createdValid.1 (by unfold StateMap.WF; decide)).2.2.2.2
      asciiTitle clockwiseAngle validState "VALID" (by decide)⟩

/-! ## The state constructor -/

/-- C15 as stated fails: the name "é" has one character, fewer than 2, and
`NewState` accepts it, because `len(name)` counts its two bytes. -/
theorem C15_one_character_name_counterexample :
    "é".length < 2 ∧ "é".utf8ByteSize = 2 ∧
      NewState clockwiseAngle "é" validRing = (⟨"é", validRing⟩, none) := by
  decide

/-- C15, amended: for every name of fewer than 2 bytes `NewState` fails, whatever
the coordinates; and `NewState` succeeds exactly when the name has at least 2 bytes
and `NewPolygon` accepts the coordinates. -/
theorem C15_NewState_succeeds_iff (ta : List Coordinate → Float64) (name : String)
    (coords : List Coordinate) :
    (name.utf8ByteSize < 2 → (NewState ta name coords).2 ≠ none) ∧
      ((NewState ta name coords).2 = none ↔
        (2 ≤ name.utf8ByteSize ∧ ∃ p, NewPolygon ta coords = .ok p)) := by
  unfold NewState
  by_cases hn : name.utf8ByteSize < 2
  · simp [hn]
  · cases hp : NewPolygon ta coords with
    | error err => simp [hn]
    | ok p => simp [hn]; omega

/-- Witness of the amended C15: the one-byte name "A" of the tests is rejected. -/
theorem C15_NewState_succeeds_iff_witness : (NewState clockwiseAngle "A" validRing).2 ≠ none :=
  (C15_NewState_succeeds_iff clockwiseAngle "A" validRing).1 (by decide)

/-- C16: `NewState` is all-or-nothing: with an error it returns the empty `State`
(empty `Name`, no `Border`); without one it returns the given name unmodified and
the polygon `NewPolygon` returns for the given coordinates. -/
theorem C16_NewState_all_or_nothing (ta : List Coordinate → Float64) (name : String)
    (coords : List Coordinate) :
    ((NewState ta name coords).2 ≠ none → (NewState ta name coords).1 = State.empty) ∧
      State.empty.Name = "" ∧ State.empty.Border = [] ∧
      ((NewState ta name coords).2 = none →
        ∃ border, NewPolygon ta coords = .ok border ∧
          (NewState ta name coords).1 = ⟨name, border⟩) := by
  refine ⟨?_, rfl, rfl, ?_⟩
  · unfold NewState
    by_cases hn : name.utf8ByteSize < 2
    · simp [hn]
    · cases hp : NewPolygon ta coords with
      | error err => simp [hn]
      | ok p => simp [hn]
  · intro h
    cases hs : NewState ta name coords with
    | mk created err =>
      rw [hs] at h
      simp only at h
      subst h
      obtain ⟨_, hname, hb⟩ := NewState_ok ta name coords created hs
      exact ⟨created.Border, hb, by rw [← hname]⟩

/-- Witness of C16: the name "foo" on `validRing` gives the state with that name and
that border, and the one-byte name "A" gives the empty state. -/
theorem C16_NewState_all_or_nothing_witness :
    (∃ border, NewPolygon clockwiseAngle validRing = .ok border ∧
        (NewState clockwiseAngle "foo" validRing).1 = ⟨"foo", border⟩) ∧
      (NewState clockwiseAngle "A" validRing).1 = State.empty :=
  ⟨(C16_NewState_all_or_nothing clockwiseAngle "foo" validRing).2.2.2 (by decide),
    (C16_NewState_all_or_nothing clockwiseAngle "A" validRing).1 (by decide)⟩

/-! ## Orientation repair -/

theorem Coordinate.goNe_comm (a b : Coordinate) : a.goNe b = b.goNe a := by
  simp [Coordinate.goNe, Coordinate.goEq, Float64.eq_comm a.Lng b.Lng,
    Float64.eq_comm a.Lat b.Lat]

theorem firstNeLast_reverse (p : Polygon) : firstNeLast p.reverse = firstNeLast p := by
  unfold firstNeLast
  rw [List.head?_reverse, List.getLast?_reverse]
  cases p.head? <;> cases p.getLast? <;> simp [Coordinate.goNe_comm]

/-- What `NewPolygon` makes of its own result `p`: it succeeds, and it returns `p`
again exactly when the turning angle of `p` is not positive or `p` reads the same in
both directions. -/
theorem NewPolygon_again_iff (ta : List Coordinate → Float64) (coords : List Coordinate)
    (p : Polygon) (h : NewPolygon ta coords = .ok p) :
    (∃ q, NewPolygon ta p = .ok q) ∧
      (NewPolygon ta p = .ok p ↔ ((ta p).gt (Float64.zero false) = true → p.reverse = p)) := by
  have hshape : 4 ≤ p.length ∧ firstNeLast p = false := by
    rw [NewPolygon_eq] at h
    by_cases h4 : coords.length < 4
    · simp [h4] at h
    · by_cases hc : firstNeLast coords = true
      · simp [h4, hc] at h
      · have hc' : firstNeLast coords = false := by simpa using hc
        by_cases ha : (ta coords).gt (Float64.zero false) = true
        · simp only [h4, hc, ha, if_true, if_false, Bool.false_eq_true] at h
          cases h
          exact ⟨by simp; omega, by rw [firstNeLast_reverse]; exact hc'⟩
        · simp only [h4, hc, ha, if_false, Bool.false_eq_true] at h
          cases h
          exact ⟨by omega, hc'⟩
  have hp := NewPolygon_of_shape ta p hshape.1 hshape.2
  refine ⟨⟨_, hp⟩, ?_⟩
  rw [hp]
  by_cases ha : (ta p).gt (Float64.zero false) = true
  · simp [ha]
  · simp [ha]

/-- C17 fails on the code where the turning angle is positive on a ring and on its
reverse: for a closed ring of at least 4 coordinates that does not read the same in
both directions, `NewPolygon` returns the reversed ring, and `NewPolygon` applied to
that result reverses it again and returns the ring it started from, not its
argument. -/
theorem C17_orientation_repair_flips (ta : List Coordinate → Float64) (ring : Polygon)
    (h4 : 4 ≤ ring.length) (hclosed : firstNeLast ring = false)
    (hpos : (ta ring).gt (Float64.zero false) = true)
    (hrev : (ta ring.reverse).gt (Float64.zero false) = true)
    (hne : ring.reverse ≠ ring) :
    NewPolygon ta ring = .ok ring.reverse ∧ NewPolygon ta ring.reverse = .ok ring ∧
      NewPolygon ta ring.reverse ≠ .ok ring.reverse := by
  have h1 : NewPolygon ta ring = .ok ring.reverse := by
    rw [NewPolygon_of_shape ta ring h4 hclosed]
    simp [hpos]
  have h2 : NewPolygon ta ring.reverse = .ok ring := by
    rw [NewPolygon_of_shape ta ring.reverse (by simpa using h4)
      (by rw [firstNeLast_reverse]; exact hclosed)]
    simp [hrev]
  refine ⟨h1, h2, ?_⟩
  rw [h2]
  intro e
  exact hne (Except.ok.inj e).symm

/-- Witness of C17 on `flippingRing`, a ring of no area, with a turning angle that is
positive on it in both directions: the first `NewPolygon` returns its reverse, the
second returns `flippingRing`. -/
theorem C17_orientation_repair_flips_witness :
    NewPolygon counterClockwiseAngle flippingRing = .ok flippingRing.reverse ∧
      NewPolygon counterClockwiseAngle flippingRing.reverse = .ok flippingRing ∧
      NewPolygon counterClockwiseAngle flippingRing.reverse ≠ .ok flippingRing.reverse :=
  C17_orientation_repair_flips counterClockwiseAngle flippingRing (by decide) (by decide)
    (by decide) (by decide) (by decide)

/-! ## JSON round trips -/

theorem Float64.not_nan_of_finite (x : Float64) (h : x.isFinite = true) :
    x.isNaN = false ∧ x.isInf = false := by
  unfold Float64.isFinite at h
  unfold Float64.isNaN Float64.isInf
  simp only [bne_iff_ne, ne_eq] at h
  simp [h]

theorem Coordinate.MarshalJSON_of_finite (c : Coordinate) (h : c.isFinite = true) :
    c.MarshalJSON = .ok (.floats [c.Lng, c.Lat]) := by
  simp only [Coordinate.isFinite, Bool.and_eq_true] at h
  obtain ⟨n1, i1⟩ := Float64.not_nan_of_finite _ h.1
  obtain ⟨n2, i2⟩ := Float64.not_nan_of_finite _ h.2
  simp [Coordinate.MarshalJSON, jsonMarshalFloats, jsonUnsupported, n1, i1, n2, i2]

/-- Whatever `Coordinate.MarshalJSON` writes is the pair longitude, latitude. -/
theorem Coordinate.MarshalJSON_ok (c : Coordinate) (item : FloatsJSON)
    (h : c.MarshalJSON = .ok item) : item = .floats [c.Lng, c.Lat] := by
  unfold Coordinate.MarshalJSON jsonMarshalFloats at h
  split at h
  · cases h
  · cases h
    rfl

theorem Coordinate.UnmarshalJSON_pair (c : Coordinate) (x0 x1 : Float64) :
    c.UnmarshalJSON (.floats [x0, x1]) = (⟨x0, x1⟩, none) := by
  simp [Coordinate.UnmarshalJSON, LatLng]

/-- C18 as stated fails: the coordinate `LatLng(NaN, 0)` has no serialization,
`json.Marshal` refuses the NaN. -/
theorem C18_nan_coordinate_counterexample :
    (LatLng Float64.nan (Float64.zero false)).MarshalJSON =
        .error (.errorString "json: unsupported value: NaN") ∧
      (LatLng Float64.nan (Float64.zero false)).MarshalJSON ≠
        .ok (.floats [Float64.zero false, Float64.nan]) := by
  decide

/-- C18, amended: for every coordinate built as `LatLng(lat, lng)` from finite
numbers, serialization yields the 2-element sequence `[lng, lat]` (longitude
first), and deserializing that serialization succeeds and yields a coordinate with
the same `Lat` and the same `Lng`. -/
theorem C18_coordinate_json_round_trip (lat lng : Float64) (hlat : lat.isFinite = true)
    (hlng : lng.isFinite = true) :
    (LatLng lat lng).MarshalJSON = .ok (.floats [lng, lat]) ∧
      ∀ target : Coordinate,
        target.UnmarshalJSON (.floats [lng, lat]) = (LatLng lat lng, none) ∧
          (target.UnmarshalJSON (.floats [lng, lat])).1.Lat = lat ∧
          (target.UnmarshalJSON (.floats [lng, lat])).1.Lng = lng := by
  refine ⟨?_, ?_⟩
  · exact Coordinate.MarshalJSON_of_finite (LatLng lat lng)
      (by simp [Coordinate.isFinite, LatLng, hlat, hlng])
  · intro target
    rw [Coordinate.UnmarshalJSON_pair]
    exact ⟨rfl, rfl, rfl⟩

/-- Witness of the amended C18: `LatLng(40.2, -75.1)` serializes to `[-75.1, 40.2]`
and reads back as itself. -/
theorem C18_coordinate_json_round_trip_witness :
    testCoordinate.MarshalJSON =
        .ok (.floats [Float64.ofRat true 751 10, Float64.ofRat false 402 10]) ∧
      (Coordinate.UnmarshalJSON ⟨Float64.zero false, Float64.zero false⟩
        (.floats [Float64.ofRat true 751 10, Float64.ofRat false 402 10])).1 = testCoordinate :=
  ⟨(C18_coordinate_json_round_trip (Float64.ofRat false 402 10) (Float64.ofRat true 751 10)
      (by decide) (by decide)).1,
    congrArg Prod.fst
      ((C18_coordinate_json_round_trip (Float64.ofRat false 402 10) (Float64.ofRat true 751 10)
        (by decide) (by decide)).2 ⟨Float64.zero false, Float64.zero false⟩).1⟩

/-- C19: deserializing a numeric sequence into a `Coordinate` fails exactly when the
sequence does not have 2 elements; on failure the target is left as it was, and on
success element 0 becomes `Lng` and element 1 becomes `Lat`. -/
theorem C19_coordinate_unmarshal (c : Coordinate) (xs : List Float64) :
    ((c.UnmarshalJSON (.floats xs)).2 ≠ none ↔ xs.length ≠ 2) ∧
      ((c.UnmarshalJSON (.floats xs)).2 ≠ none → (c.UnmarshalJSON (.floats xs)).1 = c) ∧
      ∀ x0 x1, xs = [x0, x1] → c.UnmarshalJSON (.floats xs) = (⟨x0, x1⟩, none) := by
  refine ⟨?_, ?_, ?_⟩
  · unfold Coordinate.UnmarshalJSON
    by_cases h : xs.length ≠ 2 <;> simp [h]
  · unfold Coordinate.UnmarshalJSON
    by_cases h : xs.length ≠ 2 <;> simp [h]
  · intro x0 x1 h
    subst h
    exact Coordinate.UnmarshalJSON_pair c x0 x1

/-- Witness of C19: the sequence `[1.1, 2.2, 3.3]` of the tests is rejected and the
target keeps its value. -/
theorem C19_coordinate_unmarshal_witness :
    (testCoordinate.UnmarshalJSON (.floats [Float64.ofRat false 11 10,
        Float64.ofRat false 22 10, Float64.ofRat false 33 10])).2 ≠ none ∧
      (testCoordinate.UnmarshalJSON (.floats [Float64.ofRat false 11 10,
        Float64.ofRat false 22 10, Float64.ofRat false 33 10])).1 = testCoordinate :=
  ⟨(C19_coordinate_unmarshal testCoordinate _).1.mpr (by decide),
    (C19_coordinate_unmarshal testCoordinate _).2.1
      ((C19_coordinate_unmarshal testCoordinate _).1.mpr (by decide))⟩

/-- Decoding what `encodeElements` wrote gives the coordinates back. -/
theorem decode_encode (ring : List Coordinate) (items : List FloatsJSON)
    (h : encodeElements ring = .ok items) : decodeElements items = .ok ring := by
  induction ring generalizing items with
  | nil =>
    simp only [encodeElements] at h
    cases h
    rfl
  | cons c rest ih =>
    simp only [encodeElements] at h
    cases hc : c.MarshalJSON with
    | error err =>
      rw [hc] at h
      cases err <;> simp at h
    | ok item =>
      rw [hc] at h
      simp only at h
      cases hr : encodeElements rest with
      | error err => rw [hr] at h; simp at h
      | ok rs =>
        rw [hr] at h
        simp only at h
        cases h
        have hi := Coordinate.MarshalJSON_ok c item hc
        subst hi
        simp [decodeElements, Coordinate.UnmarshalJSON_pair, ih rs hr]

theorem encode_of_finite (ring : List Coordinate) (h : ∀ c ∈ ring, c.isFinite = true) :
    encodeElements ring = .ok (ring.map (fun c => .floats [c.Lng, c.Lat])) := by
  induction ring with
  | nil => rfl
  | cons c rest ih =>
    have hc := Coordinate.MarshalJSON_of_finite c (h c (by simp))
    have hr := ih (fun d hd => h d (List.mem_cons_of_mem _ hd))
    simp [encodeElements, hc, hr]

theorem NewPolygon_of_valid (ta : List Coordinate → Float64) (ring : List Coordinate)
    (h : Validate ta ring = none) : NewPolygon ta ring = .ok ring := by
  rw [Validate_eq] at h
  rw [NewPolygon_eq]
  by_cases h4 : ring.length < 4
  · simp [h4] at h
  · by_cases hc : firstNeLast ring = true
    · simp [h4, hc] at h
    · by_cases ha : (ta ring).gt (Float64.zero false) = true
      · simp [h4, hc, ha] at h
      · simp [h4, hc, ha]

/-- C20: `Polygon.UnmarshalJSON` behaves as `NewPolygon` on the decoded coordinate
sequence: when `NewPolygon` fails it returns the same error and leaves the target
as it was, otherwise it sets the target to the result of `NewPolygon`; so for every
ring on which `Validate` returns no error, deserializing its serialization yields
the same coordinate sequence; a ring of finite coordinates has a serialization. -/
theorem C20_polygon_json_round_trip (ta : List Coordinate → Float64) (target : Polygon) :
    (∀ data coords, jsonUnmarshalCoordinates data = .ok coords →
        (∀ err, NewPolygon ta coords = .error err →
          Polygon.UnmarshalJSON ta target data = (target, some err)) ∧
        (∀ polygon, NewPolygon ta coords = .ok polygon →
          Polygon.UnmarshalJSON ta target data = (polygon, none))) ∧
      (∀ ring data, Validate ta ring = none → Polygon.MarshalJSON ring = .ok data →
        Polygon.UnmarshalJSON ta target data = (ring, none)) ∧
      (∀ ring : List Coordinate, (∀ c ∈ ring, c.isFinite = true) →
        Polygon.MarshalJSON ring = .ok (ringJSON ring)) := by
  refine ⟨?_, ?_, ?_⟩
  · intro data coords hd
    constructor
    · intro err he
      simp [Polygon.UnmarshalJSON, hd, he]
    · intro polygon hp
      simp [Polygon.UnmarshalJSON, hd, hp]
  · intro ring data hv hm
    unfold Polygon.MarshalJSON at hm
    cases he : encodeElements ring with
    | error err => rw [he] at hm; cases hm
    | ok items =>
      rw [he] at hm
      cases hm
      simp [Polygon.UnmarshalJSON, jsonUnmarshalCoordinates, decode_encode ring items he,
        NewPolygon_of_valid ta ring hv]
  · intro ring hf
    simp [Polygon.MarshalJSON, encode_of_finite ring hf, ringJSON]

/-- Witness of C20: the ring `[[0,0],[2,2],[1,1],[0,0]]` of the tests reads back from
its serialization as itself. -/
theorem C20_polygon_json_round_trip_witness :
    Polygon.UnmarshalJSON clockwiseAngle [] (ringJSON validRing) = (validRing, none) ∧
      Polygon.MarshalJSON validRing = .ok (ringJSON validRing) :=
  ⟨(C20_polygon_json_round_trip clockwiseAngle []).2.1 validRing (ringJSON validRing)
      (by decide) (by decide),
    (C20_polygon_json_round_trip clockwiseAngle []).2.2 validRing (by decide)⟩

/-! ## The edge test, case by case -/

theorem Float64.lt_trans (x y z : Float64) (h1 : x.lt y = true) (h2 : y.lt z = true) :
    x.lt z = true := by
  obtain ⟨a1, _, a3⟩ := Float64.not_nan_of_lt _ _ h1
  obtain ⟨_, b2, b3⟩ := Float64.not_nan_of_lt _ _ h2
  exact Float64.lt_of_key _ _ a1 b2 (by omega)

theorem Float64.lt_asymm (x y : Float64) (h : x.lt y = true) : y.lt x = false := by
  have := (Float64.not_nan_of_lt _ _ h).2.2
  exact Float64.lt_false_of_key _ _ (by omega)

theorem Float64.eq_false_of_lt (x y : Float64) (h : x.lt y = true) : x.eq y = false := by
  have := (Float64.not_nan_of_lt _ _ h).2.2
  exact Float64.eq_false_of_key _ _ (by omega)

theorem Float64.eq_false_of_gt (x y : Float64) (h : y.lt x = true) : x.eq y = false := by
  have := (Float64.not_nan_of_lt _ _ h).2.2
  exact Float64.eq_false_of_key _ _ (by omega)

/-- Below both endpoints the ray misses the edge. -/
theorem rayIntersectsEdge_below (k : Nat) (p : Coordinate) (e : edge)
    (h1 : p.Lat.lt e.p1.Lat = true) (h2 : p.Lat.lt e.p2.Lat = true) :
    rayIntersectsEdge (k + 1) p e = some false := by
  rw [rayIntersectsEdge_eq]
  split
  · exact rayOrdered_below k p _ _ h1 (Float64.eq_false_of_lt _ _ h2)
  · exact rayOrdered_below k p _ _ h2 (Float64.eq_false_of_lt _ _ h1)

/-- Above both endpoints the ray misses the edge. -/
theorem rayIntersectsEdge_above (k : Nat) (p : Coordinate) (e : edge)
    (h1 : p.Lat.gt e.p1.Lat = true) (h2 : p.Lat.gt e.p2.Lat = true) :
    rayIntersectsEdge (k + 1) p e = some false := by
  rw [rayIntersectsEdge_eq]
  split
  · exact rayOrdered_above k p _ _ h2 (Float64.eq_false_of_gt _ _ h1)
  · exact rayOrdered_above k p _ _ h1 (Float64.eq_false_of_gt _ _ h2)

/-- The latitude of the point lies strictly between the two endpoint latitudes. -/
def latBetween (p : Coordinate) (e : edge) : Prop :=
  (e.p1.Lat.lt p.Lat = true ∧ p.Lat.lt e.p2.Lat = true) ∨
    (e.p2.Lat.lt p.Lat = true ∧ p.Lat.lt e.p1.Lat = true)

/-- With the latitude strictly between the endpoint latitudes the loop does not
nudge, and the edge test is the test on the endpoints in the order of their
latitudes. -/
theorem rayIntersectsEdge_between (k : Nat) (p : Coordinate) (e : edge)
    (h : latBetween p e) :
    ∃ a b, ((a = e.p1 ∧ b = e.p2) ∨ (a = e.p2 ∧ b = e.p1)) ∧
      a.Lat.lt p.Lat = true ∧ p.Lat.lt b.Lat = true ∧
      nudge (k + 1) p.Lat a.Lat b.Lat = some p.Lat ∧
      rayIntersectsEdge (k + 1) p e = rayOrdered (k + 1) p a b := by
  rw [rayIntersectsEdge_eq]
  rcases h with ⟨h1, h2⟩ | ⟨h1, h2⟩
  · refine ⟨e.p1, e.p2, Or.inl ⟨rfl, rfl⟩, h1, h2,
      nudge_of_ne k _ _ _ (Float64.eq_false_of_gt _ _ h1) (Float64.eq_false_of_lt _ _ h2), ?_⟩
    simp [Float64.lt_trans _ _ _ h1 h2]
  · refine ⟨e.p2, e.p1, Or.inr ⟨rfl, rfl⟩, h1, h2,
      nudge_of_ne k _ _ _ (Float64.eq_false_of_gt _ _ h1) (Float64.eq_false_of_lt _ _ h2), ?_⟩
    simp [Float64.lt_asymm _ _ (Float64.lt_trans _ _ _ h1 h2)]

/-- C24: if the latitude of the point is strictly below both endpoint latitudes or
strictly above both, `rayIntersectsEdge` is false; if it is strictly between them,
`rayIntersectsEdge` is true when the longitude of the point is strictly less than
both endpoint longitudes and false when it is strictly greater than both, whatever
the order of the endpoints. The latitude loop ends at its first test in all four
cases. -/
theorem C24_edge_test_clear_cases (k : Nat) (p : Coordinate) (e : edge) :
    (p.Lat.lt e.p1.Lat = true → p.Lat.lt e.p2.Lat = true →
        rayIntersectsEdge (k + 1) p e = some false) ∧
      (p.Lat.gt e.p1.Lat = true → p.Lat.gt e.p2.Lat = true →
        rayIntersectsEdge (k + 1) p e = some false) ∧
      (latBetween p e → p.Lng.lt e.p1.Lng = true → p.Lng.lt e.p2.Lng = true →
        rayIntersectsEdge (k + 1) p e = some true) ∧
      (latBetween p e → p.Lng.gt e.p1.Lng = true → p.Lng.gt e.p2.Lng = true →
        rayIntersectsEdge (k + 1) p e = some false) := by
  refine ⟨rayIntersectsEdge_below k p e, rayIntersectsEdge_above k p e, ?_, ?_⟩
  · intro hb l1 l2
    obtain ⟨a, b, hab, h1, h2, hn, hr⟩ := rayIntersectsEdge_between k p e hb
    have la : p.Lng.lt a.Lng = true := by rcases hab with ⟨x, _⟩ | ⟨x, _⟩ <;> rw [x] <;> assumption
    have lb : p.Lng.lt b.Lng = true := by rcases hab with ⟨_, x⟩ | ⟨_, x⟩ <;> rw [x] <;> assumption
    rw [hr, rayOrdered_left (k + 1) p a b la lb, hn]
    simp [Float64.lt_asymm _ _ h1, Float64.gt, Float64.lt_asymm _ _ h2]
  · intro hb l1 l2
    obtain ⟨a, b, hab, h1, h2, hn, hr⟩ := rayIntersectsEdge_between k p e hb
    have la : p.Lng.gt a.Lng = true := by rcases hab with ⟨x, _⟩ | ⟨x, _⟩ <;> rw [x] <;> assumption
    have lb : p.Lng.gt b.Lng = true := by rcases hab with ⟨_, x⟩ | ⟨_, x⟩ <;> rw [x] <;> assumption
    rw [hr, rayOrdered_right (k + 1) p a b la lb, hn]
    rfl

/-- Witness of C24: the edge (15,2)-(10,10) of the tests is hit from (1,5) and not
from (100,5). -/
theorem C24_edge_test_clear_cases_witness :
    rayIntersectsEdge 1 (coordZ 1 5) ⟨coordZ 15 2, coordZ 10 10⟩ = some true ∧
      rayIntersectsEdge 1 (coordZ 100 5) ⟨coordZ 15 2, coordZ 10 10⟩ = some false :=
  ⟨(C24_edge_test_clear_cases 0 (coordZ 1 5) ⟨coordZ 15 2, coordZ 10 10⟩).2.2.1
      (Or.inl ⟨by decide, by decide⟩) (by decide) (by decide),
    (C24_edge_test_clear_cases 0 (coordZ 100 5) ⟨coordZ 15 2, coordZ 10 10⟩).2.2.2
      (Or.inl ⟨by decide, by decide⟩) (by decide) (by decide)⟩

/-! ## Points outside the bounding box -/

theorem containsLoop_all_false (fuel : Nat) (p : Coordinate) (ring : List Coordinate)
    (acc : Bool)
    (h : ∀ a b, a ∈ ring → b ∈ ring → rayIntersectsEdge fuel p ⟨a, b⟩ = some false) :
    containsLoop fuel p ring acc = some acc := by
  induction ring generalizing acc with
  | nil => rfl
  | cons a t ih =>
    cases t with
    | nil => rfl
    | cons b r =>
      simp only [containsLoop, h a b (by simp) (by simp)]
      exact ih acc (fun x y hx hy => h x y (List.mem_cons_of_mem _ hx) (List.mem_cons_of_mem _ hy))

/-- `Contains` is false on the empty and on the single-coordinate sequence. -/
theorem Contains_short (fuel : Nat) (p c : Coordinate) :
    Contains fuel [] p = some false ∧ Contains fuel [c] p = some false :=
  ⟨rfl, rfl⟩

/-- South of every vertex `Contains` is false. -/
theorem Contains_south (k : Nat) (ring : Polygon) (p : Coordinate)
    (h : ∀ v ∈ ring, p.Lat.lt v.Lat = true) : Contains (k + 1) ring p = some false :=
  containsLoop_all_false (k + 1) p ring false
    (fun a b ha hb => rayIntersectsEdge_below k p ⟨a, b⟩ (h a ha) (h b hb))

/-- North of every vertex `Contains` is false. -/
theorem Contains_north (k : Nat) (ring : Polygon) (p : Coordinate)
    (h : ∀ v ∈ ring, p.Lat.gt v.Lat = true) : Contains (k + 1) ring p = some false :=
  containsLoop_all_false (k + 1) p ring false
    (fun a b ha hb => rayIntersectsEdge_above k p ⟨a, b⟩ (h a ha) (h b hb))

/-- East of every vertex `Contains` is false, when no vertex is at latitude `+Inf`. -/
theorem Contains_east (k : Nat) (ring : Polygon) (p : Coordinate)
    (h : ∀ v ∈ ring, p.Lng.gt v.Lng = true)
    (hinf : ∀ v ∈ ring, v.Lat.eq (Float64.inf false) = false) :
    Contains (k + 3) ring p = some false := by
  refine containsLoop_all_false (k + 3) p ring false (fun a b ha hb => ?_)
  rw [rayIntersectsEdge_eq]
  split
  · rw [rayOrdered_right (k + 3) p a b (h a ha) (h b hb)]
    obtain ⟨l, hl⟩ := nudge_terminates k p.Lat a.Lat b.Lat (hinf a ha) (hinf b hb)
    simp [hl]
  · rw [rayOrdered_right (k + 3) p b a (h b hb) (h a ha)]
    obtain ⟨l, hl⟩ := nudge_terminates k p.Lat b.Lat a.Lat (hinf b hb) (hinf a ha)
    simp [hl]

/-- C25 fails on the code: `thinStepRing` is a closed ring, the point (-100, 1) lies
west of every vertex of it, and `Contains` answers true. The latitude of the point
equals that of the first vertex; on the first edge the loop nudges it past both
endpoints, on the last edge past one only, so the ray is counted as crossing one
edge. -/
theorem C25_far_west_point_contained :
    thinStepRing.length = 4 ∧ firstNeLast thinStepRing = false ∧
      (∀ v ∈ thinStepRing, westPoint.Lng.lt v.Lng = true) ∧
      rayIntersectsEdge 3 westPoint ⟨⟨Float64.ofNat 0, Float64.ofNat 1⟩,
        ⟨Float64.ofNat 5, onePlusUlp⟩⟩ = some false ∧
      rayIntersectsEdge 3 westPoint ⟨⟨Float64.ofNat 5, onePlusUlp⟩,
        ⟨Float64.ofNat 2, Float64.ofNat 11⟩⟩ = some false ∧
      rayIntersectsEdge 3 westPoint ⟨⟨Float64.ofNat 2, Float64.ofNat 11⟩,
        ⟨Float64.ofNat 0, Float64.ofNat 1⟩⟩ = some true ∧
      ∀ k, Contains (k + 3) thinStepRing westPoint = some true := by
  refine ⟨by decide, by decide, by decide, by decide, by decide, by decide, ?_⟩
  intro k
  rw [Nat.add_comm]
  exact Contains_mono 3 k _ _ _ (by decide)

/-! ## The end of the latitude loop -/

/-- At `+Inf` a nudge changes nothing, so a loop that nudges there never ends. -/
theorem nudge_at_inf (fuel : Nat) (a b : Float64)
    (h : ((Float64.inf false).eq a || (Float64.inf false).eq b) = true) :
    nudge fuel (Float64.inf false) a b = none := by
  induction fuel with
  | zero => rfl
  | succ k ih =>
    rw [nudge_step k _ a b h]
    have : (Float64.inf false).nextafterInf = Float64.inf false := by decide
    rw [this]
    exact ih

/-- C26 fails on the code: at latitude `+Inf` the step `math.Nextafter(p.Lat,
math.Inf(1))` returns `p.Lat` itself, so for a point at latitude `+Inf` and an edge
with an endpoint at latitude `+Inf` the condition of the loop stays true: the loop
is still running after any number of tests, and so is `Contains` on a ring with
such an edge. -/
theorem C26_loop_never_ends_at_infinity :
    (Float64.inf false).nextafterInf = Float64.inf false ∧
      (∀ fuel b, nudge fuel (Float64.inf false) (Float64.inf false) b = none) ∧
      (∀ fuel, rayIntersectsEdge fuel skyPoint
        ⟨coordZ 0 0, ⟨Float64.ofNat 1, Float64.inf false⟩⟩ = none) ∧
      ∀ fuel, Contains fuel skyRing skyPoint = none := by
  have hn : ∀ fuel b, nudge fuel (Float64.inf false) (Float64.inf false) b = none := by
    intro fuel b
    exact nudge_at_inf fuel _ _ (by simp [show (Float64.inf false).eq (Float64.inf false) = true
      by decide])
  have hlt : (Float64.zero false).lt (Float64.inf false) = true := by decide
  have hr : ∀ fuel, rayIntersectsEdge fuel skyPoint
      ⟨coordZ 0 0, ⟨Float64.ofNat 1, Float64.inf false⟩⟩ = none := by
    intro fuel
    have hc : coordZ 0 0 = ⟨Float64.zero false, Float64.zero false⟩ := by decide
    rw [hc]
    simp only [rayIntersectsEdge, skyPoint, hlt, if_true]
    rw [nudge_comm, hn]
  refine ⟨by decide, hn, hr, ?_⟩
  intro fuel
  simp only [Contains, skyRing, containsLoop, hr fuel]

/-! ## Run-time checks of ring validation -/

theorem indexChecked_of_lt (p : List Coordinate) (i : Nat) (h : i < p.length) :
    indexChecked p (i : Int) = .returns (p.get ⟨i, h⟩) := by
  unfold indexChecked
  have h1 : (0 : Int) ≤ (i : Int) ∧ (i : Int) < (p.length : Int) := by omega
  simp [h1, List.getElem?_eq_getElem h]

theorem turningAngleChecked_of_pos (s2 : List Coordinate → Outcome Float64)
    (vertices : List Coordinate) (h : 1 ≤ vertices.length) :
    turningAngleChecked s2 vertices = s2 vertices := by
  unfold turningAngleChecked
  have h1 : ¬ ((vertices.length : Int) - 1 < 0) := by omega
  have h2 : (List.range (vertices.length - 1)).all
      (fun i => decide (i < vertices.length - 1) && decide (i < vertices.length)) = true := by
    rw [List.all_eq_true]
    intro i hi
    have := List.mem_range.mp hi
    simp only [Bool.and_eq_true, decide_eq_true_eq]
    omega
  simp [h1, h2]

/-- What `Validate` does, by cases on the ring and on the s2 call. -/
theorem ValidateChecked_eq (s2 : List Coordinate → Outcome Float64) (p : Polygon) :
    ValidateChecked s2 p =
      if p.length < 4 then .returns (some (.InvalidGeometryError RingTooShort))
      else if firstNeLast p then .returns (some (.InvalidGeometryError RingUnclosed))
      else
        match s2 p with
        | .panics msg => .panics msg
        | .returns angle =>
          if angle.gt (Float64.zero false) then .returns (some (.RighthandRuleError angle))
          else .returns none := by
  unfold ValidateChecked
  by_cases h : p.length < 4
  · simp [h]
  · have hl : ((p.length : Int) - 1) = ((p.length - 1 : Nat) : Int) := by omega
    have h0 : indexChecked p 0 = .returns (p.get ⟨0, by omega⟩) :=
      indexChecked_of_lt p 0 (by omega)
    simp only [h, if_false, hl, indexChecked_of_lt p (p.length - 1) (by omega), h0,
      turningAngleChecked_of_pos s2 p (by omega)]
    rw [firstNeLast_eq p (by omega) (by omega)]

/-- What `NewPolygon` does, by cases on the ring and on the s2 call. -/
theorem NewPolygonChecked_eq (s2 : List Coordinate → Outcome Float64) (p : Polygon) :
    NewPolygonChecked s2 p =
      if p.length < 4 then .returns (.error (.InvalidGeometryError RingTooShort))
      else if firstNeLast p then .returns (.error (.InvalidGeometryError RingUnclosed))
      else
        match s2 p with
        | .panics msg => .panics msg
        | .returns angle =>
          if angle.gt (Float64.zero false) then .returns (.ok p.reverse)
          else .returns (.ok p) := by
  unfold NewPolygonChecked
  rw [ValidateChecked_eq]
  by_cases h : p.length < 4
  · simp [h, GoError.isInvalidGeometryError]
  · by_cases h2 : firstNeLast p = true
    · simp [h, h2, GoError.isInvalidGeometryError]
    · simp only [h, h2, if_false, Bool.false_eq_true]
      rw [turningAngleChecked_of_pos s2 p (by omega)]
      cases hs : s2 p with
      | panics msg => rfl
      | returns angle =>
        by_cases h3 : angle.gt (Float64.zero false) = true
        · simp [h3, GoError.isInvalidGeometryError]
        · simp [h3]

/-- Where the s2 call returns, `Validate` and `NewPolygon` return what the
definitions without the panics return. -/
theorem checked_of_returns (s2 : List Coordinate → Outcome Float64)
    (ta : List Coordinate → Float64) (coords : List Coordinate)
    (h : s2 coords = .returns (ta coords)) :
    ValidateChecked s2 coords = .returns (Validate ta coords) ∧
      NewPolygonChecked s2 coords = .returns (NewPolygon ta coords) := by
  rw [ValidateChecked_eq, NewPolygonChecked_eq, Validate_eq, NewPolygon_eq, h]
  by_cases h4 : coords.length < 4
  · simp [h4]
  · by_cases h2 : firstNeLast coords = true
    · simp [h4, h2]
    · by_cases h3 : (ta coords).gt (Float64.zero false) = true
      · simp [h4, h2, h3]
      · simp [h4, h2, h3]

/-- The claim C27 as stated fails where the s2 call panics: `nanRing` is a closed
sequence of 4 coordinates, so the length test and the first/last comparison pass,
and `Validate` and `NewPolygon` do not return a result but leave with the panic of
the s2 call on the vertex (NaN, NaN). -/
theorem C27_nan_vertex_counterexample :
    4 ≤ nanRing.length ∧ firstNeLast nanRing = false ∧
      ValidateChecked panicOnNonFinite nanRing = .panics "Float.SetFloat64(NaN)" ∧
      NewPolygonChecked panicOnNonFinite nanRing = .panics "Float.SetFloat64(NaN)" := by
  refine ⟨by decide, by decide, by decide, by decide⟩

/-- C27, amended: `Validate` and `NewPolygon` never leave with an out-of-range index
or a negative-length allocation. On a sequence of fewer than 4 coordinates, the
empty one included, or with first and last coordinate different, they return the
geometry error without reaching `turningAngle`; on a closed sequence of at least 4
coordinates they return what the definitions without panics return when the s2
call returns, and they panic exactly when the s2 call panics, with its message.
`turningAngle` itself would panic on the empty sequence. -/
theorem C27_validate_and_construct_total (s2 : List Coordinate → Outcome Float64)
    (coords : List Coordinate) :
    ((coords.length < 4 ∨ firstNeLast coords = true) →
        ∃ msg, ValidateChecked s2 coords = .returns (some (.InvalidGeometryError msg)) ∧
          NewPolygonChecked s2 coords = .returns (.error (.InvalidGeometryError msg))) ∧
      (∀ ta : List Coordinate → Float64, s2 coords = .returns (ta coords) →
        ValidateChecked s2 coords = .returns (Validate ta coords) ∧
          NewPolygonChecked s2 coords = .returns (NewPolygon ta coords)) ∧
      (∀ msg, ValidateChecked s2 coords = .panics msg ↔
        (4 ≤ coords.length ∧ firstNeLast coords = false ∧ s2 coords = .panics msg)) ∧
      (∀ msg, NewPolygonChecked s2 coords = .panics msg ↔
        (4 ≤ coords.length ∧ firstNeLast coords = false ∧ s2 coords = .panics msg)) ∧
      turningAngleChecked s2 [] = .panics "makeslice: len out of range" := by
  refine ⟨?_, fun ta h => checked_of_returns s2 ta coords h, ?_, ?_, rfl⟩
  · intro h
    rw [ValidateChecked_eq, NewPolygonChecked_eq]
    by_cases h4 : coords.length < 4
    · exact ⟨RingTooShort, by simp [h4], by simp [h4]⟩
    · have h2 : firstNeLast coords = true := by
        rcases h with h | h
        · exact absurd h h4
        · exact h
      exact ⟨RingUnclosed, by simp [h4, h2], by simp [h4, h2]⟩
  · intro msg
    rw [ValidateChecked_eq]
    by_cases h4 : coords.length < 4
    · simp [h4]
    · by_cases h2 : firstNeLast coords = true
      · simp [h4, h2]
      · have h4' : 4 ≤ coords.length := by omega
        simp only [h4, h2, if_false, Bool.false_eq_true, h4', true_and]
        cases hs : s2 coords with
        | panics m => simp
        | returns angle =>
          by_cases h3 : angle.gt (Float64.zero false) = true <;> simp [h3]
  · intro msg
    rw [NewPolygonChecked_eq]
    by_cases h4 : coords.length < 4
    · simp [h4]
    · by_cases h2 : firstNeLast coords = true
      · simp [h4, h2]
      · have h4' : 4 ≤ coords.length := by omega
        simp only [h4, h2, if_false, Bool.false_eq_true, h4', true_and]
        cases hs : s2 coords with
        | panics m => simp
        | returns angle =>
          by_cases h3 : angle.gt (Float64.zero false) = true <;> simp [h3]

/-- Witness of C27 on the empty sequence, on the two-point `line` of the tests and
on `validRing`, on which the s2 call returns. -/
theorem C27_validate_and_construct_total_witness :
    (∃ msg, ValidateChecked panicOnNonFinite [] = .returns (some (.InvalidGeometryError msg)) ∧
        NewPolygonChecked panicOnNonFinite [] = .returns (.error (.InvalidGeometryError msg))) ∧
      (∃ msg, ValidateChecked panicOnNonFinite line =
          .returns (some (.InvalidGeometryError msg)) ∧
        NewPolygonChecked panicOnNonFinite line =
          .returns (.error (.InvalidGeometryError msg))) ∧
      ValidateChecked panicOnNonFinite validRing = .returns (Validate clockwiseAngle validRing) ∧
      NewPolygonChecked panicOnNonFinite validRing =
        .returns (NewPolygon clockwiseAngle validRing) :=
  ⟨(C27_validate_and_construct_total panicOnNonFinite []).1 (Or.inl (by decide)),
    (C27_validate_and_construct_total panicOnNonFinite line).1 (Or.inl (by decide)),
    ((C27_validate_and_construct_total panicOnNonFinite validRing).2.1 clockwiseAngle
      (by decide)).1,
    ((C27_validate_and_construct_total panicOnNonFinite validRing).2.1 clockwiseAngle
      (by decide)).2⟩

/-- What holds of every polygon `p` that `NewPolygon` returns: it has the length of
the input, at least 4, its first coordinate equals its last, and it passes
`Validate` exactly when its turning angle is not positive. -/
theorem NewPolygon_result_shape (ta : List Coordinate → Float64) (coords : List Coordinate)
    (p : Polygon) (h : NewPolygon ta coords = .ok p) :
    p.length = coords.length ∧ 4 ≤ p.length ∧ firstNeLast p = false ∧
      (Validate ta p = none ↔ (ta p).gt (Float64.zero false) = false) := by
  have hshape : p.length = coords.length ∧ 4 ≤ p.length ∧ firstNeLast p = false := by
    rw [NewPolygon_eq] at h
    by_cases h4 : coords.length < 4
    · simp [h4] at h
    · by_cases hc : firstNeLast coords = true
      · simp [h4, hc] at h
      · have hc' : firstNeLast coords = false := by simpa using hc
        by_cases ha : (ta coords).gt (Float64.zero false) = true
        · simp only [h4, hc, ha, if_true, if_false, Bool.false_eq_true] at h
          cases h
          exact ⟨by simp, by simp; omega, by rw [firstNeLast_reverse]; exact hc'⟩
        · simp only [h4, hc, ha, if_false, Bool.false_eq_true] at h
          cases h
          exact ⟨rfl, by omega, hc'⟩
  refine ⟨hshape.1, hshape.2.1, hshape.2.2, ?_⟩
  rw [Validate_eq]
  have h4 : ¬ p.length < 4 := by omega
  by_cases ha : (ta p).gt (Float64.zero false) = true
  · simp [h4, hshape.2.2, ha]
  · simp [h4, hshape.2.2, ha]

/-- C28 fails on the code where the turning angle is positive on a ring and on its
reverse: for a closed ring of at least 4 coordinates `NewPolygon` returns the
reversed ring, which has the length of the input and first coordinate equal to
last, and `Validate` rejects it with the `RighthandRuleError`. -/
theorem C28_reversed_ring_fails_validate (ta : List Coordinate → Float64) (ring : Polygon)
    (h4 : 4 ≤ ring.length) (hclosed : firstNeLast ring = false)
    (hpos : (ta ring).gt (Float64.zero false) = true)
    (hrev : (ta ring.reverse).gt (Float64.zero false) = true) :
    NewPolygon ta ring = .ok ring.reverse ∧ ring.reverse.length = ring.length ∧
      firstNeLast ring.reverse = false ∧
      Validate ta ring.reverse = some (.RighthandRuleError (ta ring.reverse)) := by
  have hc : firstNeLast ring.reverse = false := by rw [firstNeLast_reverse]; exact hclosed
  have hl : ¬ ring.reverse.length < 4 := by simp; omega
  refine ⟨?_, by simp, hc, ?_⟩
  · rw [NewPolygon_of_shape ta ring h4 hclosed]
    simp [hpos]
  · rw [Validate_eq]
    simp only [hl, hc, hrev, if_true, if_false, Bool.false_eq_true]

/-- Witness of C28 on `foldedRing`, which reads the same in both directions, so that
its reverse has the turning angle of the ring itself: with a positive angle
`NewPolygon` returns `foldedRing` and `Validate` rejects it. -/
theorem C28_reversed_ring_fails_validate_witness :
    foldedRing.reverse = foldedRing ∧
      NewPolygon counterClockwiseAngle foldedRing = .ok foldedRing.reverse ∧
      foldedRing.reverse.length = foldedRing.length ∧
      firstNeLast foldedRing.reverse = false ∧
      Validate counterClockwiseAngle foldedRing.reverse =
        some (.RighthandRuleError (counterClockwiseAngle foldedRing.reverse)) :=
  ⟨by decide, C28_reversed_ring_fails_validate counterClockwiseAngle foldedRing (by decide)
    (by decide) (by decide) (by decide)⟩

/-! ## `Create` with its panics -/

/-- Where the s2 call returns on the border, `Create` returns what the definition
without the panics returns. -/
theorem CreateChecked_of_returns (title : String → String)
    (s2 : List Coordinate → Outcome Float64) (ta : List Coordinate → Float64)
    (s : StateLocationMemoryStore) (r : State) (h : s2 r.Border = .returns (ta r.Border)) :
    CreateChecked title s2 s r = .returns (Create title ta s r) := by
  unfold CreateChecked NewStateChecked
  rw [Create_eq]
  unfold NewState
  simp only
  by_cases hn : (title r.Name).utf8ByteSize < 2
  · simp [hn]
  · simp only [hn, if_false, (checked_of_returns s2 ta r.Border h).2]
    cases hp : NewPolygon ta r.Border with
    | error err => rfl
    | ok border =>
      simp only
      cases hg : s.states.get (title r.Name) <;> rfl

/-- The claim C11 as stated fails where the s2 call panics: the title-cased name
"Valid" has 5 bytes, `nanRing` is a closed ring of 4 coordinates, the new store
does not hold the key, and `Create` does not succeed but leaves with the panic of
the s2 call on the vertex (NaN, NaN). -/
theorem C11_nan_border_counterexample :
    2 ≤ (asciiTitle "valid").utf8ByteSize ∧ 4 ≤ nanRing.length ∧
      firstNeLast nanRing = false ∧ NewMemoryStore.states.get (asciiTitle "valid") = none ∧
      CreateChecked asciiTitle panicOnNonFinite NewMemoryStore ⟨"valid", nanRing⟩ =
        .panics "Float.SetFloat64(NaN)" := by
  refine ⟨by decide, by decide, by decide, by decide, by decide⟩

/-- C11, amended: for a region whose title-cased name has length at least 2 (in
bytes, as `len` counts), whose border is a closed ring of at least 4 coordinates on
which the s2 call returns an angle, and whose title-cased name is not yet a key,
`Create` succeeds, returns the region with the title-cased name and the ring
`NewPolygon` makes of the border (the border reversed when the angle is positive),
adds exactly that entry under that key and leaves every other entry as it was. -/
theorem C11_create_adds_one_entry (title : String → String)
    (s2 : List Coordinate → Outcome Float64) (s : StateLocationMemoryStore) (r : State)
    (angle : Float64) (hlen : 2 ≤ (title r.Name).utf8ByteSize) (h4 : 4 ≤ r.Border.length)
    (hclosed : firstNeLast r.Border = false) (hnew : s.states.get (title r.Name) = none)
    (hs2 : s2 r.Border = .returns angle) :
    ∃ border store,
      border = (if angle.gt (Float64.zero false) then r.Border.reverse else r.Border) ∧
      NewPolygonChecked s2 r.Border = .returns (.ok border) ∧
      CreateChecked title s2 s r = .returns (store, ⟨title r.Name, border⟩, none) ∧
      store.states = s.states ++ [(title r.Name, ⟨title r.Name, border⟩)] ∧
      store.states.get (title r.Name) = some ⟨title r.Name, border⟩ ∧
      ∀ k, k ≠ title r.Name → store.states.get k = s.states.get k := by
  have hb := NewPolygon_of_shape (fun _ => angle) r.Border h4 hclosed
  have hchk := checked_of_returns s2 (fun _ => angle) r.Border hs2
  have hcr := CreateChecked_of_returns title s2 (fun _ => angle) s r hs2
  simp only at hb
  generalize (if angle.gt (Float64.zero false) = true then r.Border.reverse
    else r.Border) = border at hb ⊢
  have hs := NewState_of_ok (fun _ => angle) (title r.Name) r.Border border hlen hb
  have hc : Create title (fun _ => angle) s r =
      (⟨s.states.set (title r.Name) ⟨title r.Name, border⟩⟩, ⟨title r.Name, border⟩, none) := by
    rw [Create_eq, hs]
    simp only [hnew]
  refine ⟨border, ⟨s.states.set (title r.Name) ⟨title r.Name, border⟩⟩, rfl, ?_, ?_,
    ?_, ?_, ?_⟩
  · rw [hchk.2, hb]
  · rw [hcr, hc]
  · exact StateMap.set_of_get_none _ _ _ hnew
  · exact StateMap.get_set_self _ _ _
  · intro k hk
    exact StateMap.get_set_other _ _ _ _ hk

/-- Witness of C11: the region "valid" on `validRing`, on which the s2 call returns,
is created on the new store under the key "Valid". -/
theorem C11_create_adds_one_entry_witness :
    ∃ border store,
      border = (if (Float64.zero false).gt (Float64.zero false) then validState.Border.reverse
        else validState.Border) ∧
      NewPolygonChecked panicOnNonFinite validState.Border = .returns (.ok border) ∧
      CreateChecked asciiTitle panicOnNonFinite NewMemoryStore validState =
        .returns (store, ⟨asciiTitle validState.Name, border⟩, none) ∧
      store.states = NewMemoryStore.states ++
        [(asciiTitle validState.Name, ⟨asciiTitle validState.Name, border⟩)] ∧
      store.states.get (asciiTitle validState.Name) =
        some ⟨asciiTitle validState.Name, border⟩ ∧
      ∀ k, k ≠ asciiTitle validState.Name → store.states.get k = NewMemoryStore.states.get k :=
  C11_create_adds_one_entry asciiTitle panicOnNonFinite NewMemoryStore validState
    (Float64.zero false) (by decide) (by decide) (by decide) (by decide) (by decide)

/-! ## The location handler -/

/-- C30: `GetState` answers 404 "Not Found" when the error of the store is a
`StateNotFoundError`, 500 for any other error and 200 with the feature of the state
when the store succeeds; `CreateState`, once the body is bound, answers 400
"Bad Request" when the error of the store is an `InvalidStateError`, 500 for any
other error, and 201 with the feature of the created state when the store
succeeds. -/
theorem C30_handler_status_by_error_kind (fmtF : Float64 → String)
    (getByName : String → State × Option GoError) (create : State → State × Option GoError)
    (name : String) (state : State) :
    (∀ s err, getByName name = (s, some err) →
        (err.isStateNotFoundError = true ↔ ∃ n, err = .StateNotFoundError n) ∧
        (err.isStateNotFoundError = true →
          GetState fmtF getByName name = ⟨404, .error ⟨err, "Not Found", err.Error fmtF, 404⟩⟩) ∧
        (err.isStateNotFoundError = false →
          GetState fmtF getByName name =
            ⟨500, .error ⟨err, "Internal Server Error", err.Error fmtF, 500⟩⟩)) ∧
      (∀ s, getByName name = (s, none) →
        GetState fmtF getByName name = ⟨200, .ok (NewStateResponse s)⟩) ∧
      (∀ c err, create state = (c, some err) →
        (err.isInvalidStateError = true ↔ ∃ e, err = .InvalidStateError e) ∧
        (err.isInvalidStateError = true →
          CreateState fmtF create (.ok state) =
            ⟨400, .error ⟨err, "Bad Request", err.Error fmtF, 400⟩⟩) ∧
        (err.isInvalidStateError = false →
          CreateState fmtF create (.ok state) =
            ⟨500, .error ⟨err, "Internal Server Error", err.Error fmtF, 500⟩⟩)) ∧
      (∀ c, create state = (c, none) →
        CreateState fmtF create (.ok state) = ⟨201, .ok (NewStateResponse c)⟩) := by
  refine ⟨?_, ?_, ?_, ?_⟩
  · intro s err h
    refine ⟨?_, ?_, ?_⟩
    · cases err <;> simp [GoError.isStateNotFoundError]
    · intro he
      simp [GetState, h, he, renderError, NotFoundError]
    · intro he
      simp [GetState, h, he, renderError, InternalServerError]
  · intro s h
    simp [GetState, h]
  · intro c err h
    refine ⟨?_, ?_, ?_⟩
    · cases err <;> simp [GoError.isInvalidStateError]
    · intro he
      simp [CreateState, h, he, renderError, BadRequestError]
    · intro he
      simp [CreateState, h, he, renderError, InternalServerError]
  · intro c h
    simp [CreateState, h]

/-- Witness of C30 on the store that holds the state "Valid": a name the store does
not hold is answered 404, and creating a state with a border of two coordinates is
answered 400. -/
theorem C30_handler_status_by_error_kind_witness :
    (GetState (fun _ => "") (GetByName asciiTitle createdValid.1) "nunavut").status = 404 ∧
      (CreateState (fun _ => "")
        (fun st => (Create asciiTitle clockwiseAngle createdValid.1 st).2)
        (.ok ⟨"short", line⟩)).status = 400 :=
  ⟨congrArg Response.status
      (((C30_handler_status_by_error_kind (fun _ => "") (GetByName asciiTitle createdValid.1)
        (fun st => (Create asciiTitle clockwiseAngle createdValid.1 st).2) "nunavut"
        ⟨"short", line⟩).1 State.empty (.StateNotFoundError "nunavut") (by decide)).2.1
        (by decide)),
    congrArg Response.status
      (((C30_handler_status_by_error_kind (fun _ => "") (GetByName asciiTitle createdValid.1)
        (fun st => (Create asciiTitle clockwiseAngle createdValid.1 st).2) "nunavut"
        ⟨"short", line⟩).2.2.1 State.empty
        (.InvalidStateError (.InvalidGeometryError RingTooShort)) (by decide)).2.1
        (by decide))⟩

/-! ## The store after a sequence of calls -/

/-- The shape of a polygon `NewPolygon` returns. -/
theorem NewPolygon_ok_shape (ta : List Coordinate → Float64) (coords : List Coordinate)
    (p : Polygon) (h : NewPolygon ta coords = .ok p) :
    4 ≤ p.length ∧ firstNeLast p = false := by
  rw [NewPolygon_eq] at h
  by_cases h4 : coords.length < 4
  · simp [h4] at h
  · by_cases hc : firstNeLast coords = true
    · simp [h4, hc] at h
    · have hc' : firstNeLast coords = false := by simpa using hc
      by_cases ha : (ta coords).gt (Float64.zero false) = true
      · simp only [h4, hc, ha, if_true, if_false, Bool.false_eq_true] at h
        cases h
        exact ⟨by simp; omega, by rw [firstNeLast_reverse]; exact hc'⟩
      · simp only [h4, hc, ha, if_false, Bool.false_eq_true] at h
        cases h
        exact ⟨by omega, hc'⟩

/-- A call of `Create` fails and leaves the store as it was, or the key was free and
the call adds the state it returns under the title-cased name. -/
theorem Create_cases (title : String → String) (ta : List Coordinate → Float64)
    (s : StateLocationMemoryStore) (r : State) :
    ((Create title ta s r).2.2 ≠ none ∧ (Create title ta s r).1 = s) ∨
      ∃ created, Create title ta s r = (⟨s.states.set (title r.Name) created⟩, created, none) ∧
        created.Name = title r.Name ∧ 2 ≤ (title r.Name).utf8ByteSize ∧
        NewPolygon ta r.Border = .ok created.Border ∧ s.states.get (title r.Name) = none := by
  rw [Create_eq]
  cases hn : NewState ta (title r.Name) r.Border with
  | mk created err =>
    cases err with
    | some err => exact Or.inl ⟨by simp, rfl⟩
    | none =>
      obtain ⟨h2, hname, hb⟩ := NewState_ok ta _ _ created hn
      cases hget : s.states.get created.Name with
      | some old => exact Or.inl ⟨by simp [hget], by simp [hget]⟩
      | none =>
        have hget2 : s.states.get (title r.Name) = none := by rw [← hname]; exact hget
        refine Or.inr ⟨created, ?_, hname, h2, hb, hget2⟩
        simp [hget, hget2, hname]

theorem runOps_snoc (title : String → String) (ta : List Coordinate → Float64)
    (ops : List StoreOp) (op : StoreOp) :
    runOps title ta (ops ++ [op]) = stepOp title ta (runOps title ta ops) op := by
  simp [runOps, List.foldl_append]

/-- The ways to single out a `Create` in a sequence of calls that ends in `op`: it is
the last call, or it is singled out in the sequence before `op`. -/
theorem snoc_split (ops : List StoreOp) (op : StoreOp) (pre : List StoreOp) (r : State)
    (post : List StoreOp) (h : ops ++ [op] = pre ++ StoreOp.create r :: post) :
    (post = [] ∧ ops = pre ∧ op = .create r) ∨
      ∃ rest, post = rest ++ [op] ∧ ops = pre ++ StoreOp.create r :: rest := by
  rcases List.eq_nil_or_concat post with hp | ⟨rest, x, hp⟩
  · subst hp
    have h1 : ops ++ [op] = pre ++ [StoreOp.create r] := h
    obtain ⟨h2, h3⟩ := List.append_inj' h1 rfl
    exact Or.inl ⟨rfl, h2, by simpa using h3⟩
  · rw [List.concat_eq_append] at hp
    subst hp
    have h1 : ops ++ [op] = (pre ++ StoreOp.create r :: rest) ++ [x] := by
      rw [h]; simp
    obtain ⟨h2, h3⟩ := List.append_inj' h1 rfl
    have h4 : op = x := by simpa using h3
    subst h4
    exact Or.inr ⟨rest, rfl, h2⟩

/-- The entries of the store after a sequence of calls: `k` maps to `v` exactly when a
`Create` of the sequence with title-cased name `k` returned `v` without error and no
later call deleted `k`. -/
theorem runOps_entries (title : String → String) (ta : List Coordinate → Float64)
    (ops : List StoreOp) (k : String) (v : State) :
    (runOps title ta ops).1.states.get k = some v ↔
      ∃ pre r post, ops = pre ++ StoreOp.create r :: post ∧
        (Create title ta (runOps title ta pre).1 r).2 = (v, none) ∧ title r.Name = k ∧
        ∀ n, StoreOp.delete n ∈ post → title n ≠ k := by
  induction ops using List.reverseRecOn generalizing k v with
  | nil =>
    simp [runOps, NewMemoryStore, StateMap.get]
  | append_singleton ops op ih =>
    rw [runOps_snoc]
    have lift : (∃ pre r post, ops = pre ++ StoreOp.create r :: post ∧
          (Create title ta (runOps title ta pre).1 r).2 = (v, none) ∧ title r.Name = k ∧
          ∀ n, StoreOp.delete n ∈ post → title n ≠ k) →
        (∀ n, op = StoreOp.delete n → title n ≠ k) →
        ∃ pre r post, ops ++ [op] = pre ++ StoreOp.create r :: post ∧
          (Create title ta (runOps title ta pre).1 r).2 = (v, none) ∧ title r.Name = k ∧
          ∀ n, StoreOp.delete n ∈ post → title n ≠ k := by
      rintro ⟨pre, r, post, h1, h2, h3, h4⟩ hop
      refine ⟨pre, r, post ++ [op], by rw [h1]; simp, h2, h3, ?_⟩
      intro n hn
      rcases List.mem_append.mp hn with hn | hn
      · exact h4 n hn
      · have hn2 : StoreOp.delete n = op := by simpa using hn
        exact hop n hn2.symm
    cases op with
    | create r0 =>
      rcases Create_cases title ta (runOps title ta ops).1 r0 with ⟨hfail, hsame⟩ |
        ⟨created, hc, hname, h2, hb, hfree⟩
      · have hs : (stepOp title ta (runOps title ta ops) (.create r0)).1 =
            (runOps title ta ops).1 := hsame
        rw [hs, ih]
        constructor
        · intro h
          exact lift h (by intro n hn; cases hn)
        · rintro ⟨pre, r, post, h1, h2, h3, h4⟩
          rcases snoc_split ops _ pre r post h1 with ⟨hp, ho, hr⟩ | ⟨rest, hp, ho⟩
          · cases hr
            subst ho
            rw [h2] at hfail
            exact absurd rfl hfail
          · subst hp
            exact ⟨pre, r, rest, ho, h2, h3,
              fun n hn => h4 n (List.mem_append_left _ hn)⟩
      · have hs : (stepOp title ta (runOps title ta ops) (.create r0)).1 =
            ⟨(runOps title ta ops).1.states.set (title r0.Name) created⟩ := by
          simp [stepOp, hc]
        rw [hs]
        by_cases hk : k = title r0.Name
        · subst hk
          simp only
          rw [StateMap.get_set_self]
          constructor
          · intro h
            cases h
            exact ⟨ops, r0, [], rfl, by rw [hc], rfl, by simp⟩
          · rintro ⟨pre, r, post, h1, h2, h3, h4⟩
            rcases snoc_split ops _ pre r post h1 with ⟨hp, ho, hr⟩ | ⟨rest, hp, ho⟩
            · cases hr
              subst ho
              rw [hc] at h2
              simp at h2
              rw [h2]
            · subst hp
              have hold := (ih (title r0.Name) v).mpr ⟨pre, r, rest, ho, h2, h3,
                fun n hn => h4 n (List.mem_append_left _ hn)⟩
              rw [hfree] at hold
              cases hold
        · simp only
          rw [StateMap.get_set_other _ _ _ _ hk, ih]
          constructor
          · intro h
            exact lift h (by intro n hn; cases hn)
          · rintro ⟨pre, r, post, h1, h2, h3, h4⟩
            rcases snoc_split ops _ pre r post h1 with ⟨hp, ho, hr⟩ | ⟨rest, hp, ho⟩
            · cases hr
              exact absurd h3.symm hk
            · subst hp
              exact ⟨pre, r, rest, ho, h2, h3,
                fun n hn => h4 n (List.mem_append_left _ hn)⟩
    | delete n0 =>
      have hs : (stepOp title ta (runOps title ta ops) (.delete n0)).1 =
          ⟨(runOps title ta ops).1.states.delete (title n0)⟩ := rfl
      rw [hs]
      by_cases hk : k = title n0
      · subst hk
        simp only
        rw [StateMap.get_delete_self]
        constructor
        · intro h
          cases h
        · rintro ⟨pre, r, post, h1, h2, h3, h4⟩
          rcases snoc_split ops _ pre r post h1 with ⟨hp, ho, hr⟩ | ⟨rest, hp, ho⟩
          · cases hr
          · subst hp
            exact absurd rfl (h4 n0 (by simp))
      · simp only
        rw [StateMap.get_delete_other _ _ _ hk, ih]
        constructor
        · intro h
          refine lift h ?_
          intro n hn
          cases hn
          exact fun e => hk e.symm
        · rintro ⟨pre, r, post, h1, h2, h3, h4⟩
          rcases snoc_split ops _ pre r post h1 with ⟨hp, ho, hr⟩ | ⟨rest, hp, ho⟩
          · cases hr
          · subst hp
            exact ⟨pre, r, rest, ho, h2, h3,
              fun n hn => h4 n (List.mem_append_left _ hn)⟩

theorem runOps_reachable (title : String → String) (ta : List Coordinate → Float64)
    (ops : List StoreOp) : Reachable title ta (runOps title ta ops).1 := by
  induction ops using List.reverseRecOn with
  | nil => exact Reachable.new
  | append_singleton ops op ih =>
    rw [runOps_snoc]
    cases op with
    | create r => exact Reachable.create _ r ih
    | delete n => exact Reachable.delete _ n ih

/-- The names kept as live are the keys of the store. -/
theorem runOps_live (title : String → String) (ta : List Coordinate → Float64)
    (ops : List StoreOp) (k : String) :
    k ∈ (runOps title ta ops).2 ↔ (runOps title ta ops).1.states.get k ≠ none := by
  induction ops using List.reverseRecOn with
  | nil => simp [runOps, NewMemoryStore, StateMap.get]
  | append_singleton ops op ih =>
    rw [runOps_snoc]
    cases op with
    | create r0 =>
      rcases Create_cases title ta (runOps title ta ops).1 r0 with ⟨hfail, hsame⟩ |
        ⟨created, hc, hname, h2, hb, hfree⟩
      · simp only [stepOp, hfail, if_false, hsame]
        exact ih
      · simp only [stepOp, hc, if_true, List.mem_cons]
        by_cases hk : k = title r0.Name
        · subst hk
          simp [StateMap.get_set_self]
        · rw [StateMap.get_set_other _ _ _ _ hk, ← ih]
          simp [hk]
    | delete n0 =>
      simp only [stepOp, Delete, List.mem_filter, decide_eq_true_eq]
      by_cases hk : k = title n0
      · subst hk
        simp [StateMap.get_delete_self]
      · rw [StateMap.get_delete_other _ _ _ hk, ← ih]
        simp [hk]

/-- C21: in the store reached from the new store by a sequence of `Create` and `Delete`
calls, a key `k` maps to a region `v` exactly when a `Create` of the sequence whose
title-cased name is `k` returned `v` without error and no later call deleted `k`; the
name of `v` is then `k`, `k` has at least 2 bytes, the border of `v` is what
`NewPolygon` made of the border given, with at least 4 coordinates and first equal to
last; the keys are exactly the names kept as live, and no key occurs twice. -/
theorem C21_store_invariant (title : String → String) (ta : List Coordinate → Float64)
    (ops : List StoreOp) :
    Reachable title ta (runOps title ta ops).1 ∧
      (∀ s, Reachable title ta s → ∃ calls, s = (runOps title ta calls).1) ∧
      (∀ k v, (runOps title ta ops).1.states.get k = some v ↔
        ∃ pre r post, ops = pre ++ StoreOp.create r :: post ∧
          (Create title ta (runOps title ta pre).1 r).2 = (v, none) ∧ title r.Name = k ∧
          ∀ n, StoreOp.delete n ∈ post → title n ≠ k) ∧
      (∀ k v, (runOps title ta ops).1.states.get k = some v →
        v.Name = k ∧ 2 ≤ k.utf8ByteSize ∧ 4 ≤ v.Border.length ∧
          firstNeLast v.Border = false ∧
          ∃ r, StoreOp.create r ∈ ops ∧ k = title r.Name ∧
            NewPolygon ta r.Border = .ok v.Border) ∧
      (∀ k, k ∈ (runOps title ta ops).1.states.map Prod.fst ↔ k ∈ (runOps title ta ops).2) ∧
      (runOps title ta ops).1.states.WF := by
  refine ⟨runOps_reachable title ta ops, ?_, runOps_entries title ta ops, ?_, ?_,
    Reachable.wf title ta _ (runOps_reachable title ta ops)⟩
  · intro s hs
    induction hs with
    | new => exact ⟨[], rfl⟩
    | create s r _ ih =>
      obtain ⟨calls, hc⟩ := ih
      exact ⟨calls ++ [.create r], by rw [runOps_snoc, hc]; rfl⟩
    | delete s n _ ih =>
      obtain ⟨calls, hc⟩ := ih
      exact ⟨calls ++ [.delete n], by rw [runOps_snoc, hc]; rfl⟩
  · intro k v h
    obtain ⟨pre, r, post, h1, h2, h3, _⟩ := (runOps_entries title ta ops k v).mp h
    rcases Create_cases title ta (runOps title ta pre).1 r with ⟨hfail, _⟩ |
      ⟨created, hc, hname, hlen, hb, _⟩
    · rw [h2] at hfail
      exact absurd rfl hfail
    · rw [hc] at h2
      simp only [Prod.mk.injEq, and_true] at h2
      subst h2
      obtain ⟨h4, hclosed⟩ := NewPolygon_ok_shape ta r.Border created.Border hb
      subst h3
      exact ⟨hname, hlen, h4, hclosed, r, by rw [h1]; simp, rfl, hb⟩
  · intro k
    rw [runOps_live, Ne, StateMap.get_eq_none_iff, not_not]

/-- Witness of C21: after `sampleCalls` the store holds the one key "Valid", mapped to
the region of that name. -/
theorem C21_store_invariant_witness :
    (runOps asciiTitle clockwiseAngle sampleCalls).2 = ["Valid"] ∧
      (⟨"Valid", validRing⟩ : State).Name = "Valid" ∧ 2 ≤ "Valid".utf8ByteSize ∧
      4 ≤ (⟨"Valid", validRing⟩ : State).Border.length ∧
      firstNeLast (⟨"Valid", validRing⟩ : State).Border = false ∧
      ∃ r, StoreOp.create r ∈ sampleCalls ∧ "Valid" = asciiTitle r.Name ∧
        NewPolygon clockwiseAngle r.Border = .ok (⟨"Valid", validRing⟩ : State).Border :=
  ⟨by decide,
    (C21_store_invariant asciiTitle clockwiseAngle sampleCalls).2.2.2.1 "Valid"
      ⟨"Valid", validRing⟩ (by decide)⟩

/-! ## One winner among the callers of `Create` -/

theorem getElem?_set_cases {α : Type} (l : List α) (i j : Nat) (a x : α)
    (h : (l.set i a)[j]? = some x) : (j = i ∧ x = a) ∨ (j ≠ i ∧ l[j]? = some x) := by
  rw [List.getElem?_set] at h
  by_cases hij : i = j
  · subst hij
    simp only [if_true] at h
    split at h
    · exact Or.inl ⟨rfl, (Option.some.inj h).symm⟩
    · cases h
  · simp only [hij, if_false] at h
    exact Or.inr ⟨fun e => hij e.symm, h⟩

theorem getElem?_set_self_of {α : Type} (l : List α) (i : Nat) (old a : α)
    (h : l[i]? = some old) : (l.set i a)[i]? = some a := by
  have hlt : i < l.length := by
    by_contra hc
    rw [List.getElem?_eq_none (by omega)] at h
    cases h
  rw [List.getElem?_set]
  simp [hlt]

theorem getElem?_set_other {α : Type} (l : List α) (i j : Nat) (a : α) (h : j ≠ i) :
    (l.set i a)[j]? = l[j]? := by
  rw [List.getElem?_set]
  simp [Ne.symm h]

/-- The caller is not inside `Create`: it waits for the lock or has returned. -/
def Caller.isQuiet : Caller → Bool
  | .waiting _ => true
  | .returned _ => true
  | _ => false

/-- The caller has its results set, without error. -/
def Caller.isWinner : Caller → Bool
  | .leaving (_, none) => true
  | .returned (_, none) => true
  | _ => false

/-- The number of steps a caller has left at most. -/
def Caller.rank : Caller → Nat
  | .waiting _ => 5
  | .locked _ => 4
  | .validated _ _ => 3
  | .checked _ _ => 2
  | .leaving _ => 1
  | .returned _ => 0

/-- The steps the callers have left at most. -/
def weight (c : Shared) : Nat := (c.callers.map Caller.rank).sum

/-- The results of a call on key `k`: the state stored under `k`, or the duplicate
error while the store holds `k`. -/
def resultOk (k : String) (store : StateLocationMemoryStore) (res : State × Option GoError) :
    Prop :=
  (∃ v, res = (v, none) ∧ v.Name = k ∧ store.states.get k = some v) ∨
    (res = (State.empty, some (duplicateError k)) ∧ store.states.get k ≠ none)

/-- What holds of a caller at each point of `Create`, all requests being for key `k`
with a border `NewPolygon` accepts. -/
def Caller.Ok (title : String → String) (ta : List Coordinate → Float64) (k : String)
    (store : StateLocationMemoryStore) : Caller → Prop
  | .waiting r => title r.Name = k ∧ ∃ b, NewPolygon ta r.Border = .ok b
  | .locked r => title r.Name = k ∧ ∃ b, NewPolygon ta r.Border = .ok b
  | .validated st created => st.Name = k ∧ created.Name = k
  | .checked _ created => created.Name = k ∧ store.states.get k = none
  | .leaving res => resultOk k store res
  | .returned res => resultOk k store res

/-- The invariant of the interleaved runs: only the caller that took the lock is
inside `Create`, and the store holds `k` exactly when one caller has won. -/
structure CallersInv (title : String → String) (ta : List Coordinate → Float64) (k : String)
    (n : Nat) (c : Shared) : Prop where
  len : c.callers.length = n
  wf : c.store.states.WF
  ok : ∀ (j : Nat) (x : Caller), c.callers[j]? = some x → x.Ok title ta k c.store
  free : c.held = false → ∀ (j : Nat) (x : Caller), c.callers[j]? = some x → x.isQuiet = true
  busy : c.held = true → ∃ (i : Nat) (y : Caller), c.callers[i]? = some y ∧
    y.isQuiet = false ∧
    ∀ (j : Nat) (x : Caller), c.callers[j]? = some x → j ≠ i → x.isQuiet = true
  unique : ∀ (i j : Nat) (x y : Caller), c.callers[i]? = some x → c.callers[j]? = some y →
    x.isWinner = true → y.isWinner = true → i = j
  winner : c.store.states.get k ≠ none →
    ∃ (i : Nat) (x : Caller), c.callers[i]? = some x ∧ x.isWinner = true

theorem StateMap.WF_set (m : StateMap) (k : String) (v : State) (h : m.WF)
    (hk : m.get k = none) : (m.set k v).WF := by
  rw [StateMap.set_of_get_none m k v hk]
  unfold StateMap.WF at h ⊢
  rw [StateMap.get_eq_none_iff] at hk
  simp only [List.map_append, List.map_cons, List.map_nil]
  rw [List.nodup_append]
  refine ⟨h, by simp, ?_⟩
  intro a ha hb
  simp only [List.mem_singleton] at hb
  subst hb
  exact hk ha

/-- Who is inside `Create` holds the lock, and everybody else is outside. -/
theorem CallersInv.others_quiet {title : String → String} {ta : List Coordinate → Float64}
    {k : String} {n : Nat} {c : Shared} (hinv : CallersInv title ta k n c) (i : Nat) (y : Caller)
    (hi : c.callers[i]? = some y) (hy : y.isQuiet = false) :
    c.held = true ∧ ∀ j x, c.callers[j]? = some x → j ≠ i → x.isQuiet = true := by
  have hheld : c.held = true := by
    by_contra hc
    have := hinv.free (by simpa using hc) i y hi
    rw [hy] at this
    cases this
  refine ⟨hheld, ?_⟩
  obtain ⟨i0, y0, h0, hy0, hothers⟩ := hinv.busy hheld
  have : i = i0 := by
    by_contra hne
    have := hothers i y hi hne
    rw [hy] at this
    cases this
  subst this
  exact hothers

/-- The invariant after caller `i` moved from `old` to `a`. -/
theorem CallersInv.update {title : String → String} {ta : List Coordinate → Float64}
    {k : String} {n : Nat} {c : Shared} (hinv : CallersInv title ta k n c) (i : Nat) (old : Caller)
    (hi : c.callers[i]? = some old)
    (hq : ∀ j x, c.callers[j]? = some x → j ≠ i → x.isQuiet = true)
    (a : Caller) (store : StateLocationMemoryStore) (held : Bool)
    (hwf : store.states.WF) (hoka : a.Ok title ta k store)
    (hoko : ∀ j x, c.callers[j]? = some x → j ≠ i → x.Ok title ta k store)
    (hh : a.isQuiet = !held)
    (huniq : a.isWinner = true → ∀ j x, c.callers[j]? = some x → j ≠ i → x.isWinner = false)
    (hwin : store.states.get k ≠ none → a.isWinner = true ∨
      ∃ j x, j ≠ i ∧ c.callers[j]? = some x ∧ x.isWinner = true) :
    CallersInv title ta k n ⟨store, held, c.callers.set i a⟩ := by
  refine ⟨by simp [hinv.len], hwf, ?_, ?_, ?_, ?_, ?_⟩
  · intro j x hx
    rcases getElem?_set_cases _ _ _ _ _ hx with ⟨_, rfl⟩ | ⟨hne, hold⟩
    · exact hoka
    · exact hoko j x hold hne
  · intro hf j x hx
    simp only at hf
    subst hf
    rcases getElem?_set_cases _ _ _ _ _ hx with ⟨_, rfl⟩ | ⟨hne, hold⟩
    · simpa using hh
    · exact hq j x hold hne
  · intro hb
    simp only at hb
    subst hb
    refine ⟨i, a, getElem?_set_self_of _ _ _ _ hi, by simpa using hh, ?_⟩
    intro j x hx hne
    rcases getElem?_set_cases _ _ _ _ _ hx with ⟨e, _⟩ | ⟨_, hold⟩
    · exact absurd e hne
    · exact hq j x hold hne
  · intro i1 i2 x y hx hy wx wy
    rcases getElem?_set_cases _ _ _ _ _ hx with ⟨e1, rfl⟩ | ⟨n1, o1⟩
    · rcases getElem?_set_cases _ _ _ _ _ hy with ⟨e2, _⟩ | ⟨n2, o2⟩
      · rw [e1, e2]
      · have := huniq wx i2 y o2 n2
        rw [wy] at this
        cases this
    · rcases getElem?_set_cases _ _ _ _ _ hy with ⟨e2, rfl⟩ | ⟨n2, o2⟩
      · have := huniq wy i1 x o1 n1
        rw [wx] at this
        cases this
      · exact hinv.unique i1 i2 x y o1 o2 wx wy
  · intro hs
    rcases hwin hs with ha | ⟨j, x, hne, hx, wx⟩
    · exact ⟨i, a, getElem?_set_self_of _ _ _ _ hi, ha⟩
    · exact ⟨j, x, by simpa [getElem?_set_other _ _ _ _ hne] using hx, wx⟩

/-- An old winner other than caller `i`, when the store holds `k` and caller `i` is
no winner. -/
theorem CallersInv.winner_other {title : String → String} {ta : List Coordinate → Float64}
    {k : String} {n : Nat} {c : Shared} (hinv : CallersInv title ta k n c) (i : Nat) (old : Caller)
    (hi : c.callers[i]? = some old) (hold : old.isWinner = false)
    (hs : c.store.states.get k ≠ none) :
    ∃ j x, j ≠ i ∧ c.callers[j]? = some x ∧ x.isWinner = true := by
  obtain ⟨j, x, hx, wx⟩ := hinv.winner hs
  refine ⟨j, x, ?_, hx, wx⟩
  intro e
  subst e
  rw [hi] at hx
  cases hx
  rw [wx] at hold
  cases hold

/-- One step of one caller keeps the invariant. -/
theorem CallersInv.step {title : String → String} {ta : List Coordinate → Float64}
    {k : String} {n : Nat} {c : Shared} (hk : 2 ≤ k.utf8ByteSize)
    (hinv : CallersInv title ta k n c) (i : Nat) : CallersInv title ta k n (stepCaller title ta c i) := by
  unfold stepCaller
  cases hi : c.callers[i]? with
  | none => exact hinv
  | some old =>
    have hoki := hinv.ok i old hi
    cases old with
    | waiting r =>
      simp only
      by_cases hh : c.held = true
      · simp only [hh, if_true]
        exact hinv
      · simp only [hh, if_false, Bool.false_eq_true]
        have hf : c.held = false := by simpa using hh
        exact hinv.update i _ hi (fun j x hx _ => hinv.free hf j x hx) _ _ _ hinv.wf hoki
          (fun j x hx _ => hinv.ok j x hx) rfl (fun h => by cases h)
          (fun hs => Or.inr (hinv.winner_other i _ hi rfl hs))
    | locked r =>
      obtain ⟨hheld, hq⟩ := hinv.others_quiet i _ hi rfl
      obtain ⟨hname, b, hb⟩ := hoki
      have hns : NewState ta (title r.Name) r.Border = (⟨title r.Name, b⟩, none) :=
        NewState_of_ok ta _ _ b (by rw [hname]; exact hk) hb
      simp only [hns]
      have := hinv.update i _ hi hq (.validated ⟨title r.Name, r.Border⟩ ⟨title r.Name, b⟩)
        c.store c.held hinv.wf ⟨hname, hname⟩ (fun j x hx _ => hinv.ok j x hx)
        (by rw [hheld]; rfl) (fun h => by cases h)
        (fun hs => Or.inr (hinv.winner_other i _ hi rfl hs))
      exact this
    | validated st created =>
      obtain ⟨hheld, hq⟩ := hinv.others_quiet i _ hi rfl
      obtain ⟨hst, hcr⟩ := hoki
      simp only
      cases hg : c.store.states.get created.Name with
      | some found =>
        simp only
        rw [hcr] at hg
        exact hinv.update i _ hi hq _ c.store c.held hinv.wf
          (Or.inr ⟨by rw [hst]; rfl, by rw [hg]; simp⟩) (fun j x hx _ => hinv.ok j x hx)
          (by rw [hheld]; rfl) (fun h => by cases h)
          (fun hs => Or.inr (hinv.winner_other i _ hi rfl hs))
      | none =>
        simp only
        rw [hcr] at hg
        exact hinv.update i _ hi hq _ c.store c.held hinv.wf ⟨hcr, hg⟩
          (fun j x hx _ => hinv.ok j x hx) (by rw [hheld]; rfl) (fun h => by cases h)
          (fun hs => Or.inr (hinv.winner_other i _ hi rfl hs))
    | checked st created =>
      obtain ⟨hheld, hq⟩ := hinv.others_quiet i _ hi rfl
      obtain ⟨hcr, hg⟩ := hoki
      simp only
      have hnone : ∀ j x, c.callers[j]? = some x → j ≠ i →
          (∃ r, x = .waiting r) := by
        intro j x hx hne
        have hqx := hq j x hx hne
        have hox := hinv.ok j x hx
        cases x with
        | waiting r => exact ⟨r, rfl⟩
        | returned res =>
          rcases hox with ⟨v, _, _, hv⟩ | ⟨_, hv⟩
          · rw [hg] at hv
            cases hv
          · exact absurd hg hv
        | locked r => cases hqx
        | validated a b => cases hqx
        | checked a b => cases hqx
        | leaving res => cases hqx
      refine hinv.update i _ hi hq _ _ c.held ?_ ?_ ?_ (by rw [hheld]; rfl) ?_ ?_
      · simp only
        rw [hcr]
        exact StateMap.WF_set _ _ _ hinv.wf hg
      · refine Or.inl ⟨created, rfl, hcr, ?_⟩
        simp only
        rw [hcr]
        exact StateMap.get_set_self _ _ _
      · intro j x hx hne
        obtain ⟨r, rfl⟩ := hnone j x hx hne
        exact hinv.ok j _ hx
      · intro _ j x hx hne
        obtain ⟨r, rfl⟩ := hnone j x hx hne
        rfl
      · intro _
        exact Or.inl rfl
    | leaving res =>
      obtain ⟨hheld, hq⟩ := hinv.others_quiet i _ hi rfl
      simp only
      refine hinv.update i _ hi hq _ c.store false hinv.wf hoki
        (fun j x hx _ => hinv.ok j x hx) rfl ?_ ?_
      · intro hw j x hx hne
        by_contra hc
        have hwx : x.isWinner = true := by simpa using hc
        have hwo : (Caller.leaving res).isWinner = true := by
          obtain ⟨v, e⟩ := res
          cases e with
          | none => rfl
          | some err => simp [Caller.isWinner] at hw
        exact hne (hinv.unique j i x _ hx hi hwx hwo)
      · intro hs
        obtain ⟨j, x, hx, wx⟩ := hinv.winner hs
        by_cases hji : j = i
        · subst hji
          rw [hi] at hx
          cases hx
          left
          obtain ⟨v, e⟩ := res
          cases e with
          | none => rfl
          | some err => simp [Caller.isWinner] at wx
        · exact Or.inr ⟨j, x, hji, hx, wx⟩
    | returned res => exact hinv

/-- Every schedule keeps the invariant. -/
theorem CallersInv.run {title : String → String} {ta : List Coordinate → Float64}
    {k : String} {n : Nat} (hk : 2 ≤ k.utf8ByteSize) (schedule : List Nat) (c : Shared)
    (hinv : CallersInv title ta k n c) : CallersInv title ta k n (runSchedule title ta c schedule) := by
  induction schedule generalizing c with
  | nil => exact hinv
  | cons i rest ih => exact ih _ (hinv.step hk i)

/-- The invariant holds before any caller has taken a step. -/
theorem CallersInv.start (title : String → String) (ta : List Coordinate → Float64) (k : String)
    (s : StateLocationMemoryStore) (requests : List State) (hwf : s.states.WF)
    (hs : s.states.get k = none)
    (hreq : ∀ r ∈ requests, title r.Name = k ∧ ∃ b, NewPolygon ta r.Border = .ok b) :
    CallersInv title ta k requests.length (startAll s requests) := by
  have hget : ∀ (j : Nat) (x : Caller), (startAll s requests).callers[j]? = some x →
      ∃ r ∈ requests, x = .waiting r := by
    intro j x hx
    simp only [startAll, List.getElem?_map, Option.map_eq_some'] at hx
    obtain ⟨r, hr, rfl⟩ := hx
    exact ⟨r, List.getElem?_mem hr, rfl⟩
  refine ⟨by simp [startAll], hwf, ?_, ?_, ?_, ?_, ?_⟩
  · intro j x hx
    obtain ⟨r, hr, rfl⟩ := hget j x hx
    exact hreq r hr
  · intro _ j x hx
    obtain ⟨r, _, rfl⟩ := hget j x hx
    rfl
  · intro h
    cases h
  · intro i j x y hx _ wx _
    obtain ⟨r, _, rfl⟩ := hget i x hx
    cases wx
  · intro h
    exact absurd hs h

/-- What the invariant says once every caller has returned. -/
theorem CallersInv.finish {title : String → String} {ta : List Coordinate → Float64}
    {k : String} {n : Nat} {c : Shared} (hinv : CallersInv title ta k n c) (hn : 0 < n)
    (hdone : allReturned c = true) :
    ∃ i created, c.callers[i]? = some (.returned (created, none)) ∧ created.Name = k ∧
      (∀ j, j < n → j ≠ i →
        c.callers[j]? = some (.returned (State.empty, some (duplicateError k)))) ∧
      c.store.states.get k = some created ∧ (c.store.states.map Prod.fst).count k = 1 ∧
      c.held = false := by
  have hret : ∀ (j : Nat) (x : Caller), c.callers[j]? = some x →
      ∃ res, x = .returned res := by
    intro j x hx
    have hall := List.all_eq_true.mp hdone x (List.getElem?_mem hx)
    cases x with
    | returned res => exact ⟨res, rfl⟩
    | waiting r => cases hall
    | locked r => cases hall
    | validated a b => cases hall
    | checked a b => cases hall
    | leaving res => cases hall
  have hlen := hinv.len
  have h0 : ∃ x, c.callers[0]? = some x := by
    refine ⟨c.callers[0], ?_⟩
    exact List.getElem?_eq_getElem (by omega)
  obtain ⟨x0, hx0⟩ := h0
  obtain ⟨res0, rfl⟩ := hret 0 x0 hx0
  have hstore : c.store.states.get k ≠ none := by
    rcases hinv.ok 0 _ hx0 with ⟨v, _, _, hv⟩ | ⟨_, hv⟩
    · rw [hv]; simp
    · exact hv
  obtain ⟨i, x, hx, wx⟩ := hinv.winner hstore
  obtain ⟨res, rfl⟩ := hret i x hx
  obtain ⟨created, e⟩ := res
  cases e with
  | some err => cases wx
  | none =>
    have hoki := hinv.ok i _ hx
    rcases hoki with ⟨v, hv1, hv2, hv3⟩ | ⟨hv, _⟩
    · cases hv1
      refine ⟨i, created, hx, hv2, ?_, hv3, ?_, ?_⟩
      · intro j hj hne
        have hj2 : ∃ y, c.callers[j]? = some y :=
          ⟨c.callers[j], List.getElem?_eq_getElem (by omega)⟩
        obtain ⟨y, hy⟩ := hj2
        obtain ⟨resj, rfl⟩ := hret j y hy
        rcases hinv.ok j _ hy with ⟨w, hw1, _, _⟩ | ⟨hw, _⟩
        · subst hw1
          exact absurd (hinv.unique j i _ _ hy hx rfl rfl) hne
        · rw [hy, hw]
      · have hmem : k ∈ c.store.states.map Prod.fst := by
          by_contra hc
          rw [← StateMap.get_eq_none_iff] at hc
          exact hstore hc
        exact List.count_eq_one_of_mem hinv.wf hmem
      · by_contra hc
        have hb : c.held = true := by simpa using hc
        obtain ⟨i0, y, hy, hyq, _⟩ := hinv.busy hb
        obtain ⟨r, rfl⟩ := hret i0 y hy
        cases hyq
    · cases hv

theorem weight_set (l : List Caller) (i : Nat) (old a : Caller) (h : l[i]? = some old) :
    ((l.set i a).map Caller.rank).sum + old.rank = (l.map Caller.rank).sum + a.rank := by
  induction l generalizing i with
  | nil => simp at h
  | cons x t ih =>
    cases i with
    | zero =>
      simp only [List.getElem?_cons_zero, Option.some.injEq] at h
      subst h
      simp only [List.set_cons_zero, List.map_cons, List.sum_cons]
      omega
    | succ m =>
      simp only [List.getElem?_cons_succ] at h
      have := ih m h
      simp only [List.set_cons_succ, List.map_cons, List.sum_cons]
      omega

/-- While a caller has not returned, some caller can take a step, and the step
brings the callers nearer to their return. -/
theorem CallersInv.progress {title : String → String} {ta : List Coordinate → Float64}
    {k : String} {n : Nat} {c : Shared} (hinv : CallersInv title ta k n c)
    (hdone : allReturned c = false) :
    ∃ i, weight (stepCaller title ta c i) < weight c := by
  have hmove : ∀ i old a st h, c.callers[i]? = some old → a.rank < old.rank →
      weight ⟨st, h, c.callers.set i a⟩ < weight c := by
    intro i old a st h hi hr
    have := weight_set c.callers i old a hi
    simp only [weight]
    omega
  by_cases hheld : c.held = true
  · obtain ⟨i, y, hy, hyq, _⟩ := hinv.busy hheld
    refine ⟨i, ?_⟩
    unfold stepCaller
    rw [hy]
    cases y with
    | waiting r => cases hyq
    | returned res => cases hyq
    | locked r =>
      simp only
      cases hn : NewState ta (title r.Name) r.Border with
      | mk created err =>
        cases err with
        | some err => exact hmove i _ _ _ _ hy (by simp [Caller.rank])
        | none => exact hmove i _ _ _ _ hy (by simp [Caller.rank])
    | validated st created =>
      simp only
      cases hg : c.store.states.get created.Name with
      | some found => exact hmove i _ _ _ _ hy (by simp [Caller.rank])
      | none => exact hmove i _ _ _ _ hy (by simp [Caller.rank])
    | checked st created => exact hmove i _ _ _ _ hy (by simp [Caller.rank])
    | leaving res => exact hmove i _ _ _ _ hy (by simp [Caller.rank])
  · have hf : c.held = false := by simpa using hheld
    have hex : ∃ x ∈ c.callers, x.isReturned = false := by
      by_contra hc
      have : allReturned c = true := by
        unfold allReturned
        rw [List.all_eq_true]
        intro x hx
        by_contra hx2
        exact hc ⟨x, hx, by simpa using hx2⟩
      rw [this] at hdone
      cases hdone
    obtain ⟨x, hx, hxr⟩ := hex
    obtain ⟨i, hi⟩ := List.getElem?_of_mem hx
    refine ⟨i, ?_⟩
    have hq := hinv.free hf i x hi
    unfold stepCaller
    rw [hi]
    cases x with
    | waiting r =>
      simp only [hf, Bool.false_eq_true, if_false]
      exact hmove i _ _ _ _ hi (by simp [Caller.rank])
    | returned res => cases hxr
    | locked r => cases hq
    | validated a b => cases hq
    | checked a b => cases hq
    | leaving res => cases hq

/-- Some schedule lets every caller return. -/
theorem CallersInv.complete {title : String → String} {ta : List Coordinate → Float64}
    {k : String} {n : Nat} (hk : 2 ≤ k.utf8ByteSize) (m : Nat) (c : Shared)
    (hinv : CallersInv title ta k n c) (hm : weight c ≤ m) :
    ∃ schedule, allReturned (runSchedule title ta c schedule) = true := by
  induction m generalizing c with
  | zero =>
    by_cases hdone : allReturned c = true
    · exact ⟨[], hdone⟩
    · obtain ⟨i, hi⟩ := hinv.progress (by simpa using hdone)
      omega
  | succ m ih =>
    by_cases hdone : allReturned c = true
    · exact ⟨[], hdone⟩
    · obtain ⟨i, hi⟩ := hinv.progress (by simpa using hdone)
      obtain ⟨rest, hrest⟩ := ih _ (hinv.step hk i) (by omega)
      exact ⟨i :: rest, hrest⟩

/-- A caller that runs alone leaves the store `Create` leaves and returns what
`Create` returns. -/
theorem runSchedule_alone (title : String → String) (ta : List Coordinate → Float64)
    (s : StateLocationMemoryStore) (r : State) :
    (runSchedule title ta (startAll s [r]) [0, 0, 0, 0, 0]).store = (Create title ta s r).1 ∧
      (runSchedule title ta (startAll s [r]) [0, 0, 0, 0, 0]).callers =
        [.returned (Create title ta s r).2] ∧
      (runSchedule title ta (startAll s [r]) [0, 0, 0, 0, 0]).held = false := by
  rw [Create_eq]
  cases hn : NewState ta (title r.Name) r.Border with
  | mk created err =>
    cases err with
    | some err => simp [runSchedule, startAll, stepCaller, hn]
    | none =>
      cases hg : s.states.get created.Name with
      | some found => simp [runSchedule, startAll, stepCaller, hn, hg]
      | none => simp [runSchedule, startAll, stepCaller, hn, hg]

/-- The original claim C22 fails for a key of fewer than 2 bytes: the names "a" and "A"
normalize to the same key "A", the border is valid and the new store does not hold
"A", yet of two callers of `Create` none succeeds: both receive the error of the
name check, none the duplicate error, and the store holds no entry afterwards. -/
theorem C22_short_key_counterexample :
    asciiTitle "a" = "A" ∧ asciiTitle "A" = "A" ∧
      NewPolygon clockwiseAngle validRing = .ok validRing ∧
      NewMemoryStore.states.get "A" = none ∧
      allReturned (runSchedule asciiTitle clockwiseAngle
        (startAll NewMemoryStore shortKeyRequests) [0, 1, 0, 0, 1, 1, 1]) = true ∧
      (runSchedule asciiTitle clockwiseAngle
        (startAll NewMemoryStore shortKeyRequests) [0, 1, 0, 0, 1, 1, 1]).callers =
        [.returned (State.empty, some (.InvalidStateError
            (.errorString "invalid name for state, minimum length is 2: A"))),
          .returned (State.empty, some (.InvalidStateError
            (.errorString "invalid name for state, minimum length is 2: A")))] ∧
      (runSchedule asciiTitle clockwiseAngle
        (startAll NewMemoryStore shortKeyRequests) [0, 1, 0, 0, 1, 1, 1]).store.states = [] := by
  refine ⟨by decide, by decide, by decide, by decide, by decide, by decide, by decide⟩

/-- C22, amended: callers of `Create` run interleaved, each with a name that
normalizes to the key `k` of at least 2 bytes and a border `NewPolygon` accepts, on
a store that does not hold `k`. Some schedule lets every caller return; and
whenever every caller has returned, whatever the schedule, exactly one caller has
returned a state without error, every other caller has returned the duplicate
error for `k`, the store maps `k` to the state the one caller returned, `k` is the
key of exactly one entry, and the lock is free. -/
theorem C22_concurrent_create_one_winner (title : String → String)
    (ta : List Coordinate → Float64) (s : StateLocationMemoryStore) (requests : List State)
    (k : String) (hk : 2 ≤ k.utf8ByteSize) (hwf : s.states.WF) (hs : s.states.get k = none)
    (hreq : ∀ r ∈ requests, title r.Name = k ∧ ∃ b, NewPolygon ta r.Border = .ok b)
    (hne : requests ≠ []) :
    (∃ schedule, allReturned (runSchedule title ta (startAll s requests) schedule) = true) ∧
      ∀ schedule, allReturned (runSchedule title ta (startAll s requests) schedule) = true →
        ∃ i created,
          (runSchedule title ta (startAll s requests) schedule).callers[i]? =
              some (.returned (created, none)) ∧
            created.Name = k ∧
            (∀ j, j < requests.length → j ≠ i →
              (runSchedule title ta (startAll s requests) schedule).callers[j]? =
                some (.returned (State.empty, some (duplicateError k)))) ∧
            (runSchedule title ta (startAll s requests) schedule).store.states.get k =
              some created ∧
            ((runSchedule title ta (startAll s requests) schedule).store.states.map
              Prod.fst).count k = 1 ∧
            (runSchedule title ta (startAll s requests) schedule).held = false := by
  have hstart := CallersInv.start title ta k s requests hwf hs hreq
  refine ⟨CallersInv.complete hk _ _ hstart (Nat.le_refl _), ?_⟩
  intro schedule hdone
  have hn : 0 < requests.length := List.length_pos.mpr hne
  exact (CallersInv.run hk schedule _ hstart).finish hn hdone

/-- Witness of C22: three callers create "valid", "VALID" and "vaLid" at the same
time on the new store; on a schedule on which the third caller takes the lock
first, it is the one that returns the state "Valid". -/
theorem C22_concurrent_create_one_winner_witness :
    ∃ i created,
      (runSchedule asciiTitle clockwiseAngle
          (startAll NewMemoryStore sameKeyRequests)
          thirdFirst).callers[i]? =
          some (.returned (created, none)) ∧
        created.Name = "Valid" ∧
        (∀ j, j < sameKeyRequests.length → j ≠ i →
          (runSchedule asciiTitle clockwiseAngle
            (startAll NewMemoryStore sameKeyRequests)
            thirdFirst).callers[j]? =
            some (.returned (State.empty, some (duplicateError "Valid")))) ∧
        (runSchedule asciiTitle clockwiseAngle
          (startAll NewMemoryStore sameKeyRequests)
          thirdFirst).store.states.get "Valid" =
          some created ∧
        ((runSchedule asciiTitle clockwiseAngle
          (startAll NewMemoryStore sameKeyRequests)
          thirdFirst).store.states.map
          Prod.fst).count "Valid" = 1 ∧
        (runSchedule asciiTitle clockwiseAngle
          (startAll NewMemoryStore sameKeyRequests)
          thirdFirst).held = false :=
  (C22_concurrent_create_one_winner asciiTitle clockwiseAngle NewMemoryStore
    sameKeyRequests "Valid" (by decide)
    (by unfold StateMap.WF; decide) (by decide)
    (by
      intro r hr
      simp only [sameKeyRequests, List.mem_cons, List.mem_singleton, List.not_mem_nil,
        or_false] at hr
      rcases hr with h | h | h <;> subst h <;> exact ⟨by decide, validRing, by decide⟩)
    (by decide)).2 thirdFirst (by decide)

/-! ## Floats as rational numbers -/

/-- The magnitude of the number a float denotes, times 2^1074. -/
def Float64.natVal (x : Float64) : Nat :=
  if x.exp.val = 0 then x.frac.val
  else (Float64.twoP52 + x.frac.val) * 2 ^ (x.exp.val - 1)

theorem Float64.scaled_eq (x : Float64) :
    x.scaled = if x.sign then -(x.natVal : Int) else (x.natVal : Int) := rfl

theorem Float64.natVal_upper (x : Float64) : x.natVal < Float64.twoP52 * 2 ^ x.exp.val := by
  have hf : x.frac.val < 4503599627370496 := x.frac.isLt
  unfold Float64.natVal Float64.twoP52
  by_cases h : x.exp.val = 0
  · simp only [h, if_true, pow_zero]
    omega
  · simp only [h, if_false]
    obtain ⟨e, he⟩ : ∃ e, x.exp.val = e + 1 := ⟨x.exp.val - 1, by omega⟩
    rw [he, Nat.add_sub_cancel, pow_succ]
    have hp : 0 < 2 ^ e := by positivity
    calc (4503599627370496 + x.frac.val) * 2 ^ e
        < (4503599627370496 * 2) * 2 ^ e := Nat.mul_lt_mul_of_pos_right (by omega) hp
      _ = 4503599627370496 * (2 ^ e * 2) := by ring

theorem Float64.natVal_lower (x : Float64) (h : x.exp.val ≠ 0) :
    Float64.twoP52 * 2 ^ (x.exp.val - 1) ≤ x.natVal := by
  unfold Float64.natVal
  simp only [h, if_false]
  exact Nat.mul_le_mul_right _ (Nat.le_add_right _ _)

theorem Float64.natVal_mono (x y : Float64) (h : x.mag < y.mag) : x.natVal < y.natVal := by
  have hfx : x.frac.val < 4503599627370496 := x.frac.isLt
  have hfy : y.frac.val < 4503599627370496 := y.frac.isLt
  unfold Float64.mag Float64.twoP52 at h
  rcases Nat.lt_trichotomy x.exp.val y.exp.val with he | he | he
  · have h1 := Float64.natVal_upper x
    have h2 := Float64.natVal_lower y (by omega)
    have h3 : 2 ^ x.exp.val ≤ 2 ^ (y.exp.val - 1) :=
      Nat.pow_le_pow_right (by norm_num) (by omega)
    have h4 : Float64.twoP52 * 2 ^ x.exp.val ≤ Float64.twoP52 * 2 ^ (y.exp.val - 1) :=
      Nat.mul_le_mul_left _ h3
    omega
  · have hf : x.frac.val < y.frac.val := by
      rw [he] at h
      omega
    unfold Float64.natVal
    rw [he]
    by_cases h0 : y.exp.val = 0
    · simp only [h0, if_true]
      exact hf
    · simp only [h0, if_false]
      exact Nat.mul_lt_mul_of_pos_right (by omega) (by positivity)
  · exfalso
    have : (y.exp.val + 1) * 4503599627370496 ≤ x.exp.val * 4503599627370496 :=
      Nat.mul_le_mul_right _ he
    omega

theorem Float64.natVal_lt_iff (x y : Float64) : x.mag < y.mag ↔ x.natVal < y.natVal := by
  constructor
  · exact Float64.natVal_mono x y
  · intro h
    by_contra hc
    rcases Nat.lt_or_eq_of_le (Nat.le_of_not_lt hc) with h1 | h1
    · have := Float64.natVal_mono y x h1
      omega
    · have hfx : x.frac.val < 4503599627370496 := x.frac.isLt
      have hfy : y.frac.val < 4503599627370496 := y.frac.isLt
      unfold Float64.mag Float64.twoP52 at h1
      have he : x.exp.val = y.exp.val := by omega
      have hf : x.frac.val = y.frac.val := by
        rw [he] at h1
        omega
      unfold Float64.natVal at h
      rw [he, hf] at h
      omega

/-- The order of the keys is the order of the numbers. -/
theorem Float64.key_lt_iff_scaled (x y : Float64) : x.key < y.key ↔ x.scaled < y.scaled := by
  have h1 := Float64.natVal_lt_iff x y
  have h2 := Float64.natVal_lt_iff y x
  have h3 : (Float64.zero false).mag < x.mag ↔ _ := Float64.natVal_lt_iff (Float64.zero false) x
  have h4 : (Float64.zero false).mag < y.mag ↔ _ := Float64.natVal_lt_iff (Float64.zero false) y
  have z1 : (Float64.zero false).mag = 0 := rfl
  have z2 : (Float64.zero false).natVal = 0 := rfl
  rw [z1, z2] at h3 h4
  rw [Float64.scaled_eq, Float64.scaled_eq]
  unfold Float64.key
  cases x.sign <;> cases y.sign <;> simp only [if_true, if_false, Bool.false_eq_true] <;> omega

theorem Float64.toRat_lt_iff (x y : Float64) : x.toRat < y.toRat ↔ x.scaled < y.scaled := by
  unfold Float64.toRat
  rw [div_lt_div_iff_of_pos_right (by positivity)]
  exact Int.cast_lt

/-- Go's `<` on floats that are no NaN is the order of the numbers they denote. -/
theorem Float64.lt_iff_toRat (x y : Float64) (hx : x.isNaN = false) (hy : y.isNaN = false) :
    x.lt y = true ↔ x.toRat < y.toRat := by
  rw [Float64.toRat_lt_iff, ← Float64.key_lt_iff_scaled]
  unfold Float64.lt
  simp [hx, hy]

/-! ## The edge test and the geometry of the ray -/

/-- West of both endpoints, with the latitude strictly between theirs, the ray hits. -/
theorem rayIntersectsEdge_west (k : Nat) (p : Coordinate) (e : edge) (hb : latBetween p e)
    (l1 : p.Lng.lt e.p1.Lng = true) (l2 : p.Lng.lt e.p2.Lng = true) :
    rayIntersectsEdge (k + 1) p e = some true := by
  obtain ⟨a, b, hab, h1, h2, hn, hr⟩ := rayIntersectsEdge_between k p e hb
  have la : p.Lng.lt a.Lng = true := by
    rcases hab with ⟨x, _⟩ | ⟨x, _⟩ <;> rw [x] <;> assumption
  have lb : p.Lng.lt b.Lng = true := by
    rcases hab with ⟨_, x⟩ | ⟨_, x⟩ <;> rw [x] <;> assumption
  rw [hr, rayOrdered_left (k + 1) p a b la lb, hn]
  simp [Float64.lt_asymm _ _ h1, Float64.gt, Float64.lt_asymm _ _ h2]

/-- East of both endpoints, with the latitude strictly between theirs, the ray
misses. -/
theorem rayIntersectsEdge_east (k : Nat) (p : Coordinate) (e : edge) (hb : latBetween p e)
    (l1 : p.Lng.gt e.p1.Lng = true) (l2 : p.Lng.gt e.p2.Lng = true) :
    rayIntersectsEdge (k + 1) p e = some false := by
  obtain ⟨a, b, hab, h1, h2, hn, hr⟩ := rayIntersectsEdge_between k p e hb
  have la : p.Lng.gt a.Lng = true := by
    rcases hab with ⟨x, _⟩ | ⟨x, _⟩ <;> rw [x] <;> assumption
  have lb : p.Lng.gt b.Lng = true := by
    rcases hab with ⟨_, x⟩ | ⟨_, x⟩ <;> rw [x] <;> assumption
  rw [hr, rayOrdered_right (k + 1) p a b la lb, hn]
  rfl

/-- Strictly inside the longitudes of the endpoints `a` (lower) and `b` (upper), with
the latitude strictly between theirs, the edge test is the comparison of the two
slopes. -/
theorem rayOrdered_inside (k : Nat) (p a b : Coordinate)
    (h1 : a.Lat.lt p.Lat = true) (h2 : p.Lat.lt b.Lat = true)
    (hin : (a.Lng.lt p.Lng = true ∧ p.Lng.lt b.Lng = true) ∨
      (b.Lng.lt p.Lng = true ∧ p.Lng.lt a.Lng = true)) :
    rayOrdered (k + 1) p a b =
      some (((p.Lat.sub a.Lat).div (p.Lng.sub a.Lng)).ge
        ((b.Lat.sub a.Lat).div (b.Lng.sub a.Lng))) := by
  have hn : nudge (k + 1) p.Lat a.Lat b.Lat = some p.Lat :=
    nudge_of_ne k _ _ _ (Float64.eq_false_of_gt _ _ h1) (Float64.eq_false_of_lt _ _ h2)
  unfold rayOrdered
  rw [hn]
  simp only [Float64.lt_asymm _ _ h1, Float64.gt, Float64.lt_asymm _ _ h2, Bool.or_self,
    Bool.false_eq_true, if_false]
  rcases hin with ⟨i1, i2⟩ | ⟨i1, i2⟩
  · have hab : b.Lng.lt a.Lng = false := Float64.lt_asymm _ _ (Float64.lt_trans _ _ _ i1 i2)
    simp [hab, Float64.lt_asymm _ _ i1, Float64.lt_asymm _ _ i2]
  · have hab : b.Lng.lt a.Lng = true := Float64.lt_trans _ _ _ i1 i2
    simp [hab, Float64.lt_asymm _ _ i1, Float64.lt_asymm _ _ i2]

/-- The longitude at which a segment is at a latitude strictly between those of its
endpoints lies between the longitudes of the endpoints. -/
theorem crossing_between (x1 y1 x2 y2 px py : ℚ)
    (h : (y1 < py ∧ py < y2) ∨ (y2 < py ∧ py < y1)) :
    (px < x1 → px < x2 → px ≤ x1 + (py - y1) * (x2 - x1) / (y2 - y1)) ∧
      (x1 < px → x2 < px → ¬ px ≤ x1 + (py - y1) * (x2 - x1) / (y2 - y1)) := by
  have hd : y2 - y1 ≠ 0 := by
    rcases h with ⟨a, b⟩ | ⟨a, b⟩
    · exact ne_of_gt (by linarith)
    · exact ne_of_lt (by linarith)
  have ht : 0 < (py - y1) / (y2 - y1) ∧ (py - y1) / (y2 - y1) < 1 := by
    rcases h with ⟨a, b⟩ | ⟨a, b⟩
    · have hpos : 0 < y2 - y1 := by linarith
      exact ⟨div_pos (by linarith) hpos, (div_lt_one hpos).mpr (by linarith)⟩
    · have hneg : y2 - y1 < 0 := by linarith
      exact ⟨div_pos_of_neg_of_neg (by linarith) hneg,
        (div_lt_one_of_neg hneg).mpr (by linarith)⟩
  have e : x1 + (py - y1) * (x2 - x1) / (y2 - y1) =
      x1 + (py - y1) / (y2 - y1) * (x2 - x1) := by ring
  rw [e]
  obtain ⟨t0, t1⟩ := ht
  constructor
  · intro a b
    nlinarith [mul_pos t0 (sub_pos.mpr b), mul_pos (sub_pos.mpr t1) (sub_pos.mpr a)]
  · intro a b hle
    nlinarith [mul_pos t0 (sub_pos.mpr b), mul_pos (sub_pos.mpr t1) (sub_pos.mpr a)]

/-- The number a positive normal float denotes. -/
theorem Float64.toRat_normal (e : Fin 2048) (f : Fin 4503599627370496) (h0 : e.val ≠ 0)
    (h1 : e.val ≤ 1075) :
    Float64.toRat ⟨false, e, f⟩ = ((4503599627370496 + f.val : Nat) : ℚ) / 2 ^ (1075 - e.val) := by
  have hs : Float64.scaled ⟨false, e, f⟩ =
      (((4503599627370496 + f.val) * 2 ^ (e.val - 1) : Nat) : Int) := by
    unfold Float64.scaled Float64.twoP52
    simp only [h0, if_false, Bool.false_eq_true]
  have hp : (2 : ℚ) ^ 1074 = 2 ^ (1075 - e.val) * 2 ^ (e.val - 1) := by
    rw [← pow_add]
    congr 1
    omega
  unfold Float64.toRat
  rw [hs, hp]
  push_cast
  exact mul_div_mul_right _ _ (by positivity)

/-- The number the zero float denotes. -/
theorem Float64.toRat_zero : Float64.toRat ⟨false, 0, 0⟩ = 0 := by
  have hs : Float64.scaled ⟨false, 0, 0⟩ = 0 := rfl
  unfold Float64.toRat
  rw [hs]
  simp

/-- The claim C23 as stated fails where the slopes are compared in float arithmetic:
the edge (0,0)-(3,1) in (lng,lat) has endpoints of different latitudes, the
latitude of the point (1, 1/3 rounded to a float) lies strictly between them, the
edge is at that latitude at a longitude below 1, so the ray from the point does not
meet it, and `rayIntersectsEdge` returns true. -/
theorem C23_rounded_slope_counterexample :
    (coordZ 0 0).Lat.eq (coordZ 3 1).Lat = false ∧
      latBetween ⟨Float64.ofNat 1, Float64.ofRat false 1 3⟩ ⟨coordZ 0 0, coordZ 3 1⟩ ∧
      rayIntersectsEdge 1 ⟨Float64.ofNat 1, Float64.ofRat false 1 3⟩
        ⟨coordZ 0 0, coordZ 3 1⟩ = some true ∧
      ¬ rayMeetsEdge ⟨Float64.ofNat 1, Float64.ofRat false 1 3⟩ ⟨coordZ 0 0, coordZ 3 1⟩ := by
  refine ⟨by decide, Or.inl ⟨by decide, by decide⟩, by decide, ?_⟩
  have f1 : Float64.ofNat 1 = ⟨false, 1023, 0⟩ := by decide
  have f3 : Float64.ofRat false 1 3 = ⟨false, 1021, 1501199875790165⟩ := by decide
  have z0 : (coordZ 0 0) = ⟨⟨false, 0, 0⟩, ⟨false, 0, 0⟩⟩ := by decide
  have z3 : (coordZ 3 1) = ⟨⟨false, 1024, 2251799813685248⟩, ⟨false, 1023, 0⟩⟩ := by decide
  have t1 : Float64.toRat ⟨false, 1023, 0⟩ = 1 := by
    rw [Float64.toRat_normal 1023 0 (by decide) (by decide)]
    have v1 : ((1023 : Fin 2048) : Nat) = 1023 := rfl
    have v2 : ((0 : Fin 4503599627370496) : Nat) = 0 := rfl
    rw [v1, v2]
    norm_num
  have t3 : Float64.toRat ⟨false, 1024, 2251799813685248⟩ = 3 := by
    rw [Float64.toRat_normal 1024 2251799813685248 (by decide) (by decide)]
    have v1 : ((1024 : Fin 2048) : Nat) = 1024 := rfl
    have v2 : ((2251799813685248 : Fin 4503599627370496) : Nat) = 2251799813685248 := rfl
    rw [v1, v2]
    norm_num
  have t0 := Float64.toRat_zero
  have tp : Float64.toRat ⟨false, 1021, 1501199875790165⟩ =
      6004799503160661 / 18014398509481984 := by
    rw [Float64.toRat_normal 1021 1501199875790165 (by decide) (by decide)]
    have v1 : ((1021 : Fin 2048) : Nat) = 1021 := rfl
    have v2 : ((1501199875790165 : Fin 4503599627370496) : Nat) = 1501199875790165 := rfl
    rw [v1, v2]
    norm_num
  unfold rayMeetsEdge crossingLng
  rw [f1, f3, z0, z3]
  simp only [t1, t3, t0, tp]
  norm_num

/-- The latitudes of the point and of the endpoints as numbers, when the latitude of
the point lies strictly between those of the endpoints. -/
theorem latBetween_toRat (p : Coordinate) (e : edge) (hb : latBetween p e) :
    (e.p1.Lat.toRat < p.Lat.toRat ∧ p.Lat.toRat < e.p2.Lat.toRat) ∨
      (e.p2.Lat.toRat < p.Lat.toRat ∧ p.Lat.toRat < e.p1.Lat.toRat) := by
  rcases hb with ⟨a, b⟩ | ⟨a, b⟩
  · obtain ⟨n1, n2, _⟩ := Float64.not_nan_of_lt _ _ a
    obtain ⟨_, n3, _⟩ := Float64.not_nan_of_lt _ _ b
    exact Or.inl ⟨(Float64.lt_iff_toRat _ _ n1 n2).mp a, (Float64.lt_iff_toRat _ _ n2 n3).mp b⟩
  · obtain ⟨n1, n2, _⟩ := Float64.not_nan_of_lt _ _ a
    obtain ⟨_, n3, _⟩ := Float64.not_nan_of_lt _ _ b
    exact Or.inr ⟨(Float64.lt_iff_toRat _ _ n1 n2).mp a, (Float64.lt_iff_toRat _ _ n2 n3).mp b⟩

/-- C23, amended: for a point and an edge with finite coordinates, the latitude of
the point strictly between the latitudes of the endpoints (which therefore differ):
when the longitude of the point is strictly less than both endpoint longitudes or
strictly greater than both, `rayIntersectsEdge` returns, and returns true exactly
when the longitude of the point is at most the longitude at which the segment is at
the latitude of the point; when the longitude of the point lies strictly between
the endpoint longitudes, `rayIntersectsEdge` returns the comparison, in float
arithmetic, of the slope from the lower endpoint to the point with the slope of the
edge. -/
theorem C23_edge_test_geometric (k : Nat) (p : Coordinate) (e : edge)
    (hp : p.isFinite = true) (h1 : e.p1.isFinite = true) (h2 : e.p2.isFinite = true)
    (hb : latBetween p e) :
    e.p1.Lat.eq e.p2.Lat = false ∧
      (((p.Lng.lt e.p1.Lng = true ∧ p.Lng.lt e.p2.Lng = true) ∨
          (p.Lng.gt e.p1.Lng = true ∧ p.Lng.gt e.p2.Lng = true)) →
        ∃ r, rayIntersectsEdge (k + 1) p e = some r ∧ (r = true ↔ rayMeetsEdge p e)) ∧
      (e.p1.Lat.lt e.p2.Lat = true →
        ((e.p1.Lng.lt p.Lng = true ∧ p.Lng.lt e.p2.Lng = true) ∨
          (e.p2.Lng.lt p.Lng = true ∧ p.Lng.lt e.p1.Lng = true)) →
        rayIntersectsEdge (k + 1) p e =
          some (((p.Lat.sub e.p1.Lat).div (p.Lng.sub e.p1.Lng)).ge
            ((e.p2.Lat.sub e.p1.Lat).div (e.p2.Lng.sub e.p1.Lng)))) ∧
      (e.p2.Lat.lt e.p1.Lat = true →
        ((e.p1.Lng.lt p.Lng = true ∧ p.Lng.lt e.p2.Lng = true) ∨
          (e.p2.Lng.lt p.Lng = true ∧ p.Lng.lt e.p1.Lng = true)) →
        rayIntersectsEdge (k + 1) p e =
          some (((p.Lat.sub e.p2.Lat).div (p.Lng.sub e.p2.Lng)).ge
            ((e.p1.Lat.sub e.p2.Lat).div (e.p1.Lng.sub e.p2.Lng)))) := by
  have np : p.Lng.isNaN = false := by
    simp only [Coordinate.isFinite, Bool.and_eq_true] at hp
    exact (Float64.not_nan_of_finite _ hp.1).1
  have n1 : e.p1.Lng.isNaN = false := by
    simp only [Coordinate.isFinite, Bool.and_eq_true] at h1
    exact (Float64.not_nan_of_finite _ h1.1).1
  have n2 : e.p2.Lng.isNaN = false := by
    simp only [Coordinate.isFinite, Bool.and_eq_true] at h2
    exact (Float64.not_nan_of_finite _ h2.1).1
  have hq := latBetween_toRat p e hb
  have hgeo := crossing_between e.p1.Lng.toRat e.p1.Lat.toRat e.p2.Lng.toRat e.p2.Lat.toRat
    p.Lng.toRat p.Lat.toRat hq
  refine ⟨?_, ?_, ?_, ?_⟩
  · rcases hb with ⟨a, b⟩ | ⟨a, b⟩
    · exact Float64.eq_false_of_lt _ _ (Float64.lt_trans _ _ _ a b)
    · exact Float64.eq_false_of_gt _ _ (Float64.lt_trans _ _ _ a b)
  · rintro (⟨l1, l2⟩ | ⟨l1, l2⟩)
    · refine ⟨true, rayIntersectsEdge_west k p e hb l1 l2, ?_⟩
      have := hgeo.1 ((Float64.lt_iff_toRat _ _ np n1).mp l1)
        ((Float64.lt_iff_toRat _ _ np n2).mp l2)
      simp only [true_iff]
      exact this
    · refine ⟨false, rayIntersectsEdge_east k p e hb l1 l2, ?_⟩
      have := hgeo.2 ((Float64.lt_iff_toRat _ _ n1 np).mp l1)
        ((Float64.lt_iff_toRat _ _ n2 np).mp l2)
      simp only [Bool.false_eq_true, false_iff]
      exact this
  · intro hl hin
    have hlat : e.p1.Lat.lt p.Lat = true ∧ p.Lat.lt e.p2.Lat = true := by
      rcases hb with h | ⟨a, b⟩
      · exact h
      · have := Float64.lt_asymm _ _ (Float64.lt_trans _ _ _ a b)
        rw [hl] at this
        cases this
    rw [rayIntersectsEdge_eq]
    simp only [hl, if_true]
    exact rayOrdered_inside k p e.p1 e.p2 hlat.1 hlat.2 hin
  · intro hl hin
    have hlat : e.p2.Lat.lt p.Lat = true ∧ p.Lat.lt e.p1.Lat = true := by
      rcases hb with ⟨a, b⟩ | h
      · have := Float64.lt_asymm _ _ (Float64.lt_trans _ _ _ a b)
        rw [hl] at this
        cases this
      · exact h
    rw [rayIntersectsEdge_eq]
    simp only [Float64.lt_asymm _ _ hl, if_false, Bool.false_eq_true]
    exact rayOrdered_inside k p e.p2 e.p1 hlat.1 hlat.2 (Or.symm hin)

/-- Witness of C23: the ray from (1,5) meets the edge (15,2)-(10,10) of the tests, and
`rayIntersectsEdge` returns true there. -/
theorem C23_edge_test_geometric_witness :
    ∃ r, rayIntersectsEdge 1 (coordZ 1 5) ⟨coordZ 15 2, coordZ 10 10⟩ = some r ∧
      (r = true ↔ rayMeetsEdge (coordZ 1 5) ⟨coordZ 15 2, coordZ 10 10⟩) :=
  (C23_edge_test_geometric 0 (coordZ 1 5) ⟨coordZ 15 2, coordZ 10 10⟩ (by decide) (by decide)
    (by decide) (Or.inl ⟨by decide, by decide⟩)).2.1 (Or.inl ⟨by decide, by decide⟩)

/-- Where the longitude of the point equals that of the lower endpoint of a leaning
edge, the first slope is a division by zero: from (15,5) the edge (15,2)-(10,10) is
at longitude 105/8, west of the point, so the ray does not meet it, yet
`rayIntersectsEdge` returns true, and `Contains` puts the point inside the triangle
(15,2), (10,10), (0,2). -/
theorem rayIntersectsEdge_under_lower_endpoint :
    rayIntersectsEdge 1 (coordZ 15 5) ⟨coordZ 15 2, coordZ 10 10⟩ = some true ∧
      crossingLng (coordZ 15 5) (coordZ 15 2) (coordZ 10 10) = 105 / 8 ∧
      ¬ rayMeetsEdge (coordZ 15 5) ⟨coordZ 15 2, coordZ 10 10⟩ ∧
      Contains 3 leaningTriangle (coordZ 15 5) = some true := by
  have c1 : coordZ 15 5 = ⟨⟨false, 1026, 3940649673949184⟩,
      ⟨false, 1025, 1125899906842624⟩⟩ := by decide
  have c2 : coordZ 15 2 = ⟨⟨false, 1026, 3940649673949184⟩, ⟨false, 1024, 0⟩⟩ := by decide
  have c3 : coordZ 10 10 = ⟨⟨false, 1026, 1125899906842624⟩,
      ⟨false, 1026, 1125899906842624⟩⟩ := by decide
  have t15 : Float64.toRat ⟨false, 1026, 3940649673949184⟩ = 15 := by
    rw [Float64.toRat_normal 1026 3940649673949184 (by decide) (by decide)]
    have v1 : ((1026 : Fin 2048) : Nat) = 1026 := rfl
    have v2 : ((3940649673949184 : Fin 4503599627370496) : Nat) = 3940649673949184 := rfl
    rw [v1, v2]
    norm_num
  have t10 : Float64.toRat ⟨false, 1026, 1125899906842624⟩ = 10 := by
    rw [Float64.toRat_normal 1026 1125899906842624 (by decide) (by decide)]
    have v1 : ((1026 : Fin 2048) : Nat) = 1026 := rfl
    have v2 : ((1125899906842624 : Fin 4503599627370496) : Nat) = 1125899906842624 := rfl
    rw [v1, v2]
    norm_num
  have t5 : Float64.toRat ⟨false, 1025, 1125899906842624⟩ = 5 := by
    rw [Float64.toRat_normal 1025 1125899906842624 (by decide) (by decide)]
    have v1 : ((1025 : Fin 2048) : Nat) = 1025 := rfl
    have v2 : ((1125899906842624 : Fin 4503599627370496) : Nat) = 1125899906842624 := rfl
    rw [v1, v2]
    norm_num
  have t2 : Float64.toRat ⟨false, 1024, 0⟩ = 2 := by
    rw [Float64.toRat_normal 1024 0 (by decide) (by decide)]
    have v1 : ((1024 : Fin 2048) : Nat) = 1024 := rfl
    have v2 : ((0 : Fin 4503599627370496) : Nat) = 0 := rfl
    rw [v1, v2]
    norm_num
  have hc : crossingLng (coordZ 15 5) (coordZ 15 2) (coordZ 10 10) = 105 / 8 := by
    unfold crossingLng
    rw [c1, c2, c3]
    simp only [t15, t10, t5, t2]
    norm_num
  refine ⟨by decide, hc, ?_, by decide⟩
  unfold rayMeetsEdge
  rw [hc, c1]
  simp only [t15]
  norm_num

end StateServer
